import Mathlib

/-!
# otf_parser.cpp: the sfnt header, table directory and cmap record reader

A shallow embedding of `src/otf_parser.cpp`.

* Objects are modelled by their memory image (bytes in address order), because
  the program reads file bytes verbatim into objects (`FS_READ`) and then
  reverses them in place (`endswap`).  The numeric value of an object is the
  interpretation of that image by the host, so every numeric view takes the host
  byte order as a parameter.
* `std::ifstream` is modelled by the file contents, the cursor, the sticky
  failure flag and the list of calls made on the stream.  A short read stores
  the bytes that are left, sets the flag, and every later `read` or `seekg`
  is then without effect, as `std::istream` specifies.
* Locals that the program declares without an initialiser (`Offset offset;`,
  `CmapHeader cmap_header;`, `CmapEncodingRecord encoding_record;`) start with
  an arbitrary content, given by a `Locals` parameter.  That content may depend
  on the file and on the rounds before, as when a local keeps its stack slot
  from round to round (`Locals.reused`), so a statement about two runs gives
  each run a `Locals` of its own.
* `std::cout` is modelled by the list of encoding records printed.
-/

namespace OtfParser

/-! ## Bytes, host byte order and raw objects -/

/-- One byte, of the file or of memory. -/
abbrev Byte := Fin 256

/-- Native byte order of the machine that runs the parser. -/
inductive ByteOrder where
  | big
  | little
  deriving DecidableEq, Repr

/-- Memory image of a `uint16_t`: its two bytes in address order. -/
structure uint16_t where
  m0 : Byte
  m1 : Byte
  deriving DecidableEq, Repr

/-- Memory image of a `uint32_t`: its four bytes in address order. -/
structure uint32_t where
  m0 : Byte
  m1 : Byte
  m2 : Byte
  m3 : Byte
  deriving DecidableEq, Repr

/-- The number a host reads from the memory image of a `uint16_t`. -/
def uint16_t.val (host : ByteOrder) (x : uint16_t) : Nat :=
  match host with
  | .big => x.m0.val * 2 ^ 8 + x.m1.val
  | .little => x.m1.val * 2 ^ 8 + x.m0.val

/-- The number a host reads from the memory image of a `uint32_t`. -/
def uint32_t.val (host : ByteOrder) (x : uint32_t) : Nat :=
  match host with
  | .big => x.m0.val * 2 ^ 24 + x.m1.val * 2 ^ 16 + x.m2.val * 2 ^ 8 + x.m3.val
  | .little => x.m3.val * 2 ^ 24 + x.m2.val * 2 ^ 16 + x.m1.val * 2 ^ 8 + x.m0.val

/-- The memory image a host gives to a 32-bit constant. -/
def uint32_t.of_val (host : ByteOrder) (v : Nat) : uint32_t :=
  match host with
  | .big => ⟨Fin.ofNat (v / 2 ^ 24), Fin.ofNat (v / 2 ^ 16), Fin.ofNat (v / 2 ^ 8), Fin.ofNat v⟩
  | .little => ⟨Fin.ofNat v, Fin.ofNat (v / 2 ^ 8), Fin.ofNat (v / 2 ^ 16), Fin.ofNat (v / 2 ^ 24)⟩

/-- An object seen as raw memory, the way `reinterpret_cast<char *>(&var)` with
`sizeof(var)` sees it. `store x src` overwrites byte `i` of `x` with `src[i]`
for every `i` that `src` has, and keeps the other bytes of `x`. -/
class RawObject (T : Type) where
  sizeof : Nat
  bytes : T → List Byte
  store : T → List Byte → T

instance : RawObject uint16_t where
  sizeof := 2
  bytes x := [x.m0, x.m1]
  store x src := ⟨src[0]?.getD x.m0, src[1]?.getD x.m1⟩

instance : RawObject uint32_t where
  sizeof := 4
  bytes x := [x.m0, x.m1, x.m2, x.m3]
  store x src := ⟨src[0]?.getD x.m0, src[1]?.getD x.m1, src[2]?.getD x.m2, src[3]?.getD x.m3⟩

/-! ## The data model of the source -/

/-- Values of `enum class VersionNum : uint32_t`. -/
def VersionNum.V_CFF : Nat := 0x4F54544F

/-- Values of `enum class VersionNum : uint32_t`. -/
def VersionNum.V_1_0 : Nat := 0x00010000

/-- The union `header_version_u { char str[4]; VersionNum num; }`: four bytes of
memory with two views. -/
structure header_version_u where
  raw : uint32_t
  deriving DecidableEq, Repr

/-- View `str` of the union: the four bytes in address order. -/
def header_version_u.str (v : header_version_u) : List Byte :=
  [v.raw.m0, v.raw.m1, v.raw.m2, v.raw.m3]

/-- View `num` of the union: the bytes read as a host 32-bit number. -/
def header_version_u.num (host : ByteOrder) (v : header_version_u) : Nat :=
  v.raw.val host

instance : RawObject header_version_u where
  sizeof := 4
  bytes v := RawObject.bytes v.raw
  store v src := ⟨RawObject.store v.raw src⟩

/-- The union `tag_u { char str[4]; uint32_t num; }`. -/
structure tag_u where
  raw : uint32_t
  deriving DecidableEq, Repr

/-- View `str` of the union: the four bytes in address order. -/
def tag_u.str (t : tag_u) : List Byte :=
  [t.raw.m0, t.raw.m1, t.raw.m2, t.raw.m3]

/-- View `num` of the union: the bytes read as a host 32-bit number. -/
def tag_u.num (host : ByteOrder) (t : tag_u) : Nat :=
  t.raw.val host

instance : RawObject tag_u where
  sizeof := 4
  bytes t := RawObject.bytes t.raw
  store t src := ⟨RawObject.store t.raw src⟩

/-- The struct `Header`. -/
structure Header where
  version : header_version_u
  num_tables : uint16_t
  search_range : uint16_t
  entry_selector : uint16_t
  range_shift : uint16_t
  deriving DecidableEq, Repr

/-- The struct `Offset`, one entry of the table directory. -/
structure Offset where
  tag : tag_u
  checksum : uint32_t
  offset : uint32_t
  length : uint32_t
  deriving DecidableEq, Repr

/-- The struct `OffsetTable`. -/
structure OffsetTable where
  entries : List Offset
  deriving DecidableEq, Repr

/-- The struct `CmapHeader`. -/
structure CmapHeader where
  version : uint16_t
  num_tables : uint16_t
  deriving DecidableEq, Repr

/-- The struct `CmapEncodingRecord`. -/
structure CmapEncodingRecord where
  platform_id : uint16_t
  encoding_id : uint16_t
  offset : uint32_t
  deriving DecidableEq, Repr

/-- The constant `TAG_CMAP = "cmap"`, as characters. -/
def TAG_CMAP : List Byte := [0x63, 0x6D, 0x61, 0x70]

/-- What `strncpy(dst, src, 4); dst[4] = 0; std::string(dst)` yields: the
characters of `src` before its first zero byte, four at most. -/
def strncpy_string (src : List Byte) : List Byte :=
  (src.take 4).takeWhile (fun c => c != 0)

/-- The method `Header::get_version_str`. -/
def Header.get_version_str (h : Header) : List Byte :=
  strncpy_string h.version.str

/-- The method `Offset::get_tag_str`. -/
def Offset.get_tag_str (o : Offset) : List Byte :=
  strncpy_string o.tag.str

/-- The method `OffsetTable::add_entry`: `entries.push_back`. -/
def OffsetTable.add_entry (t : OffsetTable) (offset : Offset) : OffsetTable :=
  ⟨t.entries ++ [offset]⟩

/-! ## Endian normalisation -/

/-- The function `is_big_endian`: the first byte in memory of the constant
`0x01020304` is `1`. -/
def is_big_endian (host : ByteOrder) : Bool :=
  let bint := uint32_t.of_val host 0x01020304
  bint.m0 == 1

/-- The template `endswap<T>`: `std::reverse` over the `sizeof(T)` bytes of the
object unless the host is big-endian. -/
def endswap {T : Type} [RawObject T] (host : ByteOrder) (objp : T) : T :=
  if !is_big_endian host then
    RawObject.store objp (RawObject.bytes objp).reverse
  else
    objp

/-- The function `endswap_otf_header`. -/
def endswap_otf_header (host : ByteOrder) (header : Header) : Header :=
  { version := endswap host header.version
    num_tables := endswap host header.num_tables
    search_range := endswap host header.search_range
    entry_selector := endswap host header.entry_selector
    range_shift := endswap host header.range_shift }

/-- The function `endswap_otf_offset`; the tag is left as read. -/
def endswap_otf_offset (host : ByteOrder) (offset : Offset) : Offset :=
  { tag := offset.tag
    checksum := endswap host offset.checksum
    offset := endswap host offset.offset
    length := endswap host offset.length }

/-- The method `CmapHeader::endswap_self`. -/
def CmapHeader.endswap_self (host : ByteOrder) (h : CmapHeader) : CmapHeader :=
  { version := endswap host h.version
    num_tables := endswap host h.num_tables }

/-- The method `CmapEncodingRecord::endswap_self`. -/
def CmapEncodingRecord.endswap_self (host : ByteOrder) (r : CmapEncodingRecord) :
    CmapEncodingRecord :=
  { platform_id := endswap host r.platform_id
    encoding_id := endswap host r.encoding_id
    offset := endswap host r.offset }

/-- The function `calculate_checksum`: the summands are commented out. -/
def calculate_checksum (_table : Offset) : Nat :=
  let sum := 0
  sum

/-! ## The input stream -/

/-- A call made on the stream, kept in the order made. `read pos n got` is a
`read` of `n` bytes issued with the cursor at `pos` that extracted `got`
bytes. -/
inductive StreamCall where
  | read (pos : Nat) (n : Nat) (got : Nat)
  | seekg (target : Nat)
  | close
  deriving DecidableEq, Repr

/-- An open `std::ifstream` in binary mode: the bytes of the file, the cursor,
the failure flag (`failbit`; `eofbit` is only ever set together with it here)
and the calls made so far. -/
structure ifstream where
  data : List Byte
  pos : Nat
  fail : Bool
  calls : List StreamCall
  deriving DecidableEq, Repr

/-- The stream as `main` hands it to `read_in_otf`: just opened. -/
def ifstream.open (data : List Byte) : ifstream :=
  { data := data, pos := 0, fail := false, calls := [] }

/-- The call `otf_file.read(FS_READ(var))`: on a failed stream nothing happens;
otherwise the next `sizeof(var)` bytes, or those that are left, are stored at
the start of `var`, the cursor moves past them, and the stream fails when they
were fewer than `sizeof(var)`. -/
def ifstream.read {T : Type} [RawObject T] (s : ifstream) (var : T) : ifstream × T :=
  if s.fail then
    ({ s with calls := s.calls ++ [StreamCall.read s.pos (RawObject.sizeof T) 0] }, var)
  else
    let got := (s.data.drop s.pos).take (RawObject.sizeof T)
    ({ s with
        pos := s.pos + got.length
        fail := decide (got.length < RawObject.sizeof T)
        calls := s.calls ++ [StreamCall.read s.pos (RawObject.sizeof T) got.length] },
      RawObject.store var got)

/-- The call `otf_file.seekg(target, ios::beg)`: without effect on a failed
stream; otherwise the cursor is set to `target`, also past the end of the file
(the file buffer accepts it and the next read then finds no byte). -/
def ifstream.seekg (s : ifstream) (target : Nat) : ifstream :=
  if s.fail then
    { s with calls := s.calls ++ [StreamCall.seekg target] }
  else
    { s with pos := target, calls := s.calls ++ [StreamCall.seekg target] }

/-- The call `otf_file.close()`. -/
def ifstream.close (s : ifstream) : ifstream :=
  { s with calls := s.calls ++ [StreamCall.close] }

/-! ## read_in_otf -/

/-- Initial content of the locals that are declared without an initialiser:
`offset i` for `Offset offset;` in round `i` of the directory loop,
`cmap_header e` for `CmapHeader cmap_header;` at directory entry `e`, and
`encoding_record e i` for `CmapEncodingRecord encoding_record;` in round `i` of
the record loop at directory entry `e`. The content belongs to one run: it may be
anything, what an earlier round of the same run left in the stack slot included. -/
structure Locals where
  offset : Nat → Offset
  cmap_header : Nat → CmapHeader
  encoding_record : Nat → Nat → CmapEncodingRecord

/-- Locals whose memory happens to hold zero bytes. -/
def Locals.zeroed : Locals :=
  { offset := fun _ => ⟨⟨⟨0, 0, 0, 0⟩⟩, ⟨0, 0, 0, 0⟩, ⟨0, 0, 0, 0⟩, ⟨0, 0, 0, 0⟩⟩
    cmap_header := fun _ => ⟨⟨0, 0⟩, ⟨0, 0⟩⟩
    encoding_record := fun _ _ => ⟨⟨0, 0⟩, ⟨0, 0⟩, ⟨0, 0, 0, 0⟩⟩ }

/-- Lines 193-198 of `read_in_otf`: the five reads of the header and
`endswap_otf_header`. -/
def read_in_otf_header (host : ByteOrder) (otf_file : ifstream) (header : Header) :
    ifstream × Header :=
  let r1 := otf_file.read header.version
  let r2 := r1.1.read header.num_tables
  let r3 := r2.1.read header.search_range
  let r4 := r3.1.read header.entry_selector
  let r5 := r4.1.read header.range_shift
  (r5.1, endswap_otf_header host ⟨r1.2, r2.2, r3.2, r4.2, r5.2⟩)

/-- The body of the directory loop (lines 201-209): four reads into a fresh
`Offset`, `endswap_otf_offset`, `add_entry`. -/
def read_in_otf_offset (host : ByteOrder) (offset : Offset) (otf_file : ifstream)
    (offset_table : OffsetTable) : ifstream × OffsetTable :=
  let r1 := otf_file.read offset.tag
  let r2 := r1.1.read offset.checksum
  let r3 := r2.1.read offset.offset
  let r4 := r3.1.read offset.length
  (r4.1, offset_table.add_entry (endswap_otf_offset host ⟨r1.2, r2.2, r3.2, r4.2⟩))

/-- The loop `for (int i = 0; i < header.num_tables; i++)` of lines 200-210,
entered with the counter at `i`. -/
def read_in_otf_directory (host : ByteOrder) (locals : Locals) (num_tables : uint16_t)
    (i : Nat) (otf_file : ifstream) (offset_table : OffsetTable) : ifstream × OffsetTable :=
  if i < num_tables.val host then
    let r := read_in_otf_offset host (locals.offset i) otf_file offset_table
    read_in_otf_directory host locals num_tables (i + 1) r.1 r.2
  else
    (otf_file, offset_table)
termination_by num_tables.val host - i

/-- The body of the record loop (lines 223-231): three reads into a fresh
`CmapEncodingRecord`, `endswap_self`, and the three printed lines. -/
def read_in_otf_record (host : ByteOrder) (encoding_record : CmapEncodingRecord)
    (otf_file : ifstream) (cout : List CmapEncodingRecord) :
    ifstream × List CmapEncodingRecord :=
  let r1 := otf_file.read encoding_record.platform_id
  let r2 := r1.1.read encoding_record.encoding_id
  let r3 := r2.1.read encoding_record.offset
  (r3.1, cout ++ [CmapEncodingRecord.endswap_self host ⟨r1.2, r2.2, r3.2⟩])

/-- The loop `for (uint16_t i = 0; i < cmap_header.num_tables; i++)` of lines
222-232 at directory entry `e`, entered with the counter at `i`; the counter is
16 bits wide. -/
def read_in_otf_records (host : ByteOrder) (locals : Locals) (e : Nat) (num_tables : uint16_t)
    (i : Nat) (otf_file : ifstream) (cout : List CmapEncodingRecord) :
    ifstream × List CmapEncodingRecord :=
  if i < num_tables.val host then
    let r := read_in_otf_record host (locals.encoding_record e i) otf_file cout
    read_in_otf_records host locals e num_tables ((i + 1) % 2 ^ 16) r.1 r.2
  else
    (otf_file, cout)
termination_by num_tables.val host - i
decreasing_by
  have hlt : num_tables.val host < 2 ^ 16 := by
    have h0 := num_tables.m0.isLt
    have h1 := num_tables.m1.isLt
    cases host <;> simp only [uint16_t.val] <;> omega
  omega

/-- Lines 217-220: the two reads of the cmap header and `endswap_self`. -/
def read_in_otf_cmap_header (host : ByteOrder) (cmap_header : CmapHeader)
    (otf_file : ifstream) : ifstream × CmapHeader :=
  let r1 := otf_file.read cmap_header.version
  let r2 := r1.1.read cmap_header.num_tables
  (r2.1, CmapHeader.endswap_self host ⟨r1.2, r2.2⟩)

/-- The body of the loop over `offset_table.entries` (lines 213-233) at
directory entry `e`: the `seekg` to the offset of the entry, then, when the tag
string equals `TAG_CMAP`, the cmap header and its records. -/
def read_in_otf_entry (host : ByteOrder) (locals : Locals) (e : Nat) (offset : Offset)
    (otf_file : ifstream) (cout : List CmapEncodingRecord) :
    ifstream × List CmapEncodingRecord :=
  let f := otf_file.seekg (offset.offset.val host)
  if offset.get_tag_str = TAG_CMAP then
    let h := read_in_otf_cmap_header host (locals.cmap_header e) f
    read_in_otf_records host locals e h.2.num_tables 0 h.1 cout
  else
    (f, cout)

/-- The loop `for (const auto &offset : offset_table.entries)` of lines 212-234
over the entries that are left, the first of them being entry `e`. -/
def read_in_otf_entries (host : ByteOrder) (locals : Locals) :
    List Offset → Nat → ifstream → List CmapEncodingRecord →
      ifstream × List CmapEncodingRecord
  | [], _, otf_file, cout => (otf_file, cout)
  | offset :: rest, e, otf_file, cout =>
    let r := read_in_otf_entry host locals e offset otf_file cout
    read_in_otf_entries host locals rest (e + 1) r.1 r.2

/-- What `read_in_otf` leaves behind: the stream, the two reference parameters,
and the records printed on `std::cout`. -/
structure Output where
  otf_file : ifstream
  header : Header
  offset_table : OffsetTable
  cout : List CmapEncodingRecord

/-- The function `read_in_otf`. `header` and `offset_table` are the reference
parameters as the caller passes them; `main` passes an uninitialised header and
an empty table. -/
def read_in_otf (host : ByteOrder) (locals : Locals) (otf_file : ifstream) (header : Header)
    (offset_table : OffsetTable) : Output :=
  let h := read_in_otf_header host otf_file header
  let d := read_in_otf_directory host locals h.2.num_tables 0 h.1 offset_table
  let c := read_in_otf_entries host locals d.2.entries 0 d.1 []
  { otf_file := c.1.close, header := h.2, offset_table := d.2, cout := c.2 }

/-! ## Reference decoding of file bytes -/

/-- The big-endian number written by a run of bytes. -/
def be (bs : List Byte) : Nat :=
  bs.foldl (fun acc b => acc * 256 + b.val) 0

/-- The bytes of the file in `[p, p + n)`, fewer when the file ends before. -/
def slice (data : List Byte) (p n : Nat) : List Byte :=
  (data.drop p).take n

/-- The file bytes at `p`, `p + 1` as the memory image of a 16-bit object. -/
def u16_at (data : List Byte) (p : Nat) : uint16_t :=
  ⟨data.getD p 0, data.getD (p + 1) 0⟩

/-- The file bytes at `p .. p + 3` as the memory image of a 32-bit object. -/
def u32_at (data : List Byte) (p : Nat) : uint32_t :=
  ⟨data.getD p 0, data.getD (p + 1) 0, data.getD (p + 2) 0, data.getD (p + 3) 0⟩


/-- The directory record of the file at `p` as `read_in_otf` stores it: the tag
bytes as they are, the three numbers normalised. -/
def entry_at (host : ByteOrder) (data : List Byte) (p : Nat) : Offset :=
  endswap_otf_offset host
    ⟨⟨u32_at data p⟩, u32_at data (p + 4), u32_at data (p + 8), u32_at data (p + 12)⟩

/-- The calls of one complete round of the directory loop at `p`. -/
def entry_calls (p : Nat) : List StreamCall :=
  [StreamCall.read p 4 4, StreamCall.read (p + 4) 4 4, StreamCall.read (p + 8) 4 4,
    StreamCall.read (p + 12) 4 4]

/-- The stream after `m` complete rounds of the directory loop from `s`. -/
def after_entries (s : ifstream) (m : Nat) : ifstream :=
  { data := s.data, pos := s.pos + 16 * m, fail := false,
    calls := s.calls ++ (List.range m).flatMap (fun k => entry_calls (s.pos + 16 * k)) }

/-- The header of the file as `read_in_otf` stores it. -/
def header_at (host : ByteOrder) (data : List Byte) : Header :=
  endswap_otf_header host
    ⟨⟨u32_at data 0⟩, u16_at data 4, u16_at data 6, u16_at data 8, u16_at data 10⟩

/-- The calls that read a complete header. -/
def header_calls : List StreamCall :=
  [StreamCall.read 0 4 4, StreamCall.read 4 2 2, StreamCall.read 6 2 2, StreamCall.read 8 2 2,
    StreamCall.read 10 2 2]

/-- The stream after the five reads of a complete header. -/
def after_header (data : List Byte) : ifstream :=
  { data := data, pos := 12, fail := false, calls := header_calls }

/-- The cmap header of the file at `p` as `read_in_otf` stores it. -/
def cmap_header_at (host : ByteOrder) (data : List Byte) (p : Nat) : CmapHeader :=
  CmapHeader.endswap_self host ⟨u16_at data p, u16_at data (p + 2)⟩

/-- The encoding record of the file at `p` as `read_in_otf` prints it. -/
def record_at (host : ByteOrder) (data : List Byte) (p : Nat) : CmapEncodingRecord :=
  CmapEncodingRecord.endswap_self host ⟨u16_at data p, u16_at data (p + 2), u32_at data (p + 4)⟩

/-- The calls of one complete round of the record loop at `p`. -/
def record_calls (p : Nat) : List StreamCall :=
  [StreamCall.read p 2 2, StreamCall.read (p + 2) 2 2, StreamCall.read (p + 4) 4 4]

/-- The stream after `m` complete rounds of the record loop from `s`. -/
def after_records (s : ifstream) (m : Nat) : ifstream :=
  { data := s.data, pos := s.pos + 8 * m, fail := false,
    calls := s.calls ++ (List.range m).flatMap (fun k => record_calls (s.pos + 8 * k)) }

/-- A call is a `read`, as opposed to a `seekg` or the `close`. -/
def StreamCall.is_read : StreamCall → Bool
  | StreamCall.read _ _ _ => true
  | _ => false

/-- A call is a `seekg`. -/
def StreamCall.is_seekg : StreamCall → Bool
  | StreamCall.seekg _ => true
  | _ => false

/-- The two bytes that store a 16-bit number big-endian. -/
def be16_bytes (v : Nat) : List Byte :=
  [Fin.ofNat (v / 2 ^ 8), Fin.ofNat v]

/-- The four bytes that store a 32-bit number big-endian. -/
def be32_bytes (v : Nat) : List Byte :=
  [Fin.ofNat (v / 2 ^ 24), Fin.ofNat (v / 2 ^ 16), Fin.ofNat (v / 2 ^ 8), Fin.ofNat v]

/-- The synthetic minimal file: a header with version 0x00010000 and one table, one
directory entry "cmap" with checksum 0, offset 28 and length 12, and at offset 28 a
cmap header with version 0 and two encoding records. -/
def minimal_font (search_range entry_selector range_shift p1 e1 o1 p2 e2 o2 : Nat) :
    List Byte :=
  be32_bytes 0x00010000 ++ be16_bytes 1 ++ be16_bytes search_range
    ++ be16_bytes entry_selector ++ be16_bytes range_shift
    ++ TAG_CMAP ++ be32_bytes 0 ++ be32_bytes 28 ++ be32_bytes 12
    ++ be16_bytes 0 ++ be16_bytes 2
    ++ be16_bytes p1 ++ be16_bytes e1 ++ be32_bytes o1
    ++ be16_bytes p2 ++ be16_bytes e2 ++ be32_bytes o2

/-- The memory image of a `Header`: its five fields in declaration order. -/
def Header.bytes (h : Header) : List Byte :=
  RawObject.bytes h.version ++ RawObject.bytes h.num_tables ++ RawObject.bytes h.search_range
    ++ RawObject.bytes h.entry_selector ++ RawObject.bytes h.range_shift

/-- A header whose memory happens to hold zero bytes. -/
def Header.zeroed : Header :=
  ⟨⟨⟨0, 0, 0, 0⟩⟩, ⟨0, 0⟩, ⟨0, 0⟩, ⟨0, 0⟩, ⟨0, 0⟩⟩

/-- A sample of the synthetic minimal file, with records (3, 1, 20) and (0, 3, 28). -/
def sample_font : List Byte :=
  minimal_font 16 0 0 3 1 20 0 3 28

/-- A file of 56 bytes with two directory entries tagged "cmap": the first with offset
200, past the end of the file, the second with offset 44, where a cmap header with one
record (3, 1, 12) stands. -/
def two_cmap_font : List Byte :=
  be32_bytes 0x00010000 ++ be16_bytes 2 ++ be16_bytes 0 ++ be16_bytes 0 ++ be16_bytes 0
    ++ TAG_CMAP ++ be32_bytes 0 ++ be32_bytes 200 ++ be32_bytes 12
    ++ TAG_CMAP ++ be32_bytes 0 ++ be32_bytes 44 ++ be32_bytes 12
    ++ be16_bytes 0 ++ be16_bytes 1
    ++ be16_bytes 3 ++ be16_bytes 1 ++ be32_bytes 12

/-- A file of 12 bytes: a header that declares no table. -/
def empty_font : List Byte :=
  be32_bytes 0x00010000 ++ be16_bytes 0 ++ be16_bytes 0 ++ be16_bytes 0 ++ be16_bytes 0

/-- A file of 12 bytes: a header that declares three tables, and nothing after it. -/
def header_only_font : List Byte :=
  be32_bytes 0x00010000 ++ be16_bytes 3 ++ be16_bytes 0 ++ be16_bytes 0 ++ be16_bytes 0

/-! ## The version test, and vocabulary for runs on any file -/

/-- The function `print_otf_version`: the lines it prints, one when the numeric view
of the version equals `VersionNum::V_CFF`. -/
def print_otf_version (host : ByteOrder) (header : Header) : List String :=
  if header.version.num host = VersionNum.V_CFF then ["Contains CFF"] else []

/-- The number of bytes a call extracted from the file. -/
def StreamCall.got : StreamCall → Nat
  | StreamCall.read _ _ got => got
  | _ => 0

/-- The targets of the `seekg` calls among `calls`, in the order made. -/
def seek_targets (calls : List StreamCall) : List Nat :=
  calls.filterMap (fun c => match c with
    | StreamCall.seekg target => some target
    | _ => none)

/-- The stream is where a run of complete reads from the start of the file would
have left it at `p`: it has failed exactly when the file is shorter than `p`, and the
cursor is at `p` when it has not. -/
def tracked (s : ifstream) (p : Nat) : Prop :=
  (s.fail = true ↔ s.data.length < p) ∧ (s.fail = false → s.pos = p)

/-- The header that `read_in_otf` leaves in `header` on any file: each field
overwritten by the file bytes that exist at its place, then normalised. -/
def header_from (host : ByteOrder) (data : List Byte) (header : Header) : Header :=
  endswap_otf_header host
    ⟨RawObject.store header.version (slice data 0 4),
      RawObject.store header.num_tables (slice data 4 2),
      RawObject.store header.search_range (slice data 6 2),
      RawObject.store header.entry_selector (slice data 8 2),
      RawObject.store header.range_shift (slice data 10 2)⟩

/-- The directory entry that a round of the directory loop builds at `p` on any file,
from the local `offset`: each field overwritten by the file bytes that exist at its
place, the three numbers then normalised. -/
def entry_from (host : ByteOrder) (data : List Byte) (p : Nat) (offset : Offset) : Offset :=
  endswap_otf_offset host
    ⟨RawObject.store offset.tag (slice data p 4),
      RawObject.store offset.checksum (slice data (p + 4) 4),
      RawObject.store offset.offset (slice data (p + 8) 4),
      RawObject.store offset.length (slice data (p + 12) 4)⟩

/-- The encoding records of the cmap table of the file at `o`, as printed. -/
def cmap_records_at (host : ByteOrder) (data : List Byte) (o : Nat) : List CmapEncodingRecord :=
  (List.range ((cmap_header_at host data o).num_tables.val host)).map
    (fun j => record_at host data (o + 4 + 8 * j))

/-- The encoding records of the cmap tables of all entries of `l` tagged "cmap", in
the order of `l`. -/
def walk_records (host : ByteOrder) (data : List Byte) (l : List Offset) :
    List CmapEncodingRecord :=
  l.flatMap (fun d =>
    if d.get_tag_str = TAG_CMAP then cmap_records_at host data (d.offset.val host) else [])

/-- The cmap table of the entry, when the entry is tagged "cmap", lies within the
file. -/
def cmap_fits (host : ByteOrder) (data : List Byte) (d : Offset) : Prop :=
  d.get_tag_str = TAG_CMAP →
    d.offset.val host + 4
        + 8 * (cmap_header_at host data (d.offset.val host)).num_tables.val host
      ≤ data.length

/-- The records that the record loop prints at directory entry `e` once the stream
has failed: the uninitialised locals, normalised, as many as the uninitialised cmap
header says. -/
def stale_records (host : ByteOrder) (locals : Locals) (e : Nat) : List CmapEncodingRecord :=
  (List.range ((CmapHeader.endswap_self host (locals.cmap_header e)).num_tables.val host)).map
    (fun j => CmapEncodingRecord.endswap_self host (locals.encoding_record e j))

/-- Locals whose memory holds what an earlier call left there: a cmap header that
reads as one table and a record (3, 1, 20), for a little-endian host. -/
def Locals.stale : Locals :=
  { offset := fun _ => ⟨⟨⟨0, 0, 0, 0⟩⟩, ⟨0, 0, 0, 0⟩, ⟨0, 0, 0, 0⟩, ⟨0, 0, 0, 0⟩⟩
    cmap_header := fun _ => ⟨⟨0, 0⟩, ⟨0, 1⟩⟩
    encoding_record := fun _ _ => ⟨⟨0, 3⟩, ⟨0, 1⟩, ⟨0, 0, 0, 20⟩⟩ }

/-- A file of 28 bytes: a header with one table and one directory entry "cmap" whose
offset, 200, is past the end of the file. -/
def far_cmap_font : List Byte :=
  be32_bytes 0x00010000 ++ be16_bytes 1 ++ be16_bytes 0 ++ be16_bytes 0 ++ be16_bytes 0
    ++ TAG_CMAP ++ be32_bytes 0 ++ be32_bytes 200 ++ be32_bytes 12

/-- A file of 5 bytes: the version 0x00010000 and the first byte, 2, of the table
count. -/
def tiny_font : List Byte :=
  be32_bytes 0x00010000 ++ [2]

/-- A file of 68 bytes with two directory entries tagged "cmap", both within the
file: the first with offset 44, where a cmap header with one record (3, 1, 12) stands,
the second with offset 56, where a cmap header with one record (0, 3, 20) stands. -/
def double_cmap_font : List Byte :=
  be32_bytes 0x00010000 ++ be16_bytes 2 ++ be16_bytes 0 ++ be16_bytes 0 ++ be16_bytes 0
    ++ TAG_CMAP ++ be32_bytes 0 ++ be32_bytes 44 ++ be32_bytes 12
    ++ TAG_CMAP ++ be32_bytes 0 ++ be32_bytes 56 ++ be32_bytes 12
    ++ be16_bytes 0 ++ be16_bytes 1 ++ be16_bytes 3 ++ be16_bytes 1 ++ be32_bytes 12
    ++ be16_bytes 0 ++ be16_bytes 1 ++ be16_bytes 0 ++ be16_bytes 3 ++ be32_bytes 20

/-- A file of 28 bytes: a header with one table and one directory entry "head" with
offset 28. -/
def head_font : List Byte :=
  be32_bytes 0x00010000 ++ be16_bytes 1 ++ be16_bytes 0 ++ be16_bytes 0 ++ be16_bytes 0
    ++ [0x68, 0x65, 0x61, 0x64] ++ be32_bytes 0 ++ be32_bytes 28 ++ be32_bytes 0

/-- The file `data` with the bytes `xs` written over it from position `c` on. -/
def patch (data : List Byte) (c : Nat) (xs : List Byte) : List Byte :=
  data.take c ++ xs ++ data.drop (c + xs.length)

/-- What `Offset offset;` holds on entry to round `i` of the directory loop on the file
`data` when the local has the same stack slot in every round: `first` in round 0,
afterwards the entry that the round before built in the slot and left there. -/
def reused_offset (host : ByteOrder) (data : List Byte) (first : Offset) : Nat → Offset
  | 0 => first
  | i + 1 => entry_from host data (12 + 16 * i) (reused_offset host data first i)

/-- Locals of a run on the file `data` in which `Offset offset;` has the same stack
slot in every round of the directory loop, so that their content depends on the file;
the slot holds `base.offset 0` at first, and the other locals are those of `base`. -/
def Locals.reused (host : ByteOrder) (data : List Byte) (base : Locals) : Locals :=
  { offset := reused_offset host data (base.offset 0)
    cmap_header := base.cmap_header
    encoding_record := base.encoding_record }

/-- A file of 34 bytes that ends inside its directory: a header that declares two
tables, the record "head" with checksum 0x11223344, offset 28 and length 0, and of the
second record only the tag "glyf" and the two bytes 0x55, 0x66 of its checksum. -/
def truncated_font : List Byte :=
  be32_bytes 0x00010000 ++ be16_bytes 2 ++ be16_bytes 0 ++ be16_bytes 0 ++ be16_bytes 0
    ++ [0x68, 0x65, 0x61, 0x64] ++ be32_bytes 0x11223344 ++ be32_bytes 28 ++ be32_bytes 0
    ++ [0x67, 0x6C, 0x79, 0x66] ++ [0x55, 0x66]

/-- A file of 56 bytes with two directory entries: "head" with checksum 0, offset 56 and
length 0, and "cmap" with offset 44, where a cmap header with one record (3, 1, 12)
stands. -/
def mixed_font : List Byte :=
  be32_bytes 0x00010000 ++ be16_bytes 2 ++ be16_bytes 0 ++ be16_bytes 0 ++ be16_bytes 0
    ++ [0x68, 0x65, 0x61, 0x64] ++ be32_bytes 0 ++ be32_bytes 56 ++ be32_bytes 0
    ++ TAG_CMAP ++ be32_bytes 0 ++ be32_bytes 44 ++ be32_bytes 12
    ++ be16_bytes 0 ++ be16_bytes 1 ++ be16_bytes 3 ++ be16_bytes 1 ++ be32_bytes 12

/-! ## Lemmas -/

@[simp]
theorem after_header_data (data : List Byte) : (after_header data).data = data := rfl

@[simp]
theorem after_header_pos (data : List Byte) : (after_header data).pos = 12 := rfl

@[simp]
theorem after_header_fail (data : List Byte) : (after_header data).fail = false := rfl

@[simp]
theorem after_header_calls (data : List Byte) :
    (after_header data).calls = header_calls := rfl

theorem slice_length (data : List Byte) (p n : Nat) (h : p + n ≤ data.length) :
    (slice data p n).length = n := by
  simp [slice]; omega

theorem slice_getElem? (data : List Byte) (p n i : Nat) (h : p + n ≤ data.length) (hi : i < n) :
    (slice data p n)[i]? = some (data.getD (p + i) 0) := by
  have : p + i < data.length := by omega
  simp [slice, List.getElem?_take, hi, List.getD, this]

theorem store_u16_slice (x : uint16_t) (data : List Byte) (p : Nat) (h : p + 2 ≤ data.length) :
    RawObject.store x (slice data p 2) = u16_at data p := by
  simp [RawObject.store, slice_getElem? data p 2 _ h, u16_at]

theorem store_u32_slice (x : uint32_t) (data : List Byte) (p : Nat) (h : p + 4 ≤ data.length) :
    RawObject.store x (slice data p 4) = u32_at data p := by
  simp [RawObject.store, slice_getElem? data p 4 _ h, u32_at]

theorem read_enough {T : Type} [RawObject T] (s : ifstream) (var : T) (hf : s.fail = false)
    (h : s.pos + RawObject.sizeof T ≤ s.data.length) :
    s.read var =
      ({ data := s.data, pos := s.pos + RawObject.sizeof T, fail := false,
         calls := s.calls ++ [StreamCall.read s.pos (RawObject.sizeof T) (RawObject.sizeof T)] },
       RawObject.store var (slice s.data s.pos (RawObject.sizeof T))) := by
  have hl : (slice s.data s.pos (RawObject.sizeof T)).length = RawObject.sizeof T :=
    slice_length _ _ _ h
  unfold ifstream.read
  simp only [hf, Bool.false_eq_true, if_false]
  show _ = _
  simp only [slice] at hl ⊢
  simp [hl]

theorem read_u16 (s : ifstream) (var : uint16_t) (hf : s.fail = false)
    (h : s.pos + 2 ≤ s.data.length) :
    s.read var =
      ({ data := s.data, pos := s.pos + 2, fail := false,
         calls := s.calls ++ [StreamCall.read s.pos 2 2] }, u16_at s.data s.pos) := by
  rw [read_enough s var hf h]
  simp only [RawObject.sizeof]
  rw [store_u16_slice var s.data s.pos h]

theorem is_big_endian_big : is_big_endian ByteOrder.big = true := by decide
theorem is_big_endian_little : is_big_endian ByteOrder.little = false := by decide

theorem endswap_u16 (host : ByteOrder) (x : uint16_t) :
    endswap host x = if is_big_endian host then x else ⟨x.m1, x.m0⟩ := by
  cases host <;> simp [endswap, is_big_endian_big, is_big_endian_little, RawObject.store, RawObject.bytes]

theorem endswap_u32 (host : ByteOrder) (x : uint32_t) :
    endswap host x = if is_big_endian host then x else ⟨x.m3, x.m2, x.m1, x.m0⟩ := by
  cases host <;> simp [endswap, is_big_endian_big, is_big_endian_little, RawObject.store, RawObject.bytes]

theorem val_endswap_u16 (host : ByteOrder) (x : uint16_t) :
    (endswap host x).val host = x.m0.val * 2 ^ 8 + x.m1.val := by
  cases host <;> simp [endswap_u16, is_big_endian_big, is_big_endian_little, uint16_t.val]

theorem val_endswap_u32 (host : ByteOrder) (x : uint32_t) :
    (endswap host x).val host
      = x.m0.val * 2 ^ 24 + x.m1.val * 2 ^ 16 + x.m2.val * 2 ^ 8 + x.m3.val := by
  cases host <;> simp [endswap_u32, is_big_endian_big, is_big_endian_little, uint32_t.val]

theorem num_endswap_version (host : ByteOrder) (x : header_version_u) :
    (endswap host x).num host
      = x.raw.m0.val * 2 ^ 24 + x.raw.m1.val * 2 ^ 16 + x.raw.m2.val * 2 ^ 8 + x.raw.m3.val := by
  cases host <;> simp [endswap, is_big_endian_big, is_big_endian_little, header_version_u.num,
    uint32_t.val, RawObject.store, RawObject.bytes]

theorem read_u32 (s : ifstream) (var : uint32_t) (hf : s.fail = false)
    (h : s.pos + 4 ≤ s.data.length) :
    s.read var =
      ({ data := s.data, pos := s.pos + 4, fail := false,
         calls := s.calls ++ [StreamCall.read s.pos 4 4] }, u32_at s.data s.pos) := by
  rw [read_enough s var hf h]
  simp only [RawObject.sizeof]
  rw [store_u32_slice var s.data s.pos h]

theorem read_tag (s : ifstream) (var : tag_u) (hf : s.fail = false)
    (h : s.pos + 4 ≤ s.data.length) :
    s.read var =
      ({ data := s.data, pos := s.pos + 4, fail := false,
         calls := s.calls ++ [StreamCall.read s.pos 4 4] }, ⟨u32_at s.data s.pos⟩) := by
  rw [read_enough s var hf h]
  simp only [RawObject.sizeof, RawObject.store]
  rw [← store_u32_slice var.raw s.data s.pos h]
  rfl

theorem read_version (s : ifstream) (var : header_version_u) (hf : s.fail = false)
    (h : s.pos + 4 ≤ s.data.length) :
    s.read var =
      ({ data := s.data, pos := s.pos + 4, fail := false,
         calls := s.calls ++ [StreamCall.read s.pos 4 4] }, ⟨u32_at s.data s.pos⟩) := by
  rw [read_enough s var hf h]
  simp only [RawObject.sizeof, RawObject.store]
  rw [← store_u32_slice var.raw s.data s.pos h]
  rfl

theorem read_in_otf_offset_enough (host : ByteOrder) (offset : Offset) (s : ifstream)
    (t : OffsetTable) (hf : s.fail = false) (h : s.pos + 16 ≤ s.data.length) :
    read_in_otf_offset host offset s t =
      ({ data := s.data, pos := s.pos + 16, fail := false,
         calls := s.calls ++ entry_calls s.pos },
       t.add_entry (entry_at host s.data s.pos)) := by
  have h0 : s.pos + 4 ≤ s.data.length := by omega
  have h1 : s.pos + 4 + 4 ≤ s.data.length := by omega
  have h2 : s.pos + 4 + 4 + 4 ≤ s.data.length := by omega
  have h3 : s.pos + 4 + 4 + 4 + 4 ≤ s.data.length := by omega
  simp [read_in_otf_offset, read_tag, read_u32, hf, h0, h1, h2, h3, entry_at, entry_calls,
    Nat.add_assoc]

theorem after_entries_zero (s : ifstream) (hf : s.fail = false) : after_entries s 0 = s := by
  cases s
  simp_all [after_entries]

theorem after_entries_succ (s : ifstream) (m : Nat) :
    ({ data := (after_entries s m).data, pos := (after_entries s m).pos + 16, fail := false,
       calls := (after_entries s m).calls ++ entry_calls (after_entries s m).pos } : ifstream)
      = after_entries s (m + 1) := by
  simp [after_entries, List.range_succ, Nat.mul_add, Nat.add_assoc]

theorem read_in_otf_directory_steps (host : ByteOrder) (locals : Locals) (n : uint16_t)
    (m : Nat) : ∀ (i : Nat) (s : ifstream) (t : OffsetTable), s.fail = false →
      s.pos + 16 * m ≤ s.data.length → i + m ≤ n.val host →
      read_in_otf_directory host locals n i s t =
        read_in_otf_directory host locals n (i + m) (after_entries s m)
          ⟨t.entries ++ (List.range m).map (fun k => entry_at host s.data (s.pos + 16 * k))⟩ := by
  induction m with
  | zero =>
    intro i s t hf _ _
    simp [after_entries_zero s hf]
  | succ m ih =>
    intro i s t hf hlen hn
    rw [ih i s t hf (by omega) (by omega)]
    rw [read_in_otf_directory]
    rw [if_pos (by omega)]
    simp only []
    rw [read_in_otf_offset_enough host _ _ _ rfl (by simp only [after_entries]; omega)]
    simp only []
    rw [after_entries_succ]
    simp [OffsetTable.add_entry, List.range_succ, after_entries, Nat.add_assoc]

theorem read_in_otf_directory_done (host : ByteOrder) (locals : Locals) (n : uint16_t)
    (i : Nat) (s : ifstream) (t : OffsetTable) (h : n.val host ≤ i) :
    read_in_otf_directory host locals n i s t = (s, t) := by
  rw [read_in_otf_directory]
  rw [if_neg (by omega)]

theorem read_in_otf_directory_enough (host : ByteOrder) (locals : Locals) (n : uint16_t)
    (s : ifstream) (t : OffsetTable) (hf : s.fail = false)
    (hlen : s.pos + 16 * n.val host ≤ s.data.length) :
    read_in_otf_directory host locals n 0 s t =
      (after_entries s (n.val host),
        ⟨t.entries ++
          (List.range (n.val host)).map (fun k => entry_at host s.data (s.pos + 16 * k))⟩) := by
  rw [read_in_otf_directory_steps host locals n (n.val host) 0 s t hf hlen (by omega)]
  rw [read_in_otf_directory_done host locals n _ _ _ (by omega)]

theorem slice_two (data : List Byte) (p : Nat) (h : p + 2 ≤ data.length) :
    slice data p 2 = [data.getD p 0, data.getD (p + 1) 0] := by
  apply List.ext_getElem?
  intro i
  rcases Nat.lt_or_ge i 2 with hi | hi
  · rw [slice_getElem? data p 2 i h hi]
    interval_cases i <;> simp
  · rw [List.getElem?_eq_none (by rw [slice_length _ _ _ h]; exact hi)]
    rw [List.getElem?_eq_none (by simpa using hi)]

theorem slice_four (data : List Byte) (p : Nat) (h : p + 4 ≤ data.length) :
    slice data p 4
      = [data.getD p 0, data.getD (p + 1) 0, data.getD (p + 2) 0, data.getD (p + 3) 0] := by
  apply List.ext_getElem?
  intro i
  rcases Nat.lt_or_ge i 4 with hi | hi
  · rw [slice_getElem? data p 4 i h hi]
    interval_cases i <;> simp
  · rw [List.getElem?_eq_none (by rw [slice_length _ _ _ h]; exact hi)]
    rw [List.getElem?_eq_none (by simpa using hi)]

theorem be_slice_two (data : List Byte) (p : Nat) (h : p + 2 ≤ data.length) :
    be (slice data p 2) = (u16_at data p).m0.val * 2 ^ 8 + (u16_at data p).m1.val := by
  rw [slice_two data p h]
  simp [be, u16_at]

theorem be_slice_four (data : List Byte) (p : Nat) (h : p + 4 ≤ data.length) :
    be (slice data p 4)
      = (u32_at data p).m0.val * 2 ^ 24 + (u32_at data p).m1.val * 2 ^ 16
        + (u32_at data p).m2.val * 2 ^ 8 + (u32_at data p).m3.val := by
  rw [slice_four data p h]
  simp only [be, u32_at, List.foldl]
  ring

theorem read_in_otf_header_enough (host : ByteOrder) (data : List Byte) (header : Header)
    (h : 12 ≤ data.length) :
    read_in_otf_header host (ifstream.open data) header =
      (after_header data, header_at host data) := by
  have h0 : 0 + 4 ≤ data.length := by omega
  have h1 : 4 + 2 ≤ data.length := by omega
  have h2 : 4 + 2 + 2 ≤ data.length := by omega
  have h3 : 4 + 2 + 2 + 2 ≤ data.length := by omega
  have h4 : 4 + 2 + 2 + 2 + 2 ≤ data.length := by omega
  simp [read_in_otf_header, ifstream.open, read_version, read_u16, h0, h1, h2, h3, h4,
    header_at, header_calls, after_header]

theorem header_at_num_tables (host : ByteOrder) (data : List Byte) (h : 6 ≤ data.length) :
    (header_at host data).num_tables.val host = be (slice data 4 2) := by
  rw [be_slice_two data 4 (by omega)]
  simp [header_at, endswap_otf_header, val_endswap_u16]

theorem entry_at_fields (host : ByteOrder) (data : List Byte) (p : Nat)
    (h : p + 16 ≤ data.length) :
    (entry_at host data p).tag.str = slice data p 4 ∧
    (entry_at host data p).checksum.val host = be (slice data (p + 4) 4) ∧
    (entry_at host data p).offset.val host = be (slice data (p + 8) 4) ∧
    (entry_at host data p).length.val host = be (slice data (p + 12) 4) := by
  rw [be_slice_four data (p + 4) (by omega), be_slice_four data (p + 8) (by omega),
    be_slice_four data (p + 12) (by omega), slice_four data p (by omega)]
  simp [entry_at, endswap_otf_offset, val_endswap_u32, tag_u.str, u32_at]

theorem uint16_val_lt (host : ByteOrder) (x : uint16_t) : x.val host < 2 ^ 16 := by
  have h0 := x.m0.isLt
  have h1 := x.m1.isLt
  cases host <;> simp only [uint16_t.val] <;> omega

theorem read_in_otf_record_enough (host : ByteOrder) (r0 : CmapEncodingRecord) (s : ifstream)
    (cout : List CmapEncodingRecord) (hf : s.fail = false) (h : s.pos + 8 ≤ s.data.length) :
    read_in_otf_record host r0 s cout =
      ({ data := s.data, pos := s.pos + 8, fail := false,
         calls := s.calls ++ record_calls s.pos },
       cout ++ [record_at host s.data s.pos]) := by
  have h0 : s.pos + 2 ≤ s.data.length := by omega
  have h1 : s.pos + 2 + 2 ≤ s.data.length := by omega
  have h2 : s.pos + 2 + 2 + 4 ≤ s.data.length := by omega
  simp [read_in_otf_record, read_u16, read_u32, hf, h0, h1, h2, record_at, record_calls,
    Nat.add_assoc]

theorem after_records_zero (s : ifstream) (hf : s.fail = false) : after_records s 0 = s := by
  cases s
  simp_all [after_records]

theorem after_records_succ (s : ifstream) (m : Nat) :
    ({ data := (after_records s m).data, pos := (after_records s m).pos + 8, fail := false,
       calls := (after_records s m).calls ++ record_calls (after_records s m).pos } : ifstream)
      = after_records s (m + 1) := by
  simp [after_records, List.range_succ, Nat.mul_add, Nat.add_assoc]

theorem read_in_otf_records_steps (host : ByteOrder) (locals : Locals) (e : Nat)
    (n : uint16_t) (m : Nat) : ∀ (i : Nat) (s : ifstream) (cout : List CmapEncodingRecord),
      s.fail = false → s.pos + 8 * m ≤ s.data.length → i + m ≤ n.val host →
      read_in_otf_records host locals e n i s cout =
        read_in_otf_records host locals e n (i + m) (after_records s m)
          (cout ++ (List.range m).map (fun k => record_at host s.data (s.pos + 8 * k))) := by
  induction m with
  | zero =>
    intro i s cout hf _ _
    simp [after_records_zero s hf]
  | succ m ih =>
    intro i s cout hf hlen hn
    have hlt := uint16_val_lt host n
    rw [ih i s cout hf (by omega) (by omega)]
    rw [read_in_otf_records]
    rw [if_pos (by omega)]
    simp only []
    rw [read_in_otf_record_enough host _ _ _ rfl (by simp only [after_records]; omega)]
    simp only []
    rw [after_records_succ]
    rw [Nat.mod_eq_of_lt (by omega)]
    simp [List.range_succ, after_records, Nat.add_assoc]

theorem read_in_otf_records_done (host : ByteOrder) (locals : Locals) (e : Nat) (n : uint16_t)
    (i : Nat) (s : ifstream) (cout : List CmapEncodingRecord) (h : n.val host ≤ i) :
    read_in_otf_records host locals e n i s cout = (s, cout) := by
  rw [read_in_otf_records]
  rw [if_neg (by omega)]

theorem read_in_otf_records_enough (host : ByteOrder) (locals : Locals) (e : Nat)
    (n : uint16_t) (s : ifstream) (cout : List CmapEncodingRecord) (hf : s.fail = false)
    (hlen : s.pos + 8 * n.val host ≤ s.data.length) :
    read_in_otf_records host locals e n 0 s cout =
      (after_records s (n.val host),
        cout ++ (List.range (n.val host)).map (fun k => record_at host s.data (s.pos + 8 * k))) := by
  rw [read_in_otf_records_steps host locals e n (n.val host) 0 s cout hf hlen (by omega)]
  rw [read_in_otf_records_done host locals e n _ _ _ (by omega)]

theorem read_in_otf_cmap_header_enough (host : ByteOrder) (h0 : CmapHeader) (s : ifstream)
    (hf : s.fail = false) (h : s.pos + 4 ≤ s.data.length) :
    read_in_otf_cmap_header host h0 s =
      ({ data := s.data, pos := s.pos + 4, fail := false,
         calls := s.calls ++ [StreamCall.read s.pos 2 2, StreamCall.read (s.pos + 2) 2 2] },
       cmap_header_at host s.data s.pos) := by
  have h1 : s.pos + 2 ≤ s.data.length := by omega
  have h2 : s.pos + 2 + 2 ≤ s.data.length := by omega
  simp [read_in_otf_cmap_header, read_u16, hf, h1, h2, cmap_header_at, Nat.add_assoc]

theorem cmap_header_at_fields (host : ByteOrder) (data : List Byte) (p : Nat)
    (h : p + 4 ≤ data.length) :
    (cmap_header_at host data p).version.val host = be (slice data p 2) ∧
    (cmap_header_at host data p).num_tables.val host = be (slice data (p + 2) 2) := by
  rw [be_slice_two data p (by omega), be_slice_two data (p + 2) (by omega)]
  simp [cmap_header_at, CmapHeader.endswap_self, val_endswap_u16]

theorem record_at_fields (host : ByteOrder) (data : List Byte) (p : Nat)
    (h : p + 8 ≤ data.length) :
    (record_at host data p).platform_id.val host = be (slice data p 2) ∧
    (record_at host data p).encoding_id.val host = be (slice data (p + 2) 2) ∧
    (record_at host data p).offset.val host = be (slice data (p + 4) 4) := by
  rw [be_slice_two data p (by omega), be_slice_two data (p + 2) (by omega),
    be_slice_four data (p + 4) (by omega)]
  simp [record_at, CmapEncodingRecord.endswap_self, val_endswap_u16, val_endswap_u32]

theorem get_tag_str_eq_cmap (o : Offset) :
    o.get_tag_str = TAG_CMAP ↔ o.tag.str = [0x63, 0x6D, 0x61, 0x70] := by
  rcases o with ⟨⟨⟨a, b, c, d⟩⟩, _, _, _⟩
  simp only [Offset.get_tag_str, strncpy_string, tag_u.str, TAG_CMAP, List.take]
  constructor
  · intro h
    by_cases ha : a = 0
    · subst ha; simp [List.takeWhile_cons] at h
    by_cases hb : b = 0
    · subst hb; simp [List.takeWhile_cons, ha] at h
    by_cases hc : c = 0
    · subst hc; simp [List.takeWhile_cons, ha, hb] at h
    by_cases hd : d = 0
    · subst hd; simp [List.takeWhile_cons, ha, hb, hc] at h
    simpa [List.takeWhile_cons, ha, hb, hc, hd] using h
  · intro h
    simp only [List.cons.injEq, and_true] at h
    obtain ⟨rfl, rfl, rfl, rfl⟩ := h
    decide

/-- The cmap branch of the loop body on a stream that is in a good state and
holds the whole cmap header and its records. -/
theorem read_in_otf_entry_cmap_enough (host : ByteOrder) (locals : Locals) (e : Nat)
    (offset : Offset) (s : ifstream) (cout : List CmapEncodingRecord)
    (htag : offset.get_tag_str = TAG_CMAP) (hf : s.fail = false)
    (hlen : offset.offset.val host + 4
        + 8 * (cmap_header_at host s.data (offset.offset.val host)).num_tables.val host
      ≤ s.data.length) :
    read_in_otf_entry host locals e offset s cout =
      (after_records
        { data := s.data, pos := offset.offset.val host + 4, fail := false,
          calls := s.calls ++ [StreamCall.seekg (offset.offset.val host),
            StreamCall.read (offset.offset.val host) 2 2,
            StreamCall.read (offset.offset.val host + 2) 2 2] }
        ((cmap_header_at host s.data (offset.offset.val host)).num_tables.val host),
       cout ++ (List.range
          ((cmap_header_at host s.data (offset.offset.val host)).num_tables.val host)).map
            (fun k => record_at host s.data (offset.offset.val host + 4 + 8 * k))) := by
  unfold read_in_otf_entry
  simp only [htag, if_true]
  have hs : s.seekg (offset.offset.val host) =
      { data := s.data, pos := offset.offset.val host, fail := false,
        calls := s.calls ++ [StreamCall.seekg (offset.offset.val host)] } := by
    simp [ifstream.seekg, hf]
  rw [hs]
  rw [read_in_otf_cmap_header_enough host _ _ rfl (by simp only []; omega)]
  simp only []
  rw [read_in_otf_records_enough host locals e _ _ _ rfl (by simp only []; omega)]
  simp

/-! ### What every call keeps: the data, the calls made before, a set failure flag -/

theorem read_calls {T : Type} [RawObject T] (s : ifstream) (var : T) :
    ∃ got, (s.read var).1.calls = s.calls ++ [StreamCall.read s.pos (RawObject.sizeof T) got] := by
  unfold ifstream.read
  split
  · exact ⟨0, rfl⟩
  · exact ⟨_, rfl⟩

theorem read_data {T : Type} [RawObject T] (s : ifstream) (var : T) :
    (s.read var).1.data = s.data := by
  unfold ifstream.read
  split <;> rfl

theorem read_fail {T : Type} [RawObject T] (s : ifstream) (var : T) (h : s.fail = true) :
    (s.read var).1.fail = true ∧ (s.read var).2 = var := by
  unfold ifstream.read
  simp [h]

theorem seekg_fail (s : ifstream) (target : Nat) (h : s.fail = true) :
    (s.seekg target).fail = true := by
  simp [ifstream.seekg, h]

theorem read_in_otf_record_calls (host : ByteOrder) (r0 : CmapEncodingRecord) (s : ifstream)
    (cout : List CmapEncodingRecord) :
    ∃ extra, (read_in_otf_record host r0 s cout).1.calls = s.calls ++ extra := by
  obtain ⟨g1, h1⟩ := read_calls s r0.platform_id
  obtain ⟨g2, h2⟩ := read_calls (s.read r0.platform_id).1 r0.encoding_id
  obtain ⟨g3, h3⟩ := read_calls ((s.read r0.platform_id).1.read r0.encoding_id).1 r0.offset
  simp only [read_in_otf_record]
  rw [h3, h2, h1, List.append_assoc, List.append_assoc]
  exact ⟨_, rfl⟩

theorem read_in_otf_record_fail (host : ByteOrder) (r0 : CmapEncodingRecord) (s : ifstream)
    (cout : List CmapEncodingRecord) (h : s.fail = true) :
    (read_in_otf_record host r0 s cout).1.fail = true := by
  simp only [read_in_otf_record]
  exact (read_fail _ _ (read_fail _ _ (read_fail _ _ h).1).1).1

theorem read_in_otf_records_calls (host : ByteOrder) (locals : Locals) (e : Nat)
    (n : uint16_t) : ∀ (k i : Nat) (s : ifstream) (cout : List CmapEncodingRecord),
      n.val host - i = k →
      ∃ extra, (read_in_otf_records host locals e n i s cout).1.calls = s.calls ++ extra := by
  intro k
  induction k with
  | zero =>
    intro i s cout hk
    rw [read_in_otf_records_done host locals e n i s cout (by omega)]
    exact ⟨[], by simp⟩
  | succ k ih =>
    intro i s cout hk
    have hlt := uint16_val_lt host n
    rw [read_in_otf_records, if_pos (by omega)]
    simp only []
    rw [Nat.mod_eq_of_lt (by omega)]
    obtain ⟨x1, h1⟩ := read_in_otf_record_calls host (locals.encoding_record e i) s cout
    obtain ⟨x2, h2⟩ := ih (i + 1) (read_in_otf_record host (locals.encoding_record e i) s cout).1
      (read_in_otf_record host (locals.encoding_record e i) s cout).2 (by omega)
    exact ⟨x1 ++ x2, by rw [h2, h1, List.append_assoc]⟩

theorem read_in_otf_records_fail (host : ByteOrder) (locals : Locals) (e : Nat)
    (n : uint16_t) : ∀ (k i : Nat) (s : ifstream) (cout : List CmapEncodingRecord),
      n.val host - i = k → s.fail = true →
      (read_in_otf_records host locals e n i s cout).1.fail = true := by
  intro k
  induction k with
  | zero =>
    intro i s cout hk hf
    rw [read_in_otf_records_done host locals e n i s cout (by omega)]
    exact hf
  | succ k ih =>
    intro i s cout hk hf
    have hlt := uint16_val_lt host n
    rw [read_in_otf_records, if_pos (by omega)]
    simp only []
    rw [Nat.mod_eq_of_lt (by omega)]
    exact ih (i + 1) _ _ (by omega) (read_in_otf_record_fail host _ s cout hf)

theorem read_in_otf_cmap_header_calls (host : ByteOrder) (h0 : CmapHeader) (s : ifstream) :
    ∃ g1 g2 p, (read_in_otf_cmap_header host h0 s).1.calls =
      s.calls ++ [StreamCall.read s.pos 2 g1, StreamCall.read p 2 g2] := by
  obtain ⟨g1, h1⟩ := read_calls s h0.version
  obtain ⟨g2, h2⟩ := read_calls (s.read h0.version).1 h0.num_tables
  refine ⟨g1, g2, (s.read h0.version).1.pos, ?_⟩
  simp only [read_in_otf_cmap_header]
  rw [h2, h1, List.append_assoc]
  rfl

theorem read_in_otf_cmap_header_fail (host : ByteOrder) (h0 : CmapHeader) (s : ifstream)
    (h : s.fail = true) : (read_in_otf_cmap_header host h0 s).1.fail = true := by
  simp only [read_in_otf_cmap_header]
  exact (read_fail _ _ (read_fail _ _ h).1).1

theorem read_in_otf_entry_other (host : ByteOrder) (locals : Locals) (e : Nat)
    (offset : Offset) (s : ifstream) (cout : List CmapEncodingRecord)
    (htag : offset.tag.str ≠ [0x63, 0x6D, 0x61, 0x70]) :
    read_in_otf_entry host locals e offset s cout = (s.seekg (offset.offset.val host), cout) := by
  unfold read_in_otf_entry
  rw [if_neg (fun h => htag ((get_tag_str_eq_cmap offset).mp h))]

theorem seekg_calls (s : ifstream) (target : Nat) :
    (s.seekg target).calls = s.calls ++ [StreamCall.seekg target] := by
  unfold ifstream.seekg
  split <;> rfl

theorem read_in_otf_entry_fail (host : ByteOrder) (locals : Locals) (e : Nat)
    (offset : Offset) (s : ifstream) (cout : List CmapEncodingRecord) (h : s.fail = true) :
    (read_in_otf_entry host locals e offset s cout).1.fail = true := by
  unfold read_in_otf_entry
  simp only []
  split
  · exact read_in_otf_records_fail host locals e _ _ 0 _ _ rfl
      (read_in_otf_cmap_header_fail host _ _ (seekg_fail s _ h))
  · exact seekg_fail s _ h

theorem read_in_otf_entries_fail (host : ByteOrder) (locals : Locals) (l : List Offset) :
    ∀ (e : Nat) (s : ifstream) (cout : List CmapEncodingRecord), s.fail = true →
      (read_in_otf_entries host locals l e s cout).1.fail = true := by
  induction l with
  | nil => intro e s cout h; exact h
  | cons o rest ih =>
    intro e s cout h
    simp only [read_in_otf_entries]
    exact ih _ _ _ (read_in_otf_entry_fail host locals e o s cout h)

theorem read_in_otf_entries_no_cmap (host : ByteOrder) (locals : Locals) (l : List Offset) :
    ∀ (e : Nat) (s : ifstream) (cout : List CmapEncodingRecord),
      (∀ o ∈ l, o.tag.str ≠ [0x63, 0x6D, 0x61, 0x70]) →
      (read_in_otf_entries host locals l e s cout).2 = cout ∧
      (read_in_otf_entries host locals l e s cout).1.calls
        = s.calls ++ l.map (fun o => StreamCall.seekg (o.offset.val host)) := by
  induction l with
  | nil => intro e s cout _; simp [read_in_otf_entries]
  | cons o rest ih =>
    intro e s cout h
    simp only [read_in_otf_entries]
    rw [read_in_otf_entry_other host locals e o s cout (h o (List.mem_cons_self _ _))]
    obtain ⟨h1, h2⟩ := ih (e + 1) (s.seekg (o.offset.val host)) cout
      (fun o ho => h o (List.mem_cons_of_mem _ ho))
    refine ⟨h1, ?_⟩
    rw [h2, seekg_calls]
    simp

theorem be_be16_bytes (v : Nat) (h : v < 2 ^ 16) : be (be16_bytes v) = v := by
  simp only [be, be16_bytes, List.foldl, Fin.ofNat, Fin.val_mk]
  omega

theorem be_be32_bytes (v : Nat) (h : v < 2 ^ 32) : be (be32_bytes v) = v := by
  simp only [be, be32_bytes, List.foldl, Fin.ofNat, Fin.val_mk]
  omega

theorem minimal_font_slices (sr es rs p1 e1 o1 p2 e2 o2 : Nat) :
    (minimal_font sr es rs p1 e1 o1 p2 e2 o2).length = 48 ∧
    slice (minimal_font sr es rs p1 e1 o1 p2 e2 o2) 0 4 = be32_bytes 0x00010000 ∧
    slice (minimal_font sr es rs p1 e1 o1 p2 e2 o2) 4 2 = be16_bytes 1 ∧
    slice (minimal_font sr es rs p1 e1 o1 p2 e2 o2) 12 4 = TAG_CMAP ∧
    slice (minimal_font sr es rs p1 e1 o1 p2 e2 o2) 16 4 = be32_bytes 0 ∧
    slice (minimal_font sr es rs p1 e1 o1 p2 e2 o2) 20 4 = be32_bytes 28 ∧
    slice (minimal_font sr es rs p1 e1 o1 p2 e2 o2) 24 4 = be32_bytes 12 ∧
    slice (minimal_font sr es rs p1 e1 o1 p2 e2 o2) 30 2 = be16_bytes 2 ∧
    slice (minimal_font sr es rs p1 e1 o1 p2 e2 o2) 32 2 = be16_bytes p1 ∧
    slice (minimal_font sr es rs p1 e1 o1 p2 e2 o2) 34 2 = be16_bytes e1 ∧
    slice (minimal_font sr es rs p1 e1 o1 p2 e2 o2) 36 4 = be32_bytes o1 ∧
    slice (minimal_font sr es rs p1 e1 o1 p2 e2 o2) 40 2 = be16_bytes p2 ∧
    slice (minimal_font sr es rs p1 e1 o1 p2 e2 o2) 42 2 = be16_bytes e2 ∧
    slice (minimal_font sr es rs p1 e1 o1 p2 e2 o2) 44 4 = be32_bytes o2 := by
  simp [minimal_font, slice, be16_bytes, be32_bytes, TAG_CMAP]

theorem header_at_version (host : ByteOrder) (data : List Byte) (h : 4 ≤ data.length) :
    (header_at host data).version.num host = be (slice data 0 4) := by
  rw [be_slice_four data 0 (by omega)]
  simp [header_at, endswap_otf_header, num_endswap_version]

/-- On a file that holds its header and its whole directory, `read_in_otf` from the
stream just opened and an empty table. -/
theorem read_in_otf_enough (host : ByteOrder) (locals : Locals) (data : List Byte)
    (header : Header) (h : 12 + 16 * be (slice data 4 2) ≤ data.length) :
    (read_in_otf host locals (ifstream.open data) header ⟨[]⟩).header = header_at host data ∧
    (read_in_otf host locals (ifstream.open data) header ⟨[]⟩).offset_table
      = ⟨(List.range (be (slice data 4 2))).map (fun k => entry_at host data (12 + 16 * k))⟩ ∧
    (read_in_otf host locals (ifstream.open data) header ⟨[]⟩).cout
      = (read_in_otf_entries host locals
          ((List.range (be (slice data 4 2))).map (fun k => entry_at host data (12 + 16 * k))) 0
          (after_entries (after_header data) (be (slice data 4 2))) []).2 ∧
    (read_in_otf host locals (ifstream.open data) header ⟨[]⟩).otf_file
      = (read_in_otf_entries host locals
          ((List.range (be (slice data 4 2))).map (fun k => entry_at host data (12 + 16 * k))) 0
          (after_entries (after_header data) (be (slice data 4 2))) []).1.close := by
  have hn := header_at_num_tables host data (by omega)
  simp only [read_in_otf]
  rw [read_in_otf_header_enough host data header (by omega)]
  simp only []
  rw [read_in_otf_directory_enough host locals _ _ _ rfl
    (by simp only [hn, after_header_pos, after_header_data]; omega)]
  simp [hn]

theorem endswap_endswap_u16 (host : ByteOrder) (x : uint16_t) :
    endswap host (endswap host x) = x := by
  cases host <;>
    simp [endswap, is_big_endian_big, is_big_endian_little, RawObject.store, RawObject.bytes]

theorem endswap_endswap_u32 (host : ByteOrder) (x : uint32_t) :
    endswap host (endswap host x) = x := by
  cases host <;>
    simp [endswap, is_big_endian_big, is_big_endian_little, RawObject.store, RawObject.bytes]

theorem endswap_endswap_version (host : ByteOrder) (x : header_version_u) :
    endswap host (endswap host x) = x := by
  cases host <;>
    simp [endswap, is_big_endian_big, is_big_endian_little, RawObject.store, RawObject.bytes]

/-! ### The directory loop on a file that ends too early -/

theorem read_cases {T : Type} [RawObject T] (s : ifstream) (var : T)
    (hs : 0 < RawObject.sizeof T) :
    (s.read var).1.fail = true ∨
      ((s.read var).1.fail = false ∧ s.fail = false ∧
        (s.read var).1.pos = s.pos + RawObject.sizeof T ∧
        s.pos + RawObject.sizeof T ≤ s.data.length) := by
  unfold ifstream.read
  by_cases hf : s.fail = true
  · simp [hf]
  · have hf0 : s.fail = false := by simpa using hf
    simp only [hf0, Bool.false_eq_true, if_false, List.length_take, List.length_drop,
      decide_eq_true_eq, decide_eq_false_iff_not, true_and]
    omega

theorem read_in_otf_offset_short (host : ByteOrder) (offset : Offset) (s : ifstream)
    (t : OffsetTable) (h : s.data.length < s.pos + 16) :
    (read_in_otf_offset host offset s t).1.fail = true := by
  simp only [read_in_otf_offset]
  have d1 := read_data s offset.tag
  have d2 := read_data (s.read offset.tag).1 offset.checksum
  have d3 := read_data ((s.read offset.tag).1.read offset.checksum).1 offset.offset
  rcases read_cases (((s.read offset.tag).1.read offset.checksum).1.read offset.offset).1
    offset.length (by decide) with h4 | ⟨_, f3, _, l4⟩
  · exact h4
  · rcases read_cases ((s.read offset.tag).1.read offset.checksum).1 offset.offset
      (by decide) with h3 | ⟨_, f2, p3, _⟩
    · rw [h3] at f3; cases f3
    · rcases read_cases (s.read offset.tag).1 offset.checksum (by decide) with h2 | ⟨_, f1, p2, _⟩
      · rw [h2] at f2; cases f2
      · rcases read_cases s offset.tag (by decide) with h1 | ⟨_, _, p1, _⟩
        · rw [h1] at f1; cases f1
        · exfalso
          rw [p3, p2, p1, d3, d2, d1] at l4
          simp only [RawObject.sizeof] at l4
          omega

theorem read_at_end {T : Type} [RawObject T] (s : ifstream) (var : T)
    (hs : 0 < RawObject.sizeof T) (hf : s.fail = false) (h : s.data.length ≤ s.pos) :
    (s.read var).1.fail = true ∧ (s.read var).2 = RawObject.store var [] := by
  unfold ifstream.read
  have hd : s.data.drop s.pos = [] := List.drop_eq_nil_of_le h
  simp [hf, hd, hs]

theorem read_in_otf_offset_failed (host : ByteOrder) (offset : Offset) (s : ifstream)
    (t : OffsetTable) (h : s.fail = true) :
    (read_in_otf_offset host offset s t).1.fail = true ∧
    (read_in_otf_offset host offset s t).2 = t.add_entry (endswap_otf_offset host offset) := by
  simp only [read_in_otf_offset]
  have r1 := read_fail s offset.tag h
  have r2 := read_fail _ offset.checksum r1.1
  have r3 := read_fail _ offset.offset r2.1
  have r4 := read_fail _ offset.length r3.1
  exact ⟨r4.1, by rw [r1.2, r2.2, r3.2, r4.2]⟩

theorem read_in_otf_offset_at_end (host : ByteOrder) (offset : Offset) (s : ifstream)
    (t : OffsetTable) (hf : s.fail = false) (h : s.data.length ≤ s.pos) :
    (read_in_otf_offset host offset s t).2 = t.add_entry (endswap_otf_offset host offset) := by
  simp only [read_in_otf_offset]
  have r1 := read_at_end s offset.tag (by decide) hf h
  have r2 := read_fail _ offset.checksum r1.1
  have r3 := read_fail _ offset.offset r2.1
  have r4 := read_fail _ offset.length r3.1
  rw [r1.2, r2.2, r3.2, r4.2]
  rfl

theorem read_in_otf_directory_failed (host : ByteOrder) (locals : Locals) (n : uint16_t) :
    ∀ (k i : Nat) (s : ifstream) (t : OffsetTable), n.val host - i = k → s.fail = true →
      (read_in_otf_directory host locals n i s t).1.fail = true ∧
      (read_in_otf_directory host locals n i s t).2.entries
        = t.entries ++ (List.range' i k).map
            (fun j => endswap_otf_offset host (locals.offset j)) := by
  intro k
  induction k with
  | zero =>
    intro i s t hk hf
    rw [read_in_otf_directory_done host locals n i s t (by omega)]
    exact ⟨hf, by simp⟩
  | succ k ih =>
    intro i s t hk hf
    rw [read_in_otf_directory, if_pos (by omega)]
    simp only []
    obtain ⟨h1, h2⟩ := read_in_otf_offset_failed host (locals.offset i) s t hf
    obtain ⟨h3, h4⟩ := ih (i + 1) _ (read_in_otf_offset host (locals.offset i) s t).2
      (by omega) h1
    refine ⟨h3, ?_⟩
    rw [h4, h2]
    simp [OffsetTable.add_entry, List.range'_succ]

/-- The directory loop on a file that holds `m` complete records after the cursor
and stops before record `m` is complete, `m` being less than the declared count. -/
theorem read_in_otf_directory_short (host : ByteOrder) (locals : Locals) (n : uint16_t)
    (s : ifstream) (m : Nat) (hf : s.fail = false) (hm : m < n.val host)
    (h1 : s.pos + 16 * m ≤ s.data.length) (h2 : s.data.length < s.pos + 16 * m + 16) :
    (read_in_otf_directory host locals n 0 s ⟨[]⟩).1.fail = true ∧
    ∃ x, (read_in_otf_directory host locals n 0 s ⟨[]⟩).2.entries
        = (List.range m).map (fun k => entry_at host s.data (s.pos + 16 * k)) ++ [x]
          ++ (List.range' (m + 1) (n.val host - (m + 1))).map
              (fun j => endswap_otf_offset host (locals.offset j)) ∧
      (s.data.length ≤ s.pos + 16 * m → x = endswap_otf_offset host (locals.offset m)) := by
  rw [read_in_otf_directory_steps host locals n m 0 s ⟨[]⟩ hf h1 (by omega)]
  rw [read_in_otf_directory, if_pos (by omega)]
  simp only [Nat.zero_add, List.nil_append]
  have hshort := read_in_otf_offset_short host (locals.offset m) (after_entries s m)
    ⟨(List.range m).map (fun k => entry_at host s.data (s.pos + 16 * k))⟩
    (by simp only [after_entries]; omega)
  obtain ⟨h3, h4⟩ := read_in_otf_directory_failed host locals n (n.val host - (m + 1)) (m + 1) _
    (read_in_otf_offset host (locals.offset m) (after_entries s m)
      ⟨(List.range m).map (fun k => entry_at host s.data (s.pos + 16 * k))⟩).2 rfl hshort
  refine ⟨h3, ?_⟩
  rw [h4]
  refine ⟨endswap_otf_offset host ⟨((after_entries s m).read (locals.offset m).tag).2,
    (((after_entries s m).read (locals.offset m).tag).1.read (locals.offset m).checksum).2,
    ((((after_entries s m).read (locals.offset m).tag).1.read
      (locals.offset m).checksum).1.read (locals.offset m).offset).2,
    (((((after_entries s m).read (locals.offset m).tag).1.read
      (locals.offset m).checksum).1.read (locals.offset m).offset).1.read
        (locals.offset m).length).2⟩, rfl, ?_⟩
  intro hend
  have := read_in_otf_offset_at_end host (locals.offset m) (after_entries s m)
    ⟨(List.range m).map (fun k => entry_at host s.data (s.pos + 16 * k))⟩ rfl
    (by simp only [after_entries]; omega)
  simp only [read_in_otf_offset, OffsetTable.add_entry, OffsetTable.mk.injEq] at this
  exact List.singleton_injective (List.append_cancel_left this)

/-! ### Strings copied with strncpy, and the version of the decoded header -/

theorem strncpy_string_spec (a b c d : Byte) :
    (strncpy_string [a, b, c, d]).length ≤ 4 ∧
    strncpy_string [a, b, c, d] <+: [a, b, c, d] ∧
    (∀ x ∈ strncpy_string [a, b, c, d], x ≠ 0) ∧
    ((strncpy_string [a, b, c, d]).length < 4 →
      [a, b, c, d][(strncpy_string [a, b, c, d]).length]? = some 0) ∧
    ((strncpy_string [a, b, c, d]).length = 4 ↔ ∀ x ∈ [a, b, c, d], x ≠ 0) ∧
    ((∀ x ∈ [a, b, c, d], x ≠ 0) → strncpy_string [a, b, c, d] = [a, b, c, d]) := by
  by_cases ha : a = 0
  · simp [strncpy_string, List.takeWhile_cons, ha]
  by_cases hb : b = 0
  · simp [strncpy_string, List.takeWhile_cons, ha, hb, List.prefix_cons_inj]
  by_cases hc : c = 0
  · simp [strncpy_string, List.takeWhile_cons, ha, hb, hc, List.prefix_cons_inj]
  by_cases hd : d = 0
  · simp [strncpy_string, List.takeWhile_cons, ha, hb, hc, hd, List.prefix_cons_inj]
  · simp [strncpy_string, List.takeWhile_cons, ha, hb, hc, hd]

theorem get_version_str_of_v_1_0 (host : ByteOrder) (h : Header)
    (hv : h.version.num host = VersionNum.V_1_0) : h.get_version_str = [] := by
  rcases h with ⟨⟨⟨a, b, c, d⟩⟩, _, _, _, _⟩
  have ha := a.isLt
  have hb := b.isLt
  have hc := c.isLt
  have hd := d.isLt
  have h0 : a = 0 := by
    apply Fin.ext
    cases host <;>
      simp only [header_version_u.num, uint32_t.val, VersionNum.V_1_0] at hv <;>
      simp only [Fin.val_zero] <;> omega
  subst h0
  simp [Header.get_version_str, header_version_u.str, strncpy_string, List.takeWhile_cons]

theorem read_in_otf_version (host : ByteOrder) (locals : Locals) (b0 b1 b2 b3 : Byte)
    (rest : List Byte) (header : Header) (offset_table : OffsetTable) :
    (read_in_otf host locals (ifstream.open (b0 :: b1 :: b2 :: b3 :: rest)) header
        offset_table).header.version = endswap host ⟨⟨b0, b1, b2, b3⟩⟩ := by
  simp [read_in_otf, read_in_otf_header, endswap_otf_header, ifstream.read, ifstream.open,
    RawObject.sizeof, RawObject.store]

theorem be_four_inj (a b c d a' b' c' d' : Byte) :
    a.val * 2 ^ 24 + b.val * 2 ^ 16 + c.val * 2 ^ 8 + d.val
      = a'.val * 2 ^ 24 + b'.val * 2 ^ 16 + c'.val * 2 ^ 8 + d'.val ↔
    a = a' ∧ b = b' ∧ c = c' ∧ d = d' := by
  have ha := a.isLt
  have hb := b.isLt
  have hc := c.isLt
  have hd := d.isLt
  have ha' := a'.isLt
  have hb' := b'.isLt
  have hc' := c'.isLt
  have hd' := d'.isLt
  constructor
  · intro h
    refine ⟨Fin.ext ?_, Fin.ext ?_, Fin.ext ?_, Fin.ext ?_⟩ <;> omega
  · rintro ⟨rfl, rfl, rfl, rfl⟩
    rfl

/-! ### The calls of each part: how many, and of which kind -/

theorem seek_targets_append (a b : List StreamCall) :
    seek_targets (a ++ b) = seek_targets a ++ seek_targets b := by
  simp [seek_targets, List.filterMap_append]

theorem seek_targets_of_reads (l : List StreamCall) (h : ∀ c ∈ l, c.is_read = true) :
    seek_targets l = [] := by
  induction l with
  | nil => rfl
  | cons c rest ih =>
    have hc := h c (List.mem_cons_self _ _)
    have hr := ih (fun x hx => h x (List.mem_cons_of_mem _ hx))
    cases c <;> simp_all [seek_targets, StreamCall.is_read, List.filterMap_cons]

theorem read_reads {T : Type} [RawObject T] (s : ifstream) (var : T) :
    ∃ extra, (s.read var).1.calls = s.calls ++ extra ∧ (∀ c ∈ extra, c.is_read = true) ∧
      extra.length = 1 := by
  obtain ⟨g, hg⟩ := read_calls s var
  exact ⟨_, hg, by simp [StreamCall.is_read], rfl⟩

theorem reads_chain (a b c : List StreamCall) (x y : List StreamCall) (m k : Nat)
    (h1 : b = a ++ x) (hx : ∀ c ∈ x, c.is_read = true) (lx : x.length = m)
    (h2 : c = b ++ y) (hy : ∀ c ∈ y, c.is_read = true) (ly : y.length = k) :
    c = a ++ (x ++ y) ∧ (∀ c ∈ x ++ y, c.is_read = true) ∧ (x ++ y).length = m + k := by
  refine ⟨by rw [h2, h1, List.append_assoc], ?_, by simp [lx, ly]⟩
  intro c hc
  rcases List.mem_append.mp hc with h | h
  · exact hx c h
  · exact hy c h

theorem read_in_otf_offset_reads (host : ByteOrder) (offset : Offset) (s : ifstream)
    (t : OffsetTable) :
    ∃ extra, (read_in_otf_offset host offset s t).1.calls = s.calls ++ extra ∧
      (∀ c ∈ extra, c.is_read = true) ∧ extra.length = 4 := by
  obtain ⟨x1, a1, b1, c1⟩ := read_reads s offset.tag
  obtain ⟨x2, a2, b2, c2⟩ := read_reads (s.read offset.tag).1 offset.checksum
  obtain ⟨x3, a3, b3, c3⟩ := read_reads ((s.read offset.tag).1.read offset.checksum).1
    offset.offset
  obtain ⟨x4, a4, b4, c4⟩ := read_reads
    (((s.read offset.tag).1.read offset.checksum).1.read offset.offset).1 offset.length
  obtain ⟨a12, b12, c12⟩ := reads_chain _ _ _ _ _ _ _ a1 b1 c1 a2 b2 c2
  obtain ⟨a13, b13, c13⟩ := reads_chain _ _ _ _ _ _ _ a12 b12 c12 a3 b3 c3
  obtain ⟨a14, b14, c14⟩ := reads_chain _ _ _ _ _ _ _ a13 b13 c13 a4 b4 c4
  exact ⟨_, a14, b14, c14⟩

theorem read_in_otf_offset_length (host : ByteOrder) (offset : Offset) (s : ifstream)
    (t : OffsetTable) :
    (read_in_otf_offset host offset s t).2.entries.length = t.entries.length + 1 := by
  simp [read_in_otf_offset, OffsetTable.add_entry]

theorem read_in_otf_directory_reads (host : ByteOrder) (locals : Locals) (n : uint16_t) :
    ∀ (k i : Nat) (s : ifstream) (t : OffsetTable), n.val host - i = k →
      (read_in_otf_directory host locals n i s t).2.entries.length = t.entries.length + k ∧
      ∃ extra, (read_in_otf_directory host locals n i s t).1.calls = s.calls ++ extra ∧
        (∀ c ∈ extra, c.is_read = true) ∧ extra.length = 4 * k := by
  intro k
  induction k with
  | zero =>
    intro i s t hk
    rw [read_in_otf_directory_done host locals n i s t (by omega)]
    exact ⟨rfl, [], by simp, by simp, rfl⟩
  | succ k ih =>
    intro i s t hk
    rw [read_in_otf_directory, if_pos (by omega)]
    simp only []
    obtain ⟨x1, a1, b1, c1⟩ := read_in_otf_offset_reads host (locals.offset i) s t
    obtain ⟨hl, x2, a2, b2, c2⟩ := ih (i + 1)
      (read_in_otf_offset host (locals.offset i) s t).1
      (read_in_otf_offset host (locals.offset i) s t).2 (by omega)
    obtain ⟨a12, b12, c12⟩ := reads_chain _ _ _ _ _ _ _ a1 b1 c1 a2 b2 c2
    refine ⟨?_, _, a12, b12, by rw [c12]; omega⟩
    rw [hl, read_in_otf_offset_length]
    omega

theorem read_in_otf_record_reads (host : ByteOrder) (r0 : CmapEncodingRecord) (s : ifstream)
    (cout : List CmapEncodingRecord) :
    (read_in_otf_record host r0 s cout).2.length = cout.length + 1 ∧
    ∃ extra, (read_in_otf_record host r0 s cout).1.calls = s.calls ++ extra ∧
      (∀ c ∈ extra, c.is_read = true) ∧ extra.length = 3 := by
  obtain ⟨x1, a1, b1, c1⟩ := read_reads s r0.platform_id
  obtain ⟨x2, a2, b2, c2⟩ := read_reads (s.read r0.platform_id).1 r0.encoding_id
  obtain ⟨x3, a3, b3, c3⟩ := read_reads ((s.read r0.platform_id).1.read r0.encoding_id).1
    r0.offset
  obtain ⟨a12, b12, c12⟩ := reads_chain _ _ _ _ _ _ _ a1 b1 c1 a2 b2 c2
  obtain ⟨a13, b13, c13⟩ := reads_chain _ _ _ _ _ _ _ a12 b12 c12 a3 b3 c3
  exact ⟨by simp [read_in_otf_record], _, a13, b13, c13⟩

theorem read_in_otf_records_reads (host : ByteOrder) (locals : Locals) (e : Nat)
    (n : uint16_t) : ∀ (k i : Nat) (s : ifstream) (cout : List CmapEncodingRecord),
      n.val host - i = k →
      (read_in_otf_records host locals e n i s cout).2.length = cout.length + k ∧
      ∃ extra, (read_in_otf_records host locals e n i s cout).1.calls = s.calls ++ extra ∧
        (∀ c ∈ extra, c.is_read = true) ∧ extra.length = 3 * k := by
  intro k
  induction k with
  | zero =>
    intro i s cout hk
    rw [read_in_otf_records_done host locals e n i s cout (by omega)]
    exact ⟨rfl, [], by simp, by simp, rfl⟩
  | succ k ih =>
    intro i s cout hk
    have hlt := uint16_val_lt host n
    rw [read_in_otf_records, if_pos (by omega)]
    simp only []
    rw [Nat.mod_eq_of_lt (by omega)]
    obtain ⟨l1, x1, a1, b1, c1⟩ :=
      read_in_otf_record_reads host (locals.encoding_record e i) s cout
    obtain ⟨hl, x2, a2, b2, c2⟩ := ih (i + 1)
      (read_in_otf_record host (locals.encoding_record e i) s cout).1
      (read_in_otf_record host (locals.encoding_record e i) s cout).2 (by omega)
    obtain ⟨a12, b12, c12⟩ := reads_chain _ _ _ _ _ _ _ a1 b1 c1 a2 b2 c2
    refine ⟨?_, _, a12, b12, by rw [c12]; omega⟩
    rw [hl, l1]
    omega

theorem read_in_otf_cmap_header_reads (host : ByteOrder) (h0 : CmapHeader) (s : ifstream) :
    ∃ extra, (read_in_otf_cmap_header host h0 s).1.calls = s.calls ++ extra ∧
      (∀ c ∈ extra, c.is_read = true) ∧ extra.length = 2 := by
  obtain ⟨x1, a1, b1, c1⟩ := read_reads s h0.version
  obtain ⟨x2, a2, b2, c2⟩ := read_reads (s.read h0.version).1 h0.num_tables
  obtain ⟨a12, b12, c12⟩ := reads_chain _ _ _ _ _ _ _ a1 b1 c1 a2 b2 c2
  exact ⟨_, a12, b12, c12⟩

theorem read_in_otf_header_reads (host : ByteOrder) (s : ifstream) (header : Header) :
    ∃ extra, (read_in_otf_header host s header).1.calls = s.calls ++ extra ∧
      (∀ c ∈ extra, c.is_read = true) ∧ extra.length = 5 := by
  obtain ⟨x1, a1, b1, c1⟩ := read_reads s header.version
  obtain ⟨x2, a2, b2, c2⟩ := read_reads (s.read header.version).1 header.num_tables
  obtain ⟨x3, a3, b3, c3⟩ := read_reads ((s.read header.version).1.read header.num_tables).1
    header.search_range
  obtain ⟨x4, a4, b4, c4⟩ := read_reads
    (((s.read header.version).1.read header.num_tables).1.read header.search_range).1
    header.entry_selector
  obtain ⟨x5, a5, b5, c5⟩ := read_reads
    ((((s.read header.version).1.read header.num_tables).1.read header.search_range).1.read
      header.entry_selector).1 header.range_shift
  obtain ⟨a12, b12, c12⟩ := reads_chain _ _ _ _ _ _ _ a1 b1 c1 a2 b2 c2
  obtain ⟨a13, b13, c13⟩ := reads_chain _ _ _ _ _ _ _ a12 b12 c12 a3 b3 c3
  obtain ⟨a14, b14, c14⟩ := reads_chain _ _ _ _ _ _ _ a13 b13 c13 a4 b4 c4
  obtain ⟨a15, b15, c15⟩ := reads_chain _ _ _ _ _ _ _ a14 b14 c14 a5 b5 c5
  exact ⟨_, a15, b15, c15⟩

theorem read_in_otf_entry_seeks (host : ByteOrder) (locals : Locals) (e : Nat)
    (offset : Offset) (s : ifstream) (cout : List CmapEncodingRecord) :
    seek_targets (read_in_otf_entry host locals e offset s cout).1.calls
      = seek_targets s.calls ++ [offset.offset.val host] := by
  unfold read_in_otf_entry
  simp only []
  split
  · obtain ⟨x1, a1, b1, _⟩ := read_in_otf_cmap_header_reads host (locals.cmap_header e)
      (s.seekg (offset.offset.val host))
    obtain ⟨_, x2, a2, b2, _⟩ := read_in_otf_records_reads host locals e
      (read_in_otf_cmap_header host (locals.cmap_header e)
        (s.seekg (offset.offset.val host))).2.num_tables _ 0
      (read_in_otf_cmap_header host (locals.cmap_header e)
        (s.seekg (offset.offset.val host))).1 cout rfl
    rw [a2, a1, seekg_calls]
    simp only [seek_targets_append, seek_targets_of_reads _ b1, seek_targets_of_reads _ b2,
      List.append_nil]
    rfl
  · rw [seekg_calls, seek_targets_append]
    rfl

theorem read_in_otf_entries_seeks (host : ByteOrder) (locals : Locals) (l : List Offset) :
    ∀ (e : Nat) (s : ifstream) (cout : List CmapEncodingRecord),
      seek_targets (read_in_otf_entries host locals l e s cout).1.calls
        = seek_targets s.calls ++ l.map (fun o => o.offset.val host) := by
  induction l with
  | nil => intro e s cout; simp [read_in_otf_entries]
  | cons o rest ih =>
    intro e s cout
    simp only [read_in_otf_entries]
    rw [ih, read_in_otf_entry_seeks]
    simp

theorem read_in_otf_seeks (host : ByteOrder) (locals : Locals) (s : ifstream)
    (header : Header) (offset_table : OffsetTable) :
    seek_targets (read_in_otf host locals s header offset_table).otf_file.calls
      = seek_targets s.calls
        ++ (read_in_otf host locals s header offset_table).offset_table.entries.map
            (fun o => o.offset.val host) := by
  obtain ⟨x1, a1, b1, _⟩ := read_in_otf_header_reads host s header
  obtain ⟨_, x2, a2, b2, _⟩ := read_in_otf_directory_reads host locals
    (read_in_otf_header host s header).2.num_tables _ 0 (read_in_otf_header host s header).1
    offset_table rfl
  simp only [read_in_otf, ifstream.close]
  rw [seek_targets_append, read_in_otf_entries_seeks, a2, a1]
  simp only [seek_targets_append, seek_targets_of_reads _ b1, seek_targets_of_reads _ b2,
    List.append_nil]
  simp [seek_targets]

/-! ### The header and the directory on any file -/

theorem store_nil_u16 (x : uint16_t) : RawObject.store x [] = x := rfl

theorem store_nil_u32 (x : uint32_t) : RawObject.store x [] = x := rfl

theorem store_nil_tag (x : tag_u) : RawObject.store x [] = x := rfl

theorem store_nil_version (x : header_version_u) : RawObject.store x [] = x := rfl

theorem slice_past_end (data : List Byte) (p n : Nat) (h : data.length ≤ p) :
    slice data p n = [] := by
  simp [slice, List.drop_eq_nil_of_le h]

theorem tracked_open (data : List Byte) : tracked (ifstream.open data) 0 := by
  simp [tracked, ifstream.open]

theorem read_tracked {T : Type} [RawObject T] (s : ifstream) (var : T) (p : Nat)
    (hn : 0 < RawObject.sizeof T) (hst : RawObject.store var [] = var) (ht : tracked s p) :
    (s.read var).2 = RawObject.store var (slice s.data p (RawObject.sizeof T)) ∧
    tracked (s.read var).1 (p + RawObject.sizeof T) ∧
    (s.read var).1.data = s.data := by
  obtain ⟨h1, h2⟩ := ht
  unfold ifstream.read tracked
  by_cases hf : s.fail = true
  · have hl := h1.mp hf
    simp only [hf, if_true]
    refine ⟨?_, ⟨?_, ?_⟩, trivial⟩
    · rw [slice_past_end _ _ _ (by omega), hst]
    · simp only [true_iff]; omega
    · intro h; cases h
  · have hf0 : s.fail = false := by simpa using hf
    have hp := h2 hf0
    have hl : ¬ s.data.length < p := fun h => hf (h1.mpr h)
    simp only [hf0, Bool.false_eq_true, if_false, List.length_take, List.length_drop,
      decide_eq_true_eq, decide_eq_false_iff_not, hp]
    refine ⟨rfl, ⟨?_, ?_⟩, trivial⟩
    · constructor <;> intro h <;> omega
    · intro h; omega

theorem read_in_otf_header_any (host : ByteOrder) (data : List Byte) (header : Header) :
    (read_in_otf_header host (ifstream.open data) header).2 = header_from host data header ∧
    tracked (read_in_otf_header host (ifstream.open data) header).1 12 ∧
    (read_in_otf_header host (ifstream.open data) header).1.data = data := by
  obtain ⟨v1, t1, d1⟩ := read_tracked (ifstream.open data) header.version 0 (by decide)
    (store_nil_version _) (tracked_open data)
  obtain ⟨v2, t2, d2⟩ := read_tracked _ header.num_tables _ (by decide) (store_nil_u16 _) t1
  obtain ⟨v3, t3, d3⟩ := read_tracked _ header.search_range _ (by decide) (store_nil_u16 _) t2
  obtain ⟨v4, t4, d4⟩ := read_tracked _ header.entry_selector _ (by decide)
    (store_nil_u16 _) t3
  obtain ⟨v5, t5, d5⟩ := read_tracked _ header.range_shift _ (by decide) (store_nil_u16 _) t4
  have e1 : (ifstream.open data).data = data := rfl
  rw [d1, e1] at d2 v2
  rw [d2] at d3 v3
  rw [d3] at d4 v4
  rw [d4] at d5 v5
  rw [e1] at v1
  refine ⟨?_, t5, d5⟩
  simp only [read_in_otf_header, header_from]
  rw [v1, v2, v3, v4, v5]
  rfl

theorem read_in_otf_offset_any (host : ByteOrder) (offset : Offset) (s : ifstream)
    (t : OffsetTable) (p : Nat) (ht : tracked s p) :
    (read_in_otf_offset host offset s t).2 = t.add_entry (entry_from host s.data p offset) ∧
    tracked (read_in_otf_offset host offset s t).1 (p + 16) ∧
    (read_in_otf_offset host offset s t).1.data = s.data := by
  obtain ⟨v1, t1, d1⟩ := read_tracked s offset.tag p (by decide) (store_nil_tag _) ht
  obtain ⟨v2, t2, d2⟩ := read_tracked _ offset.checksum _ (by decide) (store_nil_u32 _) t1
  obtain ⟨v3, t3, d3⟩ := read_tracked _ offset.offset _ (by decide) (store_nil_u32 _) t2
  obtain ⟨v4, t4, d4⟩ := read_tracked _ offset.length _ (by decide) (store_nil_u32 _) t3
  rw [d1] at d2 v2
  rw [d2] at d3 v3
  rw [d3] at d4 v4
  refine ⟨?_, t4, d4⟩
  simp only [read_in_otf_offset, entry_from]
  rw [v1, v2, v3, v4]
  rfl

theorem read_in_otf_directory_any (host : ByteOrder) (locals : Locals) (n : uint16_t) :
    ∀ (k i : Nat) (s : ifstream) (t : OffsetTable) (p : Nat), n.val host - i = k →
      tracked s p →
      (read_in_otf_directory host locals n i s t).2.entries
        = t.entries ++ (List.range k).map
            (fun j => entry_from host s.data (p + 16 * j) (locals.offset (i + j))) ∧
      tracked (read_in_otf_directory host locals n i s t).1 (p + 16 * k) ∧
      (read_in_otf_directory host locals n i s t).1.data = s.data := by
  intro k
  induction k with
  | zero =>
    intro i s t p hk ht
    rw [read_in_otf_directory_done host locals n i s t (by omega)]
    exact ⟨by simp, ht, rfl⟩
  | succ k ih =>
    intro i s t p hk ht
    rw [read_in_otf_directory, if_pos (by omega)]
    simp only []
    obtain ⟨v1, t1, d1⟩ := read_in_otf_offset_any host (locals.offset i) s t p ht
    obtain ⟨v2, t2, d2⟩ := ih (i + 1) _ (read_in_otf_offset host (locals.offset i) s t).2
      (p + 16) (by omega) t1
    refine ⟨?_, ?_, by rw [d2, d1]⟩
    · have hfun : ∀ j, entry_from host s.data (p + 16 + 16 * j) (locals.offset (i + 1 + j))
          = entry_from host s.data (p + 16 * (j + 1)) (locals.offset (i + (j + 1))) := by
        intro j
        have h1 : p + 16 + 16 * j = p + 16 * (j + 1) := by omega
        have h2 : i + 1 + j = i + (j + 1) := by omega
        rw [h1, h2]
      rw [v2, v1, d1]
      simp [OffsetTable.add_entry, List.range_succ_eq_map, List.map_map, Function.comp, hfun]
    · have : p + 16 + 16 * k = p + 16 * (k + 1) := by omega
      rw [← this]
      exact t2

/-- On any file, from the stream just opened and an empty table: the header, the
directory and the state of the stream after the directory loop. -/
theorem read_in_otf_any (host : ByteOrder) (locals : Locals) (data : List Byte)
    (header : Header) :
    (read_in_otf host locals (ifstream.open data) header ⟨[]⟩).header
      = header_from host data header ∧
    (read_in_otf host locals (ifstream.open data) header ⟨[]⟩).offset_table.entries
      = (List.range ((header_from host data header).num_tables.val host)).map
          (fun j => entry_from host data (12 + 16 * j) (locals.offset j)) ∧
    tracked (read_in_otf_directory host locals
        (read_in_otf_header host (ifstream.open data) header).2.num_tables 0
        (read_in_otf_header host (ifstream.open data) header).1 ⟨[]⟩).1
      (12 + 16 * (header_from host data header).num_tables.val host) ∧
    (read_in_otf_directory host locals
        (read_in_otf_header host (ifstream.open data) header).2.num_tables 0
        (read_in_otf_header host (ifstream.open data) header).1 ⟨[]⟩).1.data = data := by
  obtain ⟨vh, th, dh⟩ := read_in_otf_header_any host data header
  obtain ⟨vd, td, dd⟩ := read_in_otf_directory_any host locals
    (read_in_otf_header host (ifstream.open data) header).2.num_tables _ 0
    (read_in_otf_header host (ifstream.open data) header).1 ⟨[]⟩ 12 rfl th
  rw [dh] at vd dd
  rw [vh] at vd td
  refine ⟨vh, ?_, ?_, dd⟩
  · simp only [read_in_otf]
    rw [vh, vd]
    simp
  · rw [vh]
    simpa using td

/-! ### The walk over the directory: what it keeps, and the good and the failed case -/

theorem seekg_data (s : ifstream) (target : Nat) : (s.seekg target).data = s.data := by
  unfold ifstream.seekg
  split <;> rfl

theorem read_in_otf_record_data (host : ByteOrder) (r0 : CmapEncodingRecord) (s : ifstream)
    (cout : List CmapEncodingRecord) : (read_in_otf_record host r0 s cout).1.data = s.data := by
  simp only [read_in_otf_record]
  rw [read_data, read_data, read_data]

theorem read_in_otf_records_data (host : ByteOrder) (locals : Locals) (e : Nat)
    (n : uint16_t) : ∀ (k i : Nat) (s : ifstream) (cout : List CmapEncodingRecord),
      n.val host - i = k → (read_in_otf_records host locals e n i s cout).1.data = s.data := by
  intro k
  induction k with
  | zero =>
    intro i s cout hk
    rw [read_in_otf_records_done host locals e n i s cout (by omega)]
  | succ k ih =>
    intro i s cout hk
    have hlt := uint16_val_lt host n
    rw [read_in_otf_records, if_pos (by omega)]
    simp only []
    rw [Nat.mod_eq_of_lt (by omega), ih (i + 1) _ _ (by omega), read_in_otf_record_data]

theorem read_in_otf_cmap_header_data (host : ByteOrder) (h0 : CmapHeader) (s : ifstream) :
    (read_in_otf_cmap_header host h0 s).1.data = s.data := by
  simp only [read_in_otf_cmap_header]
  rw [read_data, read_data]

theorem read_in_otf_entry_data (host : ByteOrder) (locals : Locals) (e : Nat)
    (offset : Offset) (s : ifstream) (cout : List CmapEncodingRecord) :
    (read_in_otf_entry host locals e offset s cout).1.data = s.data := by
  unfold read_in_otf_entry
  simp only []
  split
  · rw [read_in_otf_records_data host locals e _ _ 0 _ _ rfl, read_in_otf_cmap_header_data,
      seekg_data]
  · exact seekg_data s _

theorem read_in_otf_entries_data (host : ByteOrder) (locals : Locals) (l : List Offset) :
    ∀ (e : Nat) (s : ifstream) (cout : List CmapEncodingRecord),
      (read_in_otf_entries host locals l e s cout).1.data = s.data := by
  induction l with
  | nil => intro e s cout; rfl
  | cons o rest ih =>
    intro e s cout
    simp only [read_in_otf_entries]
    rw [ih, read_in_otf_entry_data]

/-- The walk on a stream in a good state, when the cmap table of every entry tagged
"cmap" lies within the file: the records of all those tables are printed, in the order
of the entries, and the stream stays in a good state. -/
theorem read_in_otf_entries_walk (host : ByteOrder) (locals : Locals) (l : List Offset) :
    ∀ (e : Nat) (s : ifstream) (cout : List CmapEncodingRecord), s.fail = false →
      (∀ d ∈ l, cmap_fits host s.data d) →
      (read_in_otf_entries host locals l e s cout).2 = cout ++ walk_records host s.data l ∧
      (read_in_otf_entries host locals l e s cout).1.fail = false := by
  induction l with
  | nil => intro e s cout hf _; simp [read_in_otf_entries, walk_records, hf]
  | cons o rest ih =>
    intro e s cout hf hfit
    simp only [read_in_otf_entries]
    have hrest : ∀ d ∈ rest, cmap_fits host
        (read_in_otf_entry host locals e o s cout).1.data d := by
      intro d hd
      rw [read_in_otf_entry_data]
      exact hfit d (List.mem_cons_of_mem _ hd)
    by_cases htag : o.get_tag_str = TAG_CMAP
    · have hr := read_in_otf_entry_cmap_enough host locals e o s cout htag hf
        (hfit o (List.mem_cons_self _ _) htag)
      have hf1 : (read_in_otf_entry host locals e o s cout).1.fail = false := by
        rw [hr]; rfl
      obtain ⟨h1, h2⟩ := ih (e + 1) _ (read_in_otf_entry host locals e o s cout).2 hf1 hrest
      refine ⟨?_, h2⟩
      rw [h1, read_in_otf_entry_data, hr]
      simp [walk_records, List.flatMap_cons, htag, cmap_records_at]
    · have hne : o.tag.str ≠ [0x63, 0x6D, 0x61, 0x70] :=
        fun h => htag ((get_tag_str_eq_cmap o).mpr h)
      have hr := read_in_otf_entry_other host locals e o s cout hne
      have hf1 : (read_in_otf_entry host locals e o s cout).1.fail = false := by
        rw [hr]; simp [ifstream.seekg, hf]
      obtain ⟨h1, h2⟩ := ih (e + 1) _ (read_in_otf_entry host locals e o s cout).2 hf1 hrest
      refine ⟨?_, h2⟩
      rw [h1, read_in_otf_entry_data, hr]
      simp [walk_records, List.flatMap_cons, htag]

theorem read_nothing {T : Type} [RawObject T] (s : ifstream) (var : T)
    (hn : 0 < RawObject.sizeof T) (hst : RawObject.store var [] = var)
    (h : s.fail = true ∨ s.data.length ≤ s.pos) :
    (s.read var).1.fail = true ∧ (s.read var).2 = var ∧
    (s.read var).1.calls = s.calls ++ [StreamCall.read s.pos (RawObject.sizeof T) 0] := by
  unfold ifstream.read
  by_cases hf : s.fail = true
  · simp [hf]
  · have hf0 : s.fail = false := by simpa using hf
    have hl : s.data.length ≤ s.pos := by
      rcases h with h | h
      · exact absurd h hf
      · exact h
    have hd : s.data.drop s.pos = [] := List.drop_eq_nil_of_le hl
    simp [hf0, hd, hn, hst]

theorem read_in_otf_record_failed (host : ByteOrder) (r0 : CmapEncodingRecord) (s : ifstream)
    (cout : List CmapEncodingRecord) (h : s.fail = true) :
    (read_in_otf_record host r0 s cout).1.fail = true ∧
    (read_in_otf_record host r0 s cout).2 = cout ++ [CmapEncodingRecord.endswap_self host r0] ∧
    ∃ extra, (read_in_otf_record host r0 s cout).1.calls = s.calls ++ extra ∧
      ∀ c ∈ extra, c.got = 0 := by
  obtain ⟨f1, v1, c1⟩ := read_nothing s r0.platform_id (by decide) (store_nil_u16 _) (Or.inl h)
  obtain ⟨f2, v2, c2⟩ := read_nothing _ r0.encoding_id (by decide) (store_nil_u16 _) (Or.inl f1)
  obtain ⟨f3, v3, c3⟩ := read_nothing _ r0.offset (by decide) (store_nil_u32 _) (Or.inl f2)
  refine ⟨f3, ?_, ?_⟩
  · simp only [read_in_otf_record]
    rw [v1, v2, v3]
  · simp only [read_in_otf_record]
    rw [c3, c2, c1, List.append_assoc, List.append_assoc]
    exact ⟨_, rfl, by simp [StreamCall.got]⟩

theorem read_in_otf_records_failed (host : ByteOrder) (locals : Locals) (e : Nat)
    (n : uint16_t) : ∀ (k i : Nat) (s : ifstream) (cout : List CmapEncodingRecord),
      n.val host - i = k → s.fail = true →
      (read_in_otf_records host locals e n i s cout).1.fail = true ∧
      (read_in_otf_records host locals e n i s cout).2
        = cout ++ (List.range k).map
            (fun j => CmapEncodingRecord.endswap_self host (locals.encoding_record e (i + j))) ∧
      ∃ extra, (read_in_otf_records host locals e n i s cout).1.calls = s.calls ++ extra ∧
        ∀ c ∈ extra, c.got = 0 := by
  intro k
  induction k with
  | zero =>
    intro i s cout hk hf
    rw [read_in_otf_records_done host locals e n i s cout (by omega)]
    exact ⟨hf, by simp, [], by simp, by simp⟩
  | succ k ih =>
    intro i s cout hk hf
    have hlt := uint16_val_lt host n
    rw [read_in_otf_records, if_pos (by omega)]
    simp only []
    rw [Nat.mod_eq_of_lt (by omega)]
    obtain ⟨f1, v1, x1, c1, g1⟩ :=
      read_in_otf_record_failed host (locals.encoding_record e i) s cout hf
    obtain ⟨f2, v2, x2, c2, g2⟩ := ih (i + 1) _
      (read_in_otf_record host (locals.encoding_record e i) s cout).2 (by omega) f1
    refine ⟨f2, ?_, x1 ++ x2, by rw [c2, c1, List.append_assoc], ?_⟩
    · have hfun : ∀ j, locals.encoding_record e (i + 1 + j)
          = locals.encoding_record e (i + (j + 1)) := by
        intro j
        have h2 : i + 1 + j = i + (j + 1) := by omega
        rw [h2]
      rw [v2, v1]
      simp [List.range_succ_eq_map, List.map_map, Function.comp, hfun]
    · intro c hc
      rcases List.mem_append.mp hc with h | h
      · exact g1 c h
      · exact g2 c h

/-- The loop body at an entry tagged "cmap" whose offset is past the end of the file,
from any state of the stream: no byte is extracted, the stream has failed afterwards,
and the records printed are the uninitialised locals. -/
theorem read_in_otf_entry_past_end (host : ByteOrder) (locals : Locals) (e : Nat)
    (offset : Offset) (s : ifstream) (cout : List CmapEncodingRecord)
    (htag : offset.get_tag_str = TAG_CMAP) (h : s.data.length ≤ offset.offset.val host) :
    (read_in_otf_entry host locals e offset s cout).1.fail = true ∧
    (read_in_otf_entry host locals e offset s cout).2 = cout ++ stale_records host locals e ∧
    ∃ extra, (read_in_otf_entry host locals e offset s cout).1.calls
        = s.calls ++ StreamCall.seekg (offset.offset.val host) :: extra ∧
      ∀ c ∈ extra, c.is_read = true ∧ c.got = 0 := by
  have hs : (s.seekg (offset.offset.val host)).fail = true ∨
      (s.seekg (offset.offset.val host)).data.length ≤ (s.seekg (offset.offset.val host)).pos := by
    unfold ifstream.seekg
    by_cases hf : s.fail = true
    · left; simp [hf]
    · right; simpa [hf] using h
  obtain ⟨f1, v1, c1⟩ := read_nothing (s.seekg (offset.offset.val host))
    (locals.cmap_header e).version (by decide) (store_nil_u16 _) hs
  obtain ⟨f2, v2, c2⟩ := read_nothing _ (locals.cmap_header e).num_tables (by decide)
    (store_nil_u16 _) (Or.inl f1)
  have hh : read_in_otf_cmap_header host (locals.cmap_header e)
      (s.seekg (offset.offset.val host))
      = ((((s.seekg (offset.offset.val host)).read (locals.cmap_header e).version).1.read
          (locals.cmap_header e).num_tables).1,
        CmapHeader.endswap_self host (locals.cmap_header e)) := by
    simp only [read_in_otf_cmap_header]
    rw [v1, v2]
  obtain ⟨f3, v3, x3, c3, g3⟩ := read_in_otf_records_failed host locals e
    (CmapHeader.endswap_self host (locals.cmap_header e)).num_tables _ 0
    (((s.seekg (offset.offset.val host)).read (locals.cmap_header e).version).1.read
      (locals.cmap_header e).num_tables).1 cout rfl f2
  obtain ⟨_, y3, d3, r3, _⟩ := read_in_otf_records_reads host locals e
    (CmapHeader.endswap_self host (locals.cmap_header e)).num_tables _ 0
    (((s.seekg (offset.offset.val host)).read (locals.cmap_header e).version).1.read
      (locals.cmap_header e).num_tables).1 cout rfl
  have hxy : x3 = y3 := List.append_cancel_left (c3.symm.trans d3)
  unfold read_in_otf_entry
  simp only [htag, if_true]
  rw [hh]
  simp only []
  refine ⟨f3, ?_, ?_⟩
  · rw [v3]
    simp [stale_records]
  · rw [c3, c2, c1, seekg_calls]
    refine ⟨[StreamCall.read (s.seekg (offset.offset.val host)).pos 2 0,
      StreamCall.read ((s.seekg (offset.offset.val host)).read
        (locals.cmap_header e).version).1.pos 2 0] ++ x3, by simp [RawObject.sizeof], ?_⟩
    intro c hc
    rcases List.mem_append.mp hc with h | h
    · simp only [List.mem_cons, List.mem_singleton, List.not_mem_nil, or_false] at h
      rcases h with rfl | rfl <;> exact ⟨rfl, rfl⟩
    · exact ⟨r3 c (hxy ▸ h), g3 c h⟩

theorem read_in_otf_entries_past_end (host : ByteOrder) (locals : Locals) (l : List Offset) :
    ∀ (e : Nat) (s : ifstream) (cout : List CmapEncodingRecord),
      (∃ d ∈ l, d.get_tag_str = TAG_CMAP ∧ s.data.length ≤ d.offset.val host) →
      (read_in_otf_entries host locals l e s cout).1.fail = true := by
  induction l with
  | nil => intro e s cout ⟨d, hd, _⟩; cases hd
  | cons o rest ih =>
    intro e s cout ⟨d, hd, htag, hlen⟩
    simp only [read_in_otf_entries]
    rcases List.mem_cons.mp hd with rfl | hd
    · exact read_in_otf_entries_fail host locals rest _ _ _
        (read_in_otf_entry_past_end host locals e d s cout htag hlen).1
    · exact ih _ _ _ ⟨d, hd, htag, by rw [read_in_otf_entry_data]; exact hlen⟩
/-! ### Two files that hold the same bytes in some places -/

theorem slice_getElem?_eq (d : List Byte) (p n k : Nat) :
    (slice d p n)[k]? = if k < n then d[p + k]? else none := by
  simp [slice, List.getElem?_take, List.getElem?_drop]

theorem slice_eq_of_same (d d' : List Byte) (p n : Nat) (hlen : d'.length = d.length)
    (h : ∀ q, p ≤ q → q < p + n → d'.getD q 0 = d.getD q 0) : slice d' p n = slice d p n := by
  apply List.ext_getElem?
  intro k
  rw [slice_getElem?_eq, slice_getElem?_eq]
  by_cases hk : k < n
  · simp only [hk, if_true]
    by_cases hq : p + k < d.length
    · have hq' : p + k < d'.length := by omega
      have hg := h (p + k) (by omega) (by omega)
      rw [List.getD_eq_getElem?_getD, List.getD_eq_getElem?_getD] at hg
      rw [List.getElem?_eq_getElem hq, List.getElem?_eq_getElem hq'] at hg ⊢
      simpa using hg
    · rw [List.getElem?_eq_none (by omega), List.getElem?_eq_none (by omega)]
  · simp [hk]

theorem patch_length (d : List Byte) (c : Nat) (xs : List Byte)
    (h : c + xs.length ≤ d.length) : (patch d c xs).length = d.length := by
  simp only [patch, List.length_append, List.length_take, List.length_drop]
  omega

theorem patch_getElem?_outside (d : List Byte) (c : Nat) (xs : List Byte) (q : Nat)
    (h : c + xs.length ≤ d.length) (hq : q < c ∨ c + xs.length ≤ q) :
    (patch d c xs)[q]? = d[q]? := by
  unfold patch
  rcases hq with hq | hq
  · rw [List.append_assoc, List.getElem?_append_left (by simp; omega),
      List.getElem?_take_of_lt hq]
  · rw [List.getElem?_append_right (by simp; omega), List.getElem?_drop]
    congr 1
    simp only [List.length_append, List.length_take]
    omega

theorem patch_getD_outside (d : List Byte) (c : Nat) (xs : List Byte) (q : Nat)
    (h : c + xs.length ≤ d.length) (hq : q < c ∨ c + xs.length ≤ q) :
    (patch d c xs).getD q 0 = d.getD q 0 := by
  rw [List.getD_eq_getElem?_getD, List.getD_eq_getElem?_getD,
    patch_getElem?_outside d c xs q h hq]

theorem slice_patch_outside (d : List Byte) (c : Nat) (xs : List Byte) (q n : Nat)
    (h : c + xs.length ≤ d.length) (hq : q + n ≤ c ∨ c + xs.length ≤ q) :
    slice (patch d c xs) q n = slice d q n := by
  apply slice_eq_of_same d _ q n (patch_length d c xs h)
  intro r h1 h2
  exact patch_getD_outside d c xs r h (by omega)

theorem slice_patch_self (d : List Byte) (c : Nat) (xs : List Byte)
    (h : c + xs.length ≤ d.length) : slice (patch d c xs) c xs.length = xs := by
  unfold slice patch
  rw [List.append_assoc, List.drop_left' (by simp; omega)]
  simp

/-! ### Records fully in the file do not depend on the uninitialised locals -/

theorem header_from_enough (host : ByteOrder) (d : List Byte) (header : Header)
    (h : 12 ≤ d.length) : header_from host d header = header_at host d := by
  have hv : RawObject.store header.version (slice d 0 4) = ⟨u32_at d 0⟩ := by
    show (⟨RawObject.store header.version.raw (slice d 0 4)⟩ : header_version_u) = _
    rw [store_u32_slice _ d 0 (by omega)]
  simp only [header_from, header_at]
  rw [hv, store_u16_slice _ d 4 (by omega), store_u16_slice _ d 6 (by omega),
    store_u16_slice _ d 8 (by omega), store_u16_slice _ d 10 (by omega)]

theorem entry_from_enough (host : ByteOrder) (d : List Byte) (p : Nat) (o : Offset)
    (h : p + 16 ≤ d.length) : entry_from host d p o = entry_at host d p := by
  have ht : RawObject.store o.tag (slice d p 4) = ⟨u32_at d p⟩ := by
    show (⟨RawObject.store o.tag.raw (slice d p 4)⟩ : tag_u) = _
    rw [store_u32_slice _ d p (by omega)]
  simp only [entry_from, entry_at]
  rw [ht, store_u32_slice _ d (p + 4) (by omega), store_u32_slice _ d (p + 8) (by omega),
    store_u32_slice _ d (p + 12) (by omega)]

theorem read_in_otf_cout_enough (host : ByteOrder) (locals : Locals) (data : List Byte)
    (header : Header) (h : 12 + 16 * be (slice data 4 2) ≤ data.length)
    (hfit : ∀ i, i < be (slice data 4 2) → slice data (12 + 16 * i) 4 = TAG_CMAP →
      be (slice data (12 + 16 * i + 8) 4) + 4
          + 8 * be (slice data (be (slice data (12 + 16 * i + 8) 4) + 2) 2)
        ≤ data.length) :
    (read_in_otf host locals (ifstream.open data) header ⟨[]⟩).cout
      = walk_records host data
          ((List.range (be (slice data 4 2))).map (fun k => entry_at host data (12 + 16 * k))) := by
  obtain ⟨_, _, hc, _⟩ := read_in_otf_enough host locals data header h
  have hfits : ∀ d ∈ (List.range (be (slice data 4 2))).map
      (fun k => entry_at host data (12 + 16 * k)),
      cmap_fits host (after_entries (after_header data) (be (slice data 4 2))).data d := by
    intro d hd
    obtain ⟨i, hi, rfl⟩ := List.mem_map.mp hd
    have hi := List.mem_range.mp hi
    have hm : 16 * i + 16 ≤ 16 * be (slice data 4 2) := by omega
    obtain ⟨e1, _, e3, _⟩ := entry_at_fields host data (12 + 16 * i) (by omega)
    intro hcm
    have hfi := hfit i hi (by rw [← e1]; exact (get_tag_str_eq_cmap _).mp hcm)
    simp only [after_entries, after_header_data]
    rw [e3, (cmap_header_at_fields host data _ (by omega)).2]
    exact hfi
  rw [hc, (read_in_otf_entries_walk host locals _ 0
    (after_entries (after_header data) (be (slice data 4 2))) [] rfl hfits).1]
  simp only [List.nil_append, after_entries, after_header_data]

theorem cmap_records_at_congr (host : ByteOrder) (d d' : List Byte) (o : Nat)
    (h : ∀ q, o ≤ q → q < o + 4 + 8 * (cmap_header_at host d o).num_tables.val host →
      d'.getD q 0 = d.getD q 0) :
    cmap_records_at host d' o = cmap_records_at host d o := by
  have hh : cmap_header_at host d' o = cmap_header_at host d o := by
    simp only [cmap_header_at, u16_at]
    rw [h o (by omega) (by omega), h (o + 1) (by omega) (by omega),
      h (o + 2) (by omega) (by omega), h (o + 2 + 1) (by omega) (by omega)]
  simp only [cmap_records_at, hh]
  apply List.map_congr_left
  intro j hj
  have hj := List.mem_range.mp hj
  simp only [record_at, u16_at, u32_at]
  rw [h (o + 4 + 8 * j) (by omega) (by omega), h (o + 4 + 8 * j + 1) (by omega) (by omega),
    h (o + 4 + 8 * j + 2) (by omega) (by omega),
    h (o + 4 + 8 * j + 2 + 1) (by omega) (by omega),
    h (o + 4 + 8 * j + 4) (by omega) (by omega),
    h (o + 4 + 8 * j + 4 + 1) (by omega) (by omega),
    h (o + 4 + 8 * j + 4 + 2) (by omega) (by omega),
    h (o + 4 + 8 * j + 4 + 3) (by omega) (by omega)]

theorem walk_records_congr (host : ByteOrder) (d d' : List Byte) (f f' : Nat → Offset)
    (l : List Nat)
    (h : ∀ j ∈ l,
      ((f' j).get_tag_str = TAG_CMAP ↔ (f j).get_tag_str = TAG_CMAP) ∧
      ((f j).get_tag_str = TAG_CMAP →
        cmap_records_at host d' ((f' j).offset.val host)
          = cmap_records_at host d ((f j).offset.val host))) :
    walk_records host d' (l.map f') = walk_records host d (l.map f) := by
  induction l with
  | nil => rfl
  | cons j rest ih =>
    have hj := h j (List.mem_cons_self _ _)
    have hrest := ih (fun k hk => h k (List.mem_cons_of_mem _ hk))
    simp only [walk_records, List.map_cons, List.flatMap_cons] at hrest ⊢
    rw [hrest]
    congr 1
    by_cases hcm : (f j).get_tag_str = TAG_CMAP
    · rw [if_pos hcm, if_pos (hj.1.mpr hcm), hj.2 hcm]
    · rw [if_neg hcm, if_neg (fun hc => hcm (hj.1.mp hc))]

theorem read_in_otf_cout_same_tables (host : ByteOrder) (locals locals' : Locals)
    (header header' : Header) (d d' : List Byte) (hlen : d'.length = d.length)
    (h : 12 + 16 * be (slice d 4 2) ≤ d.length)
    (hfit : ∀ i, i < be (slice d 4 2) → slice d (12 + 16 * i) 4 = TAG_CMAP →
      be (slice d (12 + 16 * i + 8) 4) + 4
          + 8 * be (slice d (be (slice d (12 + 16 * i + 8) 4) + 2) 2)
        ≤ d.length)
    (hn : slice d' 4 2 = slice d 4 2)
    (htag : ∀ i, i < be (slice d 4 2) → slice d' (12 + 16 * i) 4 = slice d (12 + 16 * i) 4)
    (hoff : ∀ i, i < be (slice d 4 2) → slice d (12 + 16 * i) 4 = TAG_CMAP →
      slice d' (12 + 16 * i + 8) 4 = slice d (12 + 16 * i + 8) 4)
    (hreg : ∀ i, i < be (slice d 4 2) → slice d (12 + 16 * i) 4 = TAG_CMAP →
      ∀ q, be (slice d (12 + 16 * i + 8) 4) ≤ q →
        q < be (slice d (12 + 16 * i + 8) 4) + 4
            + 8 * be (slice d (be (slice d (12 + 16 * i + 8) 4) + 2) 2) →
        d'.getD q 0 = d.getD q 0) :
    (read_in_otf host locals' (ifstream.open d') header' ⟨[]⟩).cout
      = (read_in_otf host locals (ifstream.open d) header ⟨[]⟩).cout := by
  have hcount : ∀ i, i < be (slice d 4 2) → slice d (12 + 16 * i) 4 = TAG_CMAP →
      slice d' (be (slice d (12 + 16 * i + 8) 4) + 2) 2
        = slice d (be (slice d (12 + 16 * i + 8) 4) + 2) 2 := by
    intro i hi hcm
    apply slice_eq_of_same d d' _ 2 hlen
    intro q h1 h2
    exact hreg i hi hcm q (by omega) (by omega)
  rw [read_in_otf_cout_enough host locals d header h hfit,
    read_in_otf_cout_enough host locals' d' header' (by rw [hn, hlen]; exact h) (by
      rw [hn, hlen]
      intro i hi hcm
      rw [htag i hi] at hcm
      rw [hoff i hi hcm, hcount i hi hcm]
      exact hfit i hi hcm), hn]
  apply walk_records_congr
  intro i hi
  have hi := List.mem_range.mp hi
  have hm : 16 * i + 16 ≤ 16 * be (slice d 4 2) := by omega
  obtain ⟨e1, _, e3, _⟩ := entry_at_fields host d (12 + 16 * i) (by omega)
  obtain ⟨e1', _, e3', _⟩ := entry_at_fields host d' (12 + 16 * i) (by omega)
  constructor
  · rw [get_tag_str_eq_cmap, get_tag_str_eq_cmap, e1, e1', htag i hi]
  · intro hcm
    have hcm' : slice d (12 + 16 * i) 4 = TAG_CMAP := by
      rw [← e1]; exact (get_tag_str_eq_cmap _).mp hcm
    have hfi := hfit i hi hcm'
    rw [e3, e3', hoff i hi hcm']
    apply cmap_records_at_congr
    intro q h1 h2
    rw [(cmap_header_at_fields host d _ (by omega)).2] at h2
    exact hreg i hi hcm' q h1 h2

/-! ## Properties of the decoder -/

/-- C1. On a stream of at least 12 bytes and on either host, the header part of
`read_in_otf` makes five complete reads, of 4, 2, 2, 2 and 2 bytes at positions 0, 4, 6,
8 and 10, and leaves the cursor at 12; after `endswap_otf_header` the numeric value of
each field is the big-endian number written by its bytes. -/
theorem header_decoded_big_endian (host : ByteOrder) (locals : Locals)
    (b0 b1 b2 b3 b4 b5 b6 b7 b8 b9 b10 b11 : Byte) (rest : List Byte)
    (header : Header) (offset_table : OffsetTable) :
    (read_in_otf_header host (ifstream.open
        (b0 :: b1 :: b2 :: b3 :: b4 :: b5 :: b6 :: b7 :: b8 :: b9 :: b10 :: b11 :: rest))
        header).1.calls
      = [StreamCall.read 0 4 4, StreamCall.read 4 2 2, StreamCall.read 6 2 2,
          StreamCall.read 8 2 2, StreamCall.read 10 2 2] ∧
    (read_in_otf_header host (ifstream.open
        (b0 :: b1 :: b2 :: b3 :: b4 :: b5 :: b6 :: b7 :: b8 :: b9 :: b10 :: b11 :: rest))
        header).1.pos = 12 ∧
    (read_in_otf_header host (ifstream.open
        (b0 :: b1 :: b2 :: b3 :: b4 :: b5 :: b6 :: b7 :: b8 :: b9 :: b10 :: b11 :: rest))
        header).1.fail = false ∧
    (read_in_otf host locals (ifstream.open
        (b0 :: b1 :: b2 :: b3 :: b4 :: b5 :: b6 :: b7 :: b8 :: b9 :: b10 :: b11 :: rest))
        header offset_table).header
      = (read_in_otf_header host (ifstream.open
        (b0 :: b1 :: b2 :: b3 :: b4 :: b5 :: b6 :: b7 :: b8 :: b9 :: b10 :: b11 :: rest))
        header).2 ∧
    (read_in_otf host locals (ifstream.open
        (b0 :: b1 :: b2 :: b3 :: b4 :: b5 :: b6 :: b7 :: b8 :: b9 :: b10 :: b11 :: rest))
        header offset_table).header.version.num host
      = b0.val * 2 ^ 24 + b1.val * 2 ^ 16 + b2.val * 2 ^ 8 + b3.val ∧
    (read_in_otf host locals (ifstream.open
        (b0 :: b1 :: b2 :: b3 :: b4 :: b5 :: b6 :: b7 :: b8 :: b9 :: b10 :: b11 :: rest))
        header offset_table).header.num_tables.val host = b4.val * 256 + b5.val ∧
    (read_in_otf host locals (ifstream.open
        (b0 :: b1 :: b2 :: b3 :: b4 :: b5 :: b6 :: b7 :: b8 :: b9 :: b10 :: b11 :: rest))
        header offset_table).header.search_range.val host = b6.val * 256 + b7.val ∧
    (read_in_otf host locals (ifstream.open
        (b0 :: b1 :: b2 :: b3 :: b4 :: b5 :: b6 :: b7 :: b8 :: b9 :: b10 :: b11 :: rest))
        header offset_table).header.entry_selector.val host = b8.val * 256 + b9.val ∧
    (read_in_otf host locals (ifstream.open
        (b0 :: b1 :: b2 :: b3 :: b4 :: b5 :: b6 :: b7 :: b8 :: b9 :: b10 :: b11 :: rest))
        header offset_table).header.range_shift.val host = b10.val * 256 + b11.val := by
  refine ⟨?_, ?_, ?_, rfl, ?_, ?_, ?_, ?_, ?_⟩
  · simp [read_in_otf_header, ifstream.read, ifstream.open, RawObject.sizeof]
  · simp [read_in_otf_header, ifstream.read, ifstream.open, RawObject.sizeof]
  · simp [read_in_otf_header, ifstream.read, ifstream.open, RawObject.sizeof]
  · simp [read_in_otf, read_in_otf_header, endswap_otf_header, num_endswap_version,
      ifstream.read, ifstream.open, RawObject.sizeof, RawObject.store]
  · simp [read_in_otf, read_in_otf_header, endswap_otf_header, val_endswap_u16,
      ifstream.read, ifstream.open, RawObject.sizeof, RawObject.store]
  · simp [read_in_otf, read_in_otf_header, endswap_otf_header, val_endswap_u16,
      ifstream.read, ifstream.open, RawObject.sizeof, RawObject.store]
  · simp [read_in_otf, read_in_otf_header, endswap_otf_header, val_endswap_u16,
      ifstream.read, ifstream.open, RawObject.sizeof, RawObject.store]
  · simp [read_in_otf, read_in_otf_header, endswap_otf_header, val_endswap_u16,
      ifstream.read, ifstream.open, RawObject.sizeof, RawObject.store]

/-- C2. When the decoded header declares `n` tables and the file holds at least
`12 + 16 * n` bytes, on either host `read_in_otf` leaves exactly `n` entries in the
table, in file order: entry `i` has the four tag bytes of the file at `12 + 16 * i`
unchanged, and its checksum, offset and length are the big-endian numbers written at
`12 + 16 * i + 4`, `+ 8` and `+ 12`. -/
theorem directory_entries_decoded (host : ByteOrder) (locals : Locals) (data : List Byte)
    (header : Header) (h : 12 + 16 * be (slice data 4 2) ≤ data.length) :
    (read_in_otf host locals (ifstream.open data) header ⟨[]⟩).header.num_tables.val host
      = be (slice data 4 2) ∧
    (read_in_otf host locals (ifstream.open data) header ⟨[]⟩).offset_table.entries.length
      = be (slice data 4 2) ∧
    ∀ i, i < be (slice data 4 2) →
      ∃ e, (read_in_otf host locals (ifstream.open data) header ⟨[]⟩).offset_table.entries[i]?
          = some e ∧
        e.tag.str = slice data (12 + 16 * i) 4 ∧
        e.checksum.val host = be (slice data (12 + 16 * i + 4) 4) ∧
        e.offset.val host = be (slice data (12 + 16 * i + 8) 4) ∧
        e.length.val host = be (slice data (12 + 16 * i + 12) 4) := by
  obtain ⟨hh, hd, _, _⟩ := read_in_otf_enough host locals data header h
  refine ⟨?_, ?_, ?_⟩
  · rw [hh]
    exact header_at_num_tables host data (by omega)
  · rw [hd]; simp
  · intro i hi
    refine ⟨entry_at host data (12 + 16 * i), ?_, ?_⟩
    · rw [hd]; simp [hi]
    · have hm : 16 * i + 16 ≤ 16 * be (slice data 4 2) := by omega
      exact entry_at_fields host data (12 + 16 * i) (by omega)

/-- C2 at the sample file: it declares one table and holds 48 bytes, and one entry
is decoded. -/
theorem directory_entries_decoded_witness :
    12 + 16 * be (slice sample_font 4 2) ≤ sample_font.length ∧
    (read_in_otf ByteOrder.little Locals.zeroed (ifstream.open sample_font) Header.zeroed
        ⟨[]⟩).offset_table.entries.length = be (slice sample_font 4 2) :=
  ⟨by decide,
    (directory_entries_decoded ByteOrder.little Locals.zeroed sample_font Header.zeroed
      (by decide)).2.1⟩

/-- C3. `is_big_endian` holds exactly when the first byte in memory of the constant
0x01020304 is 1, which is exactly on a big-endian host; and `endswap` turns the 2 bytes
of a 16-bit object and the 4 bytes of a 32-bit object into their reverse when
`is_big_endian` is false and leaves them as they are when it is true. -/
theorem endswap_reverses_iff_not_big_endian (host : ByteOrder) :
    (is_big_endian host = true ↔ (uint32_t.of_val host 0x01020304).m0 = 1) ∧
    (is_big_endian host = true ↔ host = ByteOrder.big) ∧
    (∀ x : uint16_t, RawObject.bytes (endswap host x) =
      if is_big_endian host = false then (RawObject.bytes x).reverse else RawObject.bytes x) ∧
    (∀ x : uint32_t, RawObject.bytes (endswap host x) =
      if is_big_endian host = false then (RawObject.bytes x).reverse else RawObject.bytes x) ∧
    (∀ x : header_version_u, RawObject.bytes (endswap host x) =
      if is_big_endian host = false then (RawObject.bytes x).reverse else RawObject.bytes x) := by
  refine ⟨?_, ?_, ?_, ?_, ?_⟩
  · cases host <;> decide
  · cases host <;> decide
  · intro x
    cases host <;>
      simp [endswap, is_big_endian_big, is_big_endian_little, RawObject.store, RawObject.bytes]
  · intro x
    cases host <;>
      simp [endswap, is_big_endian_big, is_big_endian_little, RawObject.store, RawObject.bytes]
  · intro x
    cases host <;>
      simp [endswap, is_big_endian_big, is_big_endian_little, RawObject.store, RawObject.bytes]

/-- C4, as the source has it. For a directory entry tagged "cmap" with decoded offset
`o` that the loop reaches with the stream in a good state (no read has failed before),
when the file holds `o + 4 + 8 * k` bytes, `k` being the
big-endian number at `[o + 2, o + 4)`: the loop body seeks to `o`, every read that
follows lies inside `[o, o + 4 + 8 * k)` and is complete, the cmap header decodes to
the big-endian numbers at `[o, o + 2)` and `[o + 2, o + 4)`, and exactly `k` records
are printed in file order, record `j` holding the big-endian numbers at
`o + 4 + 8 * j`, `+ 2` and `+ 4`; the cursor ends at `o + 4 + 8 * k`. -/
theorem cmap_entry_decoded (host : ByteOrder) (locals : Locals) (e : Nat) (offset : Offset)
    (s : ifstream) (cout : List CmapEncodingRecord) (o k : Nat)
    (htag : offset.tag.str = [0x63, 0x6D, 0x61, 0x70])
    (ho : offset.offset.val host = o)
    (hk : be (slice s.data (o + 2) 2) = k)
    (hf : s.fail = false)
    (hlen : o + 4 + 8 * k ≤ s.data.length) :
    (∃ reads, (read_in_otf_entry host locals e offset s cout).1.calls
        = s.calls ++ StreamCall.seekg o :: reads ∧
      ∀ c ∈ reads, ∃ p n, c = StreamCall.read p n n ∧ o ≤ p ∧ p + n ≤ o + 4 + 8 * k) ∧
    (read_in_otf_entry host locals e offset s cout).1.pos = o + 4 + 8 * k ∧
    (read_in_otf_entry host locals e offset s cout).1.fail = false ∧
    (read_in_otf_cmap_header host (locals.cmap_header e) (s.seekg o)).2.version.val host
      = be (slice s.data o 2) ∧
    (read_in_otf_cmap_header host (locals.cmap_header e) (s.seekg o)).2.num_tables.val host
      = k ∧
    ∃ recs, (read_in_otf_entry host locals e offset s cout).2 = cout ++ recs ∧
      recs.length = k ∧
      ∀ j, j < k → ∃ r, recs[j]? = some r ∧
        r.platform_id.val host = be (slice s.data (o + 4 + 8 * j) 2) ∧
        r.encoding_id.val host = be (slice s.data (o + 4 + 8 * j + 2) 2) ∧
        r.offset.val host = be (slice s.data (o + 4 + 8 * j + 4) 4) := by
  have hh := cmap_header_at_fields host s.data o (by omega)
  have hn : (cmap_header_at host s.data o).num_tables.val host = k := by rw [hh.2, hk]
  have hs : s.seekg o =
      { data := s.data, pos := o, fail := false,
        calls := s.calls ++ [StreamCall.seekg o] } := by
    simp [ifstream.seekg, hf]
  have hr := read_in_otf_entry_cmap_enough host locals e offset s cout
    ((get_tag_str_eq_cmap offset).mpr htag) hf (by rw [ho, hn]; exact hlen)
  rw [ho, hn] at hr
  rw [hr, hs, read_in_otf_cmap_header_enough host _ _ rfl (by simp only []; omega)]
  refine ⟨?_, ?_, rfl, hh.1, hn, ?_⟩
  · refine ⟨[StreamCall.read o 2 2, StreamCall.read (o + 2) 2 2]
        ++ (List.range k).flatMap (fun j => record_calls (o + 4 + 8 * j)), ?_, ?_⟩
    · simp [after_records]
    · intro c hc
      simp only [List.mem_append, List.mem_cons, List.mem_singleton, List.not_mem_nil,
        or_false, List.mem_flatMap, List.mem_range, record_calls] at hc
      rcases hc with (rfl | rfl) | ⟨j, hj, rfl | rfl | rfl⟩
      · exact ⟨o, 2, rfl, by omega, by omega⟩
      · exact ⟨o + 2, 2, rfl, by omega, by omega⟩
      · exact ⟨o + 4 + 8 * j, 2, rfl, by omega, by omega⟩
      · exact ⟨o + 4 + 8 * j + 2, 2, rfl, by omega, by omega⟩
      · exact ⟨o + 4 + 8 * j + 4, 4, rfl, by omega, by omega⟩
  · simp [after_records]
  · refine ⟨(List.range k).map (fun j => record_at host s.data (o + 4 + 8 * j)), rfl,
      by simp, ?_⟩
    intro j hj
    refine ⟨record_at host s.data (o + 4 + 8 * j), by simp [hj], ?_⟩
    exact record_at_fields host s.data (o + 4 + 8 * j) (by omega)

/-- C4 at the sample file: the entry at 12 is tagged "cmap" with offset 28, two
records are declared at 30, and the walk from the stream just opened ends at 48. -/
theorem cmap_entry_decoded_witness :
    (entry_at ByteOrder.little sample_font 12).tag.str = [0x63, 0x6D, 0x61, 0x70] ∧
    (entry_at ByteOrder.little sample_font 12).offset.val ByteOrder.little = 28 ∧
    be (slice (ifstream.open sample_font).data (28 + 2) 2) = 2 ∧
    (ifstream.open sample_font).fail = false ∧
    28 + 4 + 8 * 2 ≤ (ifstream.open sample_font).data.length ∧
    (read_in_otf_entry ByteOrder.little Locals.zeroed 0 (entry_at ByteOrder.little sample_font 12)
        (ifstream.open sample_font) []).1.pos = 28 + 4 + 8 * 2 :=
  ⟨by decide, by decide, by decide, rfl, by decide,
    (cmap_entry_decoded ByteOrder.little Locals.zeroed 0 (entry_at ByteOrder.little sample_font 12)
      (ifstream.open sample_font) [] 28 2 (by decide) (by decide) (by decide) rfl
      (by decide)).2.1⟩

set_option maxRecDepth 100000 in
/-- C4 as stated fails. In the file `two_cmap_font` the second directory entry is
tagged "cmap", its offset is 44, the number at `[46, 48)` is 1 and the file holds
`44 + 4 + 8 * 1` bytes; the first entry, also tagged "cmap", points past the end of the
file, so the stream has failed when the second entry is reached, and `read_in_otf`
prints no record at all. -/
theorem cmap_entry_after_failed_read_not_decoded :
    (∃ d, (read_in_otf ByteOrder.little Locals.zeroed (ifstream.open two_cmap_font)
          Header.zeroed ⟨[]⟩).offset_table.entries[1]? = some d ∧
        d.tag.str = [0x63, 0x6D, 0x61, 0x70] ∧ d.offset.val ByteOrder.little = 44) ∧
    be (slice two_cmap_font (44 + 2) 2) = 1 ∧
    44 + 4 + 8 * 1 ≤ two_cmap_font.length ∧
    (read_in_otf ByteOrder.little Locals.zeroed (ifstream.open two_cmap_font)
        Header.zeroed ⟨[]⟩).cout = [] := by
  have hn : be (slice two_cmap_font 4 2) = 2 := by decide
  obtain ⟨_, ht, hc, _⟩ := read_in_otf_enough ByteOrder.little Locals.zeroed two_cmap_font
    Header.zeroed (by decide)
  rw [hn] at ht hc
  refine ⟨⟨entry_at ByteOrder.little two_cmap_font 28, by rw [ht]; rfl, by decide, by decide⟩,
    by decide, by decide, ?_⟩
  rw [hc]
  simp only [List.range_succ, List.range_zero, List.nil_append, List.map_cons, List.map_nil,
    List.cons_append, read_in_otf_entries]
  have h0 : read_in_otf_entry ByteOrder.little Locals.zeroed 0
      (entry_at ByteOrder.little two_cmap_font (12 + 16 * 0))
      (after_entries (after_header two_cmap_font) 2) [] =
      ((read_in_otf_cmap_header ByteOrder.little (Locals.zeroed.cmap_header 0)
        ((after_entries (after_header two_cmap_font) 2).seekg
          ((entry_at ByteOrder.little two_cmap_font (12 + 16 * 0)).offset.val
            ByteOrder.little))).1, []) := by
    unfold read_in_otf_entry
    rw [if_pos (by decide)]
    exact read_in_otf_records_done _ _ _ _ _ _ _ (by decide)
  rw [h0]
  unfold read_in_otf_entry
  rw [if_pos (by decide)]
  rw [read_in_otf_records_done _ _ _ _ _ _ _ (by decide)]

/-- C5. The loop body issues a read (the cmap walk) for a directory entry exactly when
the four tag bytes of the entry are 0x63 0x6D 0x61 0x70; for any other tag it only
seeks and prints nothing. For a directory without such an entry `read_in_otf` prints
no record and, after the directory loop, makes no read: only one `seekg` per entry and
the final `close`. -/
theorem cmap_walk_iff_tag_is_cmap (host : ByteOrder) (locals : Locals) (e : Nat)
    (offset : Offset) (s : ifstream) (cout : List CmapEncodingRecord) (header : Header)
    (offset_table : OffsetTable) :
    ((∃ c ∈ (read_in_otf_entry host locals e offset s cout).1.calls.drop s.calls.length,
        c.is_read = true) ↔ offset.tag.str = [0x63, 0x6D, 0x61, 0x70]) ∧
    (offset.tag.str ≠ [0x63, 0x6D, 0x61, 0x70] →
      read_in_otf_entry host locals e offset s cout = (s.seekg (offset.offset.val host), cout)) ∧
    ((∀ o ∈ (read_in_otf host locals s header offset_table).offset_table.entries,
        o.tag.str ≠ [0x63, 0x6D, 0x61, 0x70]) →
      (read_in_otf host locals s header offset_table).cout = [] ∧
      (read_in_otf host locals s header offset_table).otf_file.calls =
        (read_in_otf_directory host locals (read_in_otf_header host s header).2.num_tables 0
            (read_in_otf_header host s header).1 offset_table).1.calls
          ++ (read_in_otf host locals s header offset_table).offset_table.entries.map
              (fun o => StreamCall.seekg (o.offset.val host))
          ++ [StreamCall.close]) := by
  refine ⟨⟨?_, ?_⟩, read_in_otf_entry_other host locals e offset s cout, ?_⟩
  · rintro ⟨c, hc, hread⟩
    by_contra htag
    rw [read_in_otf_entry_other host locals e offset s cout htag, seekg_calls] at hc
    simp at hc
    subst hc
    simp [StreamCall.is_read] at hread
  · intro htag
    have hcm := (get_tag_str_eq_cmap offset).mpr htag
    obtain ⟨g1, g2, p, h1⟩ := read_in_otf_cmap_header_calls host (locals.cmap_header e)
      (s.seekg (offset.offset.val host))
    obtain ⟨x, h2⟩ := read_in_otf_records_calls host locals e
      (read_in_otf_cmap_header host (locals.cmap_header e)
        (s.seekg (offset.offset.val host))).2.num_tables _ 0
      (read_in_otf_cmap_header host (locals.cmap_header e)
        (s.seekg (offset.offset.val host))).1 cout rfl
    refine ⟨StreamCall.read (s.seekg (offset.offset.val host)).pos 2 g1, ?_, rfl⟩
    unfold read_in_otf_entry
    simp only [hcm, if_true]
    rw [h2, h1, seekg_calls]
    simp
  · intro h
    obtain ⟨h1, h2⟩ := read_in_otf_entries_no_cmap host locals _ 0
      (read_in_otf_directory host locals (read_in_otf_header host s header).2.num_tables 0
        (read_in_otf_header host s header).1 offset_table).1 [] h
    refine ⟨h1, ?_⟩
    simp only [read_in_otf, ifstream.close]
    simp only [read_in_otf] at h2
    rw [h2]

/-- C6. The synthetic minimal file of 48 bytes decodes, on either host, to version
65536 and one table in the header, exactly one directory entry with tag "cmap",
checksum 0, offset 28 and length 12, and exactly two printed encoding records holding
the values written in the file, in that order. -/
theorem minimal_font_decoded (host : ByteOrder) (locals : Locals) (header : Header)
    (sr es rs : Nat) (p1 e1 p2 e2 : Fin 65536) (o1 o2 : Fin 4294967296) :
    (minimal_font sr es rs p1.val e1.val o1.val p2.val e2.val o2.val).length = 48 ∧
    (read_in_otf host locals
      (ifstream.open (minimal_font sr es rs p1.val e1.val o1.val p2.val e2.val o2.val))
      header ⟨[]⟩).header.version.num host = 65536 ∧
    (read_in_otf host locals
      (ifstream.open (minimal_font sr es rs p1.val e1.val o1.val p2.val e2.val o2.val))
      header ⟨[]⟩).header.num_tables.val host = 1 ∧
    (∃ d, (read_in_otf host locals
        (ifstream.open (minimal_font sr es rs p1.val e1.val o1.val p2.val e2.val o2.val))
        header ⟨[]⟩).offset_table.entries = [d] ∧
      d.tag.str = [0x63, 0x6D, 0x61, 0x70] ∧ d.get_tag_str = TAG_CMAP ∧
      d.checksum.val host = 0 ∧ d.offset.val host = 28 ∧ d.length.val host = 12) ∧
    (∃ r1 r2, (read_in_otf host locals
        (ifstream.open (minimal_font sr es rs p1.val e1.val o1.val p2.val e2.val o2.val))
        header ⟨[]⟩).cout = [r1, r2] ∧
      r1.platform_id.val host = p1.val ∧ r1.encoding_id.val host = e1.val ∧
      r1.offset.val host = o1.val ∧
      r2.platform_id.val host = p2.val ∧ r2.encoding_id.val host = e2.val ∧
      r2.offset.val host = o2.val) := by
  obtain ⟨hlen, s0, s4, s12, s16, s20, s24, s30, s32, s34, s36, s40, s42, s44⟩ :=
    minimal_font_slices sr es rs p1.val e1.val o1.val p2.val e2.val o2.val
  generalize minimal_font sr es rs p1.val e1.val o1.val p2.val e2.val o2.val = data at *
  have hp1 := p1.isLt
  have he1 := e1.isLt
  have hp2 := p2.isLt
  have he2 := e2.isLt
  have ho1 := o1.isLt
  have ho2 := o2.isLt
  have hn : be (slice data 4 2) = 1 := by rw [s4]; exact be_be16_bytes 1 (by norm_num)
  obtain ⟨hh, ht, hc, _⟩ := read_in_otf_enough host locals data header (by rw [hn]; omega)
  rw [hn] at ht hc
  have hent := entry_at_fields host data 12 (by omega)
  have htag : (entry_at host data 12).tag.str = [0x63, 0x6D, 0x61, 0x70] := by
    rw [hent.1, s12]; rfl
  have hoff : (entry_at host data 12).offset.val host = 28 := by
    rw [hent.2.2.1, s20]; exact be_be32_bytes 28 (by norm_num)
  have hk : (cmap_header_at host data 28).num_tables.val host = 2 := by
    rw [(cmap_header_at_fields host data 28 (by omega)).2, s30]
    exact be_be16_bytes 2 (by norm_num)
  refine ⟨hlen, ?_, ?_, ?_, ?_⟩
  · rw [hh, header_at_version host data (by omega), s0]
    exact be_be32_bytes _ (by norm_num)
  · rw [hh, header_at_num_tables host data (by omega), hn]
  · refine ⟨entry_at host data 12, by rw [ht]; rfl, htag, (get_tag_str_eq_cmap _).mpr htag,
      ?_, hoff, ?_⟩
    · rw [hent.2.1, s16]; exact be_be32_bytes 0 (by norm_num)
    · rw [hent.2.2.2, s24]; exact be_be32_bytes 12 (by norm_num)
  · refine ⟨record_at host data 32, record_at host data 40, ?_, ?_⟩
    · rw [hc]
      simp only [List.range_succ, List.range_zero, List.nil_append, List.map_cons,
        List.map_nil, read_in_otf_entries, Nat.mul_zero, Nat.add_zero]
      rw [read_in_otf_entry_cmap_enough host locals 0 _ _ []
        ((get_tag_str_eq_cmap _).mpr htag) rfl
        (by simp only [after_entries, after_header_data, hoff, hk]; omega)]
      simp [hoff, hk, after_entries, List.range_succ]
    · have r1 := record_at_fields host data 32 (by omega)
      have r2 := record_at_fields host data 40 (by omega)
      rw [r1.1, r1.2.1, r1.2.2, r2.1, r2.2.1, r2.2.2, s32, s34, s36, s40, s42, s44]
      exact ⟨be_be16_bytes _ hp1, be_be16_bytes _ he1, be_be32_bytes _ ho1,
        be_be16_bytes _ hp2, be_be16_bytes _ he2, be_be32_bytes _ ho2⟩

/-- C7, as the source has it. For every four version bytes and either host, the
numeric view of the decoded version is the big-endian value of the bytes; the raw view
`str` of the same union holds the bytes in file order on a big-endian host and in
reverse order on a little-endian host. -/
theorem version_views_after_decode (host : ByteOrder) (locals : Locals)
    (b0 b1 b2 b3 : Byte) (rest : List Byte) (header : Header) (offset_table : OffsetTable) :
    (read_in_otf host locals (ifstream.open (b0 :: b1 :: b2 :: b3 :: rest)) header
        offset_table).header.version.num host
      = b0.val * 2 ^ 24 + b1.val * 2 ^ 16 + b2.val * 2 ^ 8 + b3.val ∧
    (read_in_otf host locals (ifstream.open (b0 :: b1 :: b2 :: b3 :: rest)) header
        offset_table).header.version.str
      = if host = ByteOrder.big then [b0, b1, b2, b3] else [b3, b2, b1, b0] := by
  constructor
  · simp [read_in_otf, read_in_otf_header, endswap_otf_header, num_endswap_version,
      ifstream.read, ifstream.open, RawObject.sizeof, RawObject.store]
  · cases host <;>
      simp [read_in_otf, read_in_otf_header, endswap_otf_header, endswap, is_big_endian_big,
        is_big_endian_little, header_version_u.str, ifstream.read, ifstream.open,
        RawObject.sizeof, RawObject.store, RawObject.bytes]

/-- C7 as stated fails: on a little-endian host the version bytes 00 01 00 00 decode to
the number 65536, and the raw view of the decoded version is 00 00 01 00, not the bytes
of the file. -/
theorem version_str_not_file_bytes_on_little_endian :
    (read_in_otf ByteOrder.little Locals.zeroed
        (ifstream.open [0x00, 0x01, 0x00, 0x00, 0, 0, 0, 0, 0, 0, 0, 0]) Header.zeroed
        ⟨[]⟩).header.version.num ByteOrder.little = 65536 ∧
    (read_in_otf ByteOrder.little Locals.zeroed
        (ifstream.open [0x00, 0x01, 0x00, 0x00, 0, 0, 0, 0, 0, 0, 0, 0]) Header.zeroed
        ⟨[]⟩).header.version.str = [0x00, 0x00, 0x01, 0x00] ∧
    (read_in_otf ByteOrder.little Locals.zeroed
        (ifstream.open [0x00, 0x01, 0x00, 0x00, 0, 0, 0, 0, 0, 0, 0, 0]) Header.zeroed
        ⟨[]⟩).header.version.str ≠ [0x00, 0x01, 0x00, 0x00] := by
  have h : (read_in_otf ByteOrder.little Locals.zeroed
      (ifstream.open [0x00, 0x01, 0x00, 0x00, 0, 0, 0, 0, 0, 0, 0, 0]) Header.zeroed
      ⟨[]⟩).header =
      (read_in_otf_header ByteOrder.little
        (ifstream.open [0x00, 0x01, 0x00, 0x00, 0, 0, 0, 0, 0, 0, 0, 0]) Header.zeroed).2 := rfl
  rw [h]
  decide

/-- C8. `endswap` is an involution on 2-byte and 4-byte objects, so normalising a
header twice gives the header back; and for every file of at least 12 bytes, on either
host, normalising the decoded header once more yields a memory image equal to the
first 12 bytes of the file. -/
theorem header_round_trip (host : ByteOrder) (locals : Locals)
    (b0 b1 b2 b3 b4 b5 b6 b7 b8 b9 b10 b11 : Byte) (rest : List Byte)
    (header : Header) (offset_table : OffsetTable) :
    (∀ x : uint16_t, endswap host (endswap host x) = x) ∧
    (∀ x : uint32_t, endswap host (endswap host x) = x) ∧
    (∀ x : header_version_u, endswap host (endswap host x) = x) ∧
    (∀ h : Header, endswap_otf_header host (endswap_otf_header host h) = h) ∧
    Header.bytes (endswap_otf_header host
        (read_in_otf host locals
          (ifstream.open
            (b0 :: b1 :: b2 :: b3 :: b4 :: b5 :: b6 :: b7 :: b8 :: b9 :: b10 :: b11 :: rest))
          header offset_table).header)
      = [b0, b1, b2, b3, b4, b5, b6, b7, b8, b9, b10, b11] := by
  refine ⟨endswap_endswap_u16 host, endswap_endswap_u32 host, endswap_endswap_version host,
    ?_, ?_⟩
  · intro h
    simp [endswap_otf_header, endswap_endswap_u16, endswap_endswap_version]
  · simp only [read_in_otf, read_in_otf_header]
    simp only [endswap_otf_header, endswap_endswap_u16, endswap_endswap_version]
    simp [Header.bytes, ifstream.read, ifstream.open, RawObject.sizeof, RawObject.store,
      RawObject.bytes]

/-- C9. When the file holds at least 12 bytes and the decoded header has
`num_tables = 0`, `read_in_otf` leaves the table empty and the stream in a good state
with the cursor at 12; the only calls on the stream are the five reads of the header
and the final `close`, so nothing past the header is read, no `seekg` is made and no
record is printed. -/
theorem empty_directory (host : ByteOrder) (locals : Locals) (data : List Byte)
    (header : Header) (hlen : 12 ≤ data.length)
    (h0 : (read_in_otf_header host (ifstream.open data) header).2.num_tables.val host = 0) :
    (read_in_otf host locals (ifstream.open data) header ⟨[]⟩).offset_table.entries = [] ∧
    (read_in_otf host locals (ifstream.open data) header ⟨[]⟩).otf_file.fail = false ∧
    (read_in_otf host locals (ifstream.open data) header ⟨[]⟩).otf_file.pos = 12 ∧
    (read_in_otf_directory host locals
        (read_in_otf_header host (ifstream.open data) header).2.num_tables 0
        (read_in_otf_header host (ifstream.open data) header).1 ⟨[]⟩).1.pos = 12 ∧
    (read_in_otf host locals (ifstream.open data) header ⟨[]⟩).otf_file.calls
      = [StreamCall.read 0 4 4, StreamCall.read 4 2 2, StreamCall.read 6 2 2,
          StreamCall.read 8 2 2, StreamCall.read 10 2 2, StreamCall.close] ∧
    (read_in_otf host locals (ifstream.open data) header ⟨[]⟩).cout = [] := by
  have hd : read_in_otf_directory host locals
      (read_in_otf_header host (ifstream.open data) header).2.num_tables 0
      (read_in_otf_header host (ifstream.open data) header).1 ⟨[]⟩
      = ((read_in_otf_header host (ifstream.open data) header).1, ⟨[]⟩) :=
    read_in_otf_directory_done host locals _ 0 _ _ (by omega)
  simp only [read_in_otf, hd, read_in_otf_entries]
  rw [read_in_otf_header_enough host data header hlen]
  simp [ifstream.close, header_calls, after_header]

/-- C9 at a file of 12 bytes whose header declares no table. -/
theorem empty_directory_witness :
    12 ≤ empty_font.length ∧
    (read_in_otf_header ByteOrder.little (ifstream.open empty_font)
        Header.zeroed).2.num_tables.val ByteOrder.little = 0 ∧
    (read_in_otf ByteOrder.little Locals.zeroed (ifstream.open empty_font) Header.zeroed
        ⟨[]⟩).offset_table.entries = [] :=
  ⟨by decide, by decide,
    (empty_directory ByteOrder.little Locals.zeroed empty_font Header.zeroed (by decide)
      (by decide)).1⟩

/-- C10, as the source has it. When the file holds the 12-byte header, whose decoded
`num_tables` is `n`, and fewer than `16 * n` bytes after it, `read_in_otf` reports
nothing: the failure flag of the stream is set, after the directory loop and on
return, and the table still receives exactly `n` entries. Entry `i` holds the decoded
record when all 16 bytes of record `i` are in the file; it is the uninitialised local,
normalised, when no byte of record `i` is in the file. -/
theorem truncated_directory_still_filled (host : ByteOrder) (locals : Locals)
    (data : List Byte) (header : Header) (n : Nat) (hlen : 12 ≤ data.length)
    (hn : (read_in_otf_header host (ifstream.open data) header).2.num_tables.val host = n)
    (hshort : data.length < 12 + 16 * n) :
    (read_in_otf_directory host locals
        (read_in_otf_header host (ifstream.open data) header).2.num_tables 0
        (read_in_otf_header host (ifstream.open data) header).1 ⟨[]⟩).1.fail = true ∧
    (read_in_otf host locals (ifstream.open data) header ⟨[]⟩).otf_file.fail = true ∧
    (read_in_otf host locals (ifstream.open data) header ⟨[]⟩).offset_table.entries.length
      = n ∧
    (∀ i, 12 + 16 * (i + 1) ≤ data.length →
      ∃ e, (read_in_otf host locals (ifstream.open data) header ⟨[]⟩).offset_table.entries[i]?
          = some e ∧
        e.tag.str = slice data (12 + 16 * i) 4 ∧
        e.checksum.val host = be (slice data (12 + 16 * i + 4) 4) ∧
        e.offset.val host = be (slice data (12 + 16 * i + 8) 4) ∧
        e.length.val host = be (slice data (12 + 16 * i + 12) 4)) ∧
    (∀ i, i < n → data.length ≤ 12 + 16 * i →
      (read_in_otf host locals (ifstream.open data) header ⟨[]⟩).offset_table.entries[i]?
        = some (endswap_otf_offset host (locals.offset i))) := by
  rw [read_in_otf_header_enough host data header hlen] at hn
  simp only [] at hn
  obtain ⟨hf, x, hx, hend⟩ := read_in_otf_directory_short host locals
    (header_at host data).num_tables
    (after_header data)
    ((data.length - 12) / 16) rfl (by rw [hn]; omega)
    (by simp only [after_header_pos, after_header_data]; omega)
    (by simp only [after_header_pos, after_header_data]; omega)
  simp only [after_header_pos, after_header_data] at hx hend
  have he : (read_in_otf host locals (ifstream.open data) header ⟨[]⟩).offset_table.entries
      = (List.range ((data.length - 12) / 16)).map (fun k => entry_at host data (12 + 16 * k))
        ++ [x]
        ++ (List.range' ((data.length - 12) / 16 + 1) (n - ((data.length - 12) / 16 + 1))).map
            (fun j => endswap_otf_offset host (locals.offset j)) := by
    simp only [read_in_otf]
    rw [read_in_otf_header_enough host data header hlen]
    simp only []
    rw [hx, hn]
  have hfin : (read_in_otf host locals (ifstream.open data) header ⟨[]⟩).otf_file.fail
      = true := by
    simp only [read_in_otf, ifstream.close]
    rw [read_in_otf_header_enough host data header hlen]
    exact read_in_otf_entries_fail host locals _ 0 _ [] hf
  rw [read_in_otf_header_enough host data header hlen]
  refine ⟨hf, hfin, ?_, ?_, ?_⟩
  · rw [he]
    simp only [List.length_append, List.length_map, List.length_range, List.length_range',
      List.length_singleton]
    omega
  · intro i hi
    refine ⟨entry_at host data (12 + 16 * i), ?_, entry_at_fields host data (12 + 16 * i)
      (by omega)⟩
    have him : i < (data.length - 12) / 16 := by omega
    rw [he, List.append_assoc, List.getElem?_append_left (by simpa using him),
      List.getElem?_map, List.getElem?_range him]
    rfl
  · intro i hin hi
    rw [he]
    rcases Nat.lt_or_ge ((data.length - 12) / 16) i with hgt | hle
    · rw [List.getElem?_append_right (by simp; omega), List.getElem?_map,
        List.getElem?_range' _ _ (by simp; omega)]
      simp only [List.length_append, List.length_map, List.length_range,
        List.length_singleton, Option.map_some', Nat.one_mul]
      congr 3
      omega
    · have him : i = (data.length - 12) / 16 := by omega
      rw [List.append_assoc, List.getElem?_append_right (by simp; omega)]
      simp only [List.length_map, List.length_range]
      rw [← him, Nat.sub_self]
      simp only [List.singleton_append, List.getElem?_cons_zero]
      rw [hend (by omega), ← him]

/-- C10 at a file of 12 bytes whose header declares three tables: the table gets
three entries. -/
theorem truncated_directory_still_filled_witness :
    12 ≤ header_only_font.length ∧
    (read_in_otf_header ByteOrder.little (ifstream.open header_only_font)
        Header.zeroed).2.num_tables.val ByteOrder.little = 3 ∧
    header_only_font.length < 12 + 16 * 3 ∧
    (read_in_otf ByteOrder.little Locals.zeroed (ifstream.open header_only_font) Header.zeroed
        ⟨[]⟩).offset_table.entries.length = 3 :=
  ⟨by decide, by decide, by decide,
    (truncated_directory_still_filled ByteOrder.little Locals.zeroed header_only_font
      Header.zeroed 3 (by decide) (by decide) (by decide)).2.2.1⟩

/-- C10 as stated fails. On the file of 12 bytes whose header declares three tables,
with no byte after the header, `read_in_otf` leaves three entries in the table, each
the uninitialised local (here zero bytes), none of them read from the file. -/
theorem truncated_directory_keeps_unread_entries :
    header_only_font.length = 12 ∧
    (read_in_otf ByteOrder.little Locals.zeroed (ifstream.open header_only_font) Header.zeroed
        ⟨[]⟩).header.num_tables.val ByteOrder.little = 3 ∧
    (read_in_otf ByteOrder.little Locals.zeroed (ifstream.open header_only_font) Header.zeroed
        ⟨[]⟩).offset_table.entries
      = [Locals.zeroed.offset 0, Locals.zeroed.offset 1, Locals.zeroed.offset 2] := by
  have hh := read_in_otf_header_enough ByteOrder.little header_only_font Header.zeroed
    (by decide)
  have hn : (header_at ByteOrder.little header_only_font).num_tables.val ByteOrder.little
      = 3 := by decide
  obtain ⟨_, x, hx, hend⟩ := read_in_otf_directory_short ByteOrder.little Locals.zeroed
    (header_at ByteOrder.little header_only_font).num_tables (after_header header_only_font)
    0 rfl (by rw [hn]; decide) (by decide) (by decide)
  refine ⟨by decide, ?_, ?_⟩
  · simp only [read_in_otf]
    rw [hh]
    exact hn
  · simp only [read_in_otf]
    rw [hh]
    simp only []
    rw [hx, hend (by decide), hn]
    decide

/-- C11, as the source has it. When the file holds its whole directory and entry `i`
is tagged "cmap" with an offset greater than the length of the file, `read_in_otf`
reports no error and checks nothing: the header and the directory are left with the
values decoded from the file and the failure flag of the stream is set on return. At
that entry, from any state of the stream on this file, the `seekg` is issued, every
read after it extracts no byte, the stream has failed afterwards, and the records
printed are the uninitialised locals, as many as the uninitialised cmap header
says. -/
theorem cmap_offset_past_end_unchecked (host : ByteOrder) (locals : Locals)
    (data : List Byte) (header : Header) (i : Nat)
    (h : 12 + 16 * be (slice data 4 2) ≤ data.length)
    (hi : i < be (slice data 4 2))
    (htag : slice data (12 + 16 * i) 4 = TAG_CMAP)
    (hoff : data.length < be (slice data (12 + 16 * i + 8) 4)) :
    (read_in_otf host locals (ifstream.open data) header ⟨[]⟩).header = header_at host data ∧
    (read_in_otf host locals (ifstream.open data) header ⟨[]⟩).offset_table.entries
      = (List.range (be (slice data 4 2))).map (fun k => entry_at host data (12 + 16 * k)) ∧
    (entry_at host data (12 + 16 * i)).offset.val host
      = be (slice data (12 + 16 * i + 8) 4) ∧
    (read_in_otf host locals (ifstream.open data) header ⟨[]⟩).otf_file.fail = true ∧
    ∀ (s : ifstream) (cout : List CmapEncodingRecord), s.data = data →
      (read_in_otf_entry host locals i (entry_at host data (12 + 16 * i)) s cout).1.fail
        = true ∧
      (read_in_otf_entry host locals i (entry_at host data (12 + 16 * i)) s cout).2
        = cout ++ stale_records host locals i ∧
      ∃ extra,
        (read_in_otf_entry host locals i (entry_at host data (12 + 16 * i)) s cout).1.calls
          = s.calls ++ StreamCall.seekg (be (slice data (12 + 16 * i + 8) 4)) :: extra ∧
        ∀ c ∈ extra, c.is_read = true ∧ c.got = 0 := by
  obtain ⟨hh, ht, _, hfile⟩ := read_in_otf_enough host locals data header h
  have hm : 16 * i + 16 ≤ 16 * be (slice data 4 2) := by omega
  obtain ⟨e1, _, e3, _⟩ := entry_at_fields host data (12 + 16 * i) (by omega)
  have hcm : (entry_at host data (12 + 16 * i)).get_tag_str = TAG_CMAP := by
    rw [get_tag_str_eq_cmap, e1, htag]
    rfl
  refine ⟨hh, by rw [ht], e3, ?_, ?_⟩
  · rw [hfile]
    simp only [ifstream.close]
    apply read_in_otf_entries_past_end
    refine ⟨entry_at host data (12 + 16 * i), ?_, hcm, ?_⟩
    · exact List.mem_map.mpr ⟨i, List.mem_range.mpr hi, rfl⟩
    · rw [e3]
      simp only [after_entries, after_header_data]
      omega
  · intro s cout hs
    have := read_in_otf_entry_past_end host locals i (entry_at host data (12 + 16 * i)) s cout
      hcm (by rw [hs, e3]; omega)
    rw [e3] at this
    exact this

/-- C11 at the file of 28 bytes whose only entry is tagged "cmap" with offset 200. -/
theorem cmap_offset_past_end_unchecked_witness :
    12 + 16 * be (slice far_cmap_font 4 2) ≤ far_cmap_font.length ∧
    0 < be (slice far_cmap_font 4 2) ∧
    slice far_cmap_font (12 + 16 * 0) 4 = TAG_CMAP ∧
    far_cmap_font.length < be (slice far_cmap_font (12 + 16 * 0 + 8) 4) ∧
    (read_in_otf ByteOrder.little Locals.zeroed (ifstream.open far_cmap_font) Header.zeroed
        ⟨[]⟩).otf_file.fail = true :=
  ⟨by decide, by decide, by decide, by decide,
    (cmap_offset_past_end_unchecked ByteOrder.little Locals.zeroed far_cmap_font Header.zeroed
      0 (by decide) (by decide) (by decide) (by decide)).2.2.2.1⟩

/-- C11 as stated fails. In the file `far_cmap_font` the only directory entry is tagged
"cmap" and its offset, 200, exceeds the 28 bytes of the file; with locals that hold
what an earlier call left there, `read_in_otf` prints a record (3, 1, 20) that is
nowhere in the file. -/
theorem cmap_offset_past_end_prints_stale_record :
    far_cmap_font.length = 28 ∧
    (read_in_otf ByteOrder.little Locals.stale (ifstream.open far_cmap_font) Header.zeroed
        ⟨[]⟩).offset_table.entries = [entry_at ByteOrder.little far_cmap_font 12] ∧
    (entry_at ByteOrder.little far_cmap_font 12).get_tag_str = TAG_CMAP ∧
    (entry_at ByteOrder.little far_cmap_font 12).offset.val ByteOrder.little = 200 ∧
    (read_in_otf ByteOrder.little Locals.stale (ifstream.open far_cmap_font) Header.zeroed
        ⟨[]⟩).cout = [⟨⟨3, 0⟩, ⟨1, 0⟩, ⟨20, 0, 0, 0⟩⟩] ∧
    (⟨⟨3, 0⟩, ⟨1, 0⟩, ⟨20, 0, 0, 0⟩⟩ : CmapEncodingRecord).platform_id.val ByteOrder.little
      = 3 := by
  have hn : be (slice far_cmap_font 4 2) = 1 := by decide
  obtain ⟨_, ht, hc, _⟩ := read_in_otf_enough ByteOrder.little Locals.stale far_cmap_font
    Header.zeroed (by decide)
  rw [hn] at ht hc
  refine ⟨by decide, by rw [ht]; rfl, by decide, by decide, ?_, by decide⟩
  rw [hc]
  simp only [List.range_succ, List.range_zero, List.nil_append, List.map_cons, List.map_nil,
    read_in_otf_entries]
  rw [(read_in_otf_entry_past_end ByteOrder.little Locals.stale 0 _ _ [] (by decide)
    (by decide)).2.1]
  decide

/-- C12, as the source has it. A read of a 2-byte or 4-byte field issued while the
stream is in a good state, when that many bytes remain, stores exactly the next bytes
of the file in the field and advances the cursor by their number; when fewer remain it
stores the bytes that are left at the start of the field and sets the failure flag of
the stream; once the flag is set a read leaves the field and the cursor as they are.
Nothing is reported and `read_in_otf` never tests the flag: on a file of fewer than 12
bytes it still leaves a header, each field being the field of the caller overwritten
by the bytes present at its place and normalised, the directory loop still runs
`num_tables` times, and the flag is set on return. -/
theorem field_read_sets_failure_flag_only (host : ByteOrder) (locals : Locals)
    (data : List Byte) (header : Header) (s : ifstream) (x16 : uint16_t) (x32 : uint32_t) :
    (s.fail = false → s.pos + 2 ≤ s.data.length →
      RawObject.bytes (s.read x16).2 = slice s.data s.pos 2 ∧
      (s.read x16).1.pos = s.pos + 2 ∧ (s.read x16).1.fail = false) ∧
    (s.fail = false → s.pos + 4 ≤ s.data.length →
      RawObject.bytes (s.read x32).2 = slice s.data s.pos 4 ∧
      (s.read x32).1.pos = s.pos + 4 ∧ (s.read x32).1.fail = false) ∧
    (s.fail = false → s.data.length < s.pos + 2 →
      (s.read x16).2 = RawObject.store x16 (slice s.data s.pos 2) ∧
      (s.read x16).1.fail = true) ∧
    (s.fail = false → s.data.length < s.pos + 4 →
      (s.read x32).2 = RawObject.store x32 (slice s.data s.pos 4) ∧
      (s.read x32).1.fail = true) ∧
    (s.fail = true →
      (s.read x16).2 = x16 ∧ (s.read x16).1.pos = s.pos ∧ (s.read x16).1.fail = true) ∧
    (s.fail = true →
      (s.read x32).2 = x32 ∧ (s.read x32).1.pos = s.pos ∧ (s.read x32).1.fail = true) ∧
    (data.length < 12 →
      (read_in_otf host locals (ifstream.open data) header ⟨[]⟩).header
        = header_from host data header ∧
      (read_in_otf host locals (ifstream.open data) header ⟨[]⟩).offset_table.entries.length
        = (read_in_otf host locals (ifstream.open data) header ⟨[]⟩).header.num_tables.val
            host ∧
      (read_in_otf host locals (ifstream.open data) header ⟨[]⟩).otf_file.fail = true) := by
  refine ⟨?_, ?_, ?_, ?_, ?_, ?_, ?_⟩
  · intro hf hl
    rw [read_u16 s x16 hf hl, slice_two s.data s.pos hl]
    exact ⟨rfl, rfl, rfl⟩
  · intro hf hl
    rw [read_u32 s x32 hf hl, slice_four s.data s.pos hl]
    exact ⟨rfl, rfl, rfl⟩
  · intro hf hl
    unfold ifstream.read
    simp only [hf, Bool.false_eq_true, if_false, List.length_take, List.length_drop,
      decide_eq_true_eq, RawObject.sizeof]
    exact ⟨rfl, by omega⟩
  · intro hf hl
    unfold ifstream.read
    simp only [hf, Bool.false_eq_true, if_false, List.length_take, List.length_drop,
      decide_eq_true_eq, RawObject.sizeof]
    exact ⟨rfl, by omega⟩
  · intro hf
    unfold ifstream.read
    simp [hf]
  · intro hf
    unfold ifstream.read
    simp [hf]
  · intro hl
    obtain ⟨vh, ve, td, dd⟩ := read_in_otf_any host locals data header
    refine ⟨vh, by rw [ve, vh]; simp, ?_⟩
    have hf := td.1.mpr (by rw [dd]; omega)
    simp only [read_in_otf, ifstream.close]
    exact read_in_otf_entries_fail host locals _ 0 _ [] hf

/-- C12 as stated fails. On the file of 5 bytes 00 01 00 00 02 `read_in_otf` reports
nothing and leaves a header: the version is 65536, the table count, built from the one
byte present and one byte of the uninitialised header, is 512, and 512 entries are put
in the table. -/
theorem short_file_still_yields_header :
    tiny_font.length = 5 ∧
    (read_in_otf ByteOrder.little Locals.zeroed (ifstream.open tiny_font) Header.zeroed
        ⟨[]⟩).header.version.num ByteOrder.little = 65536 ∧
    (read_in_otf ByteOrder.little Locals.zeroed (ifstream.open tiny_font) Header.zeroed
        ⟨[]⟩).header.num_tables.val ByteOrder.little = 512 ∧
    (read_in_otf ByteOrder.little Locals.zeroed (ifstream.open tiny_font) Header.zeroed
        ⟨[]⟩).offset_table.entries.length = 512 := by
  obtain ⟨vh, ve, _, _⟩ := read_in_otf_any ByteOrder.little Locals.zeroed tiny_font
    Header.zeroed
  have hn : (header_from ByteOrder.little tiny_font Header.zeroed).num_tables.val
      ByteOrder.little = 512 := by decide
  refine ⟨by decide, by rw [vh]; decide, by rw [vh]; exact hn, ?_⟩
  rw [ve, hn]
  simp

/-- C13, as the source has it. When the file holds its whole directory and the cmap
table of every entry tagged "cmap" lies within the file, the walk is made for every
such entry, not only the first: the records printed are those of the cmap table at the
offset of the first entry tagged "cmap", followed by those at the offset of each later
one, in directory order; the stream ends in a good state. -/
theorem every_cmap_entry_walked (host : ByteOrder) (locals : Locals) (data : List Byte)
    (header : Header) (h : 12 + 16 * be (slice data 4 2) ≤ data.length)
    (hfit : ∀ i, i < be (slice data 4 2) → slice data (12 + 16 * i) 4 = TAG_CMAP →
      be (slice data (12 + 16 * i + 8) 4) + 4
          + 8 * be (slice data (be (slice data (12 + 16 * i + 8) 4) + 2) 2)
        ≤ data.length) :
    (read_in_otf host locals (ifstream.open data) header ⟨[]⟩).cout
      = (read_in_otf host locals (ifstream.open data) header ⟨[]⟩).offset_table.entries.flatMap
          (fun d => if d.tag.str = [0x63, 0x6D, 0x61, 0x70]
            then (List.range (be (slice data (d.offset.val host + 2) 2))).map
              (fun j => record_at host data (d.offset.val host + 4 + 8 * j))
            else []) ∧
    (read_in_otf host locals (ifstream.open data) header ⟨[]⟩).otf_file.fail = false := by
  obtain ⟨_, ht, hc, hfile⟩ := read_in_otf_enough host locals data header h
  have hfits : ∀ d ∈ (List.range (be (slice data 4 2))).map
      (fun k => entry_at host data (12 + 16 * k)),
      cmap_fits host (after_entries (after_header data) (be (slice data 4 2))).data d ∧
      (d.get_tag_str = TAG_CMAP →
        (cmap_header_at host data (d.offset.val host)).num_tables.val host
          = be (slice data (d.offset.val host + 2) 2)) := by
    intro d hd
    obtain ⟨i, hi, rfl⟩ := List.mem_map.mp hd
    have hi := List.mem_range.mp hi
    have hm : 16 * i + 16 ≤ 16 * be (slice data 4 2) := by omega
    obtain ⟨e1, _, e3, _⟩ := entry_at_fields host data (12 + 16 * i) (by omega)
    have hk : (entry_at host data (12 + 16 * i)).get_tag_str = TAG_CMAP →
        be (slice data (12 + 16 * i + 8) 4) + 4
          + 8 * be (slice data (be (slice data (12 + 16 * i + 8) 4) + 2) 2) ≤ data.length ∧
        (cmap_header_at host data (be (slice data (12 + 16 * i + 8) 4))).num_tables.val host
          = be (slice data (be (slice data (12 + 16 * i + 8) 4) + 2) 2) := by
      intro hcm
      have hfi := hfit i hi (by rw [← e1]; exact (get_tag_str_eq_cmap _).mp hcm)
      exact ⟨hfi, (cmap_header_at_fields host data _ (by omega)).2⟩
    constructor
    · intro hcm
      simp only [after_entries, after_header_data]
      rw [e3, (hk hcm).2]
      exact (hk hcm).1
    · intro hcm
      rw [e3]
      exact (hk hcm).2
  obtain ⟨hw, hf⟩ := read_in_otf_entries_walk host locals _ 0
    (after_entries (after_header data) (be (slice data 4 2))) [] rfl
    (fun d hd => (hfits d hd).1)
  refine ⟨?_, by rw [hfile]; exact hf⟩
  rw [hc, hw, ht]
  simp only [List.nil_append, walk_records, after_entries, after_header_data]
  apply List.flatMap_congr
  intro d hd
  by_cases hcm : d.get_tag_str = TAG_CMAP
  · rw [if_pos hcm, if_pos ((get_tag_str_eq_cmap d).mp hcm)]
    simp only [cmap_records_at]
    rw [(hfits d hd).2 hcm]
  · rw [if_neg hcm, if_neg (fun h => hcm ((get_tag_str_eq_cmap d).mpr h))]

/-- C13 at the file with two entries tagged "cmap", both within the file. -/
theorem every_cmap_entry_walked_witness :
    12 + 16 * be (slice double_cmap_font 4 2) ≤ double_cmap_font.length ∧
    (read_in_otf ByteOrder.little Locals.zeroed (ifstream.open double_cmap_font) Header.zeroed
        ⟨[]⟩).otf_file.fail = false :=
  ⟨by decide,
    (every_cmap_entry_walked ByteOrder.little Locals.zeroed double_cmap_font Header.zeroed
      (by decide)
      (by
        intro i hi
        have h2 : be (slice double_cmap_font 4 2) = 2 := by decide
        rw [h2] at hi
        interval_cases i <;> decide)).2⟩

/-- C13 as stated fails. In the file `double_cmap_font` both directory entries are
tagged "cmap", the first with offset 44, where one record is declared, the second with
offset 56; `read_in_otf` prints two records, the second being the record (0, 3, 20)
read at 60, in the cmap table of the second entry. -/
theorem later_cmap_entry_walked_too :
    (read_in_otf ByteOrder.little Locals.zeroed (ifstream.open double_cmap_font) Header.zeroed
        ⟨[]⟩).offset_table.entries
      = [entry_at ByteOrder.little double_cmap_font 12,
          entry_at ByteOrder.little double_cmap_font 28] ∧
    (entry_at ByteOrder.little double_cmap_font 12).get_tag_str = TAG_CMAP ∧
    (entry_at ByteOrder.little double_cmap_font 12).offset.val ByteOrder.little = 44 ∧
    be (slice double_cmap_font (44 + 2) 2) = 1 ∧
    (entry_at ByteOrder.little double_cmap_font 28).get_tag_str = TAG_CMAP ∧
    (entry_at ByteOrder.little double_cmap_font 28).offset.val ByteOrder.little = 56 ∧
    (read_in_otf ByteOrder.little Locals.zeroed (ifstream.open double_cmap_font) Header.zeroed
        ⟨[]⟩).cout
      = [record_at ByteOrder.little double_cmap_font 48,
          record_at ByteOrder.little double_cmap_font 60] ∧
    (record_at ByteOrder.little double_cmap_font 60).platform_id.val ByteOrder.little = 0 ∧
    (record_at ByteOrder.little double_cmap_font 60).encoding_id.val ByteOrder.little = 3 ∧
    (record_at ByteOrder.little double_cmap_font 60).offset.val ByteOrder.little = 20 := by
  have hn : be (slice double_cmap_font 4 2) = 2 := by decide
  obtain ⟨_, ht, hc, _⟩ := read_in_otf_enough ByteOrder.little Locals.zeroed double_cmap_font
    Header.zeroed (by decide)
  rw [hn] at ht hc
  refine ⟨by rw [ht]; rfl, by decide, by decide, by decide, by decide, by decide, ?_,
    by decide, by decide, by decide⟩
  rw [hc]
  rw [(read_in_otf_entries_walk ByteOrder.little Locals.zeroed _ 0
    (after_entries (after_header double_cmap_font) 2) [] rfl (by
      intro d hd
      simp only [List.range_succ, List.range_zero, List.nil_append, List.map_cons,
        List.map_nil, List.cons_append, List.mem_cons, List.mem_singleton,
        List.not_mem_nil, or_false] at hd
      rcases hd with rfl | rfl <;> intro _ <;> decide)).1]
  decide
/-- C14, as the source has it. `calculate_checksum` returns 0 for every entry, and on
every file `read_in_otf` leaves as many entries as the header declares. When the four
checksum bytes of record `i` are in the file, the checksum of entry `i` is the
big-endian number they write, and writing other bytes in their place has these effects
only, whatever the uninitialised locals and the header of the caller hold in the one
run and in the other: the header and the number of entries stay as they were; every
other entry whose record is wholly in the file stays as it was; and when record `i` is
wholly in the file, entry `i` changes in its checksum alone, which becomes the
big-endian number of the new bytes. The printed records stay the same as well when the
file holds its whole directory and the cmap table of every entry tagged "cmap" lies
within the file and holds none of the four bytes. -/
theorem checksum_only_copied (host : ByteOrder) (locals locals' : Locals) (data : List Byte)
    (header header' : Header) (table : Offset) (i : Nat) (x0 x1 x2 x3 : Byte)
    (hc : 12 + 16 * i + 8 ≤ data.length) :
    calculate_checksum table = 0 ∧
    (read_in_otf host locals (ifstream.open data) header ⟨[]⟩).offset_table.entries.length
      = (read_in_otf host locals (ifstream.open data) header ⟨[]⟩).header.num_tables.val
          host ∧
    (∀ e, (read_in_otf host locals (ifstream.open data) header ⟨[]⟩).offset_table.entries[i]?
        = some e → e.checksum.val host = be (slice data (12 + 16 * i + 4) 4)) ∧
    (read_in_otf host locals'
        (ifstream.open (patch data (12 + 16 * i + 4) [x0, x1, x2, x3])) header' ⟨[]⟩).header
      = (read_in_otf host locals (ifstream.open data) header ⟨[]⟩).header ∧
    (read_in_otf host locals' (ifstream.open (patch data (12 + 16 * i + 4) [x0, x1, x2, x3]))
        header' ⟨[]⟩).offset_table.entries.length
      = (read_in_otf host locals (ifstream.open data) header ⟨[]⟩).offset_table.entries.length ∧
    (∀ j, j ≠ i → 12 + 16 * j + 16 ≤ data.length →
      (read_in_otf host locals' (ifstream.open (patch data (12 + 16 * i + 4) [x0, x1, x2, x3]))
          header' ⟨[]⟩).offset_table.entries[j]?
        = (read_in_otf host locals (ifstream.open data) header ⟨[]⟩).offset_table.entries[j]?) ∧
    (12 + 16 * i + 16 ≤ data.length → ∀ e e',
      (read_in_otf host locals (ifstream.open data) header ⟨[]⟩).offset_table.entries[i]?
        = some e →
      (read_in_otf host locals' (ifstream.open (patch data (12 + 16 * i + 4) [x0, x1, x2, x3]))
          header' ⟨[]⟩).offset_table.entries[i]? = some e' →
      e'.tag = e.tag ∧ e'.offset = e.offset ∧ e'.length = e.length ∧
      e'.checksum.val host = be [x0, x1, x2, x3]) ∧
    (12 + 16 * be (slice data 4 2) ≤ data.length →
      (∀ j, j < be (slice data 4 2) → slice data (12 + 16 * j) 4 = TAG_CMAP →
        be (slice data (12 + 16 * j + 8) 4) + 4
            + 8 * be (slice data (be (slice data (12 + 16 * j + 8) 4) + 2) 2)
          ≤ data.length ∧
        (be (slice data (12 + 16 * j + 8) 4) + 4
            + 8 * be (slice data (be (slice data (12 + 16 * j + 8) 4) + 2) 2)
          ≤ 12 + 16 * i + 4 ∨ 12 + 16 * i + 8 ≤ be (slice data (12 + 16 * j + 8) 4))) →
      (read_in_otf host locals' (ifstream.open (patch data (12 + 16 * i + 4) [x0, x1, x2, x3]))
          header' ⟨[]⟩).cout
        = (read_in_otf host locals (ifstream.open data) header ⟨[]⟩).cout) := by
  have hx : 12 + 16 * i + 4 + [x0, x1, x2, x3].length ≤ data.length := by
    simp only [List.length_cons, List.length_nil]
    omega
  have hlen := patch_length data (12 + 16 * i + 4) [x0, x1, x2, x3] hx
  have hout : ∀ q n, q + n ≤ 12 + 16 * i + 4 ∨ 12 + 16 * i + 8 ≤ q →
      slice (patch data (12 + 16 * i + 4) [x0, x1, x2, x3]) q n = slice data q n := by
    intro q n hq
    apply slice_patch_outside data _ _ q n hx
    simp only [List.length_cons, List.length_nil]
    omega
  have hself : slice (patch data (12 + 16 * i + 4) [x0, x1, x2, x3]) (12 + 16 * i + 4) 4
      = [x0, x1, x2, x3] := slice_patch_self data (12 + 16 * i + 4) [x0, x1, x2, x3] hx
  have hhead : header_from host (patch data (12 + 16 * i + 4) [x0, x1, x2, x3]) header'
      = header_from host data header := by
    rw [header_from_enough host data header (by omega), ← header_from_enough host data header'
      (by omega)]
    simp only [header_from]
    rw [hout 0 4 (by omega), hout 4 2 (by omega), hout 6 2 (by omega), hout 8 2 (by omega),
      hout 10 2 (by omega)]
  have hother : ∀ j, j ≠ i → 12 + 16 * j + 16 ≤ data.length → ∀ o o',
      entry_from host (patch data (12 + 16 * i + 4) [x0, x1, x2, x3]) (12 + 16 * j) o'
        = entry_from host data (12 + 16 * j) o := by
    intro j hj hjl o o'
    rw [entry_from_enough host data (12 + 16 * j) o (by omega),
      ← entry_from_enough host data (12 + 16 * j) o' (by omega)]
    simp only [entry_from]
    rw [hout (12 + 16 * j) 4 (by omega), hout (12 + 16 * j + 4) 4 (by omega),
      hout (12 + 16 * j + 8) 4 (by omega), hout (12 + 16 * j + 12) 4 (by omega)]
  have hthis : 12 + 16 * i + 16 ≤ data.length → ∀ o o',
      entry_from host (patch data (12 + 16 * i + 4) [x0, x1, x2, x3]) (12 + 16 * i) o'
        = { entry_from host data (12 + 16 * i) o with
            checksum := endswap host ⟨x0, x1, x2, x3⟩ } := by
    intro hil o o'
    rw [entry_from_enough host data (12 + 16 * i) o (by omega),
      ← entry_from_enough host data (12 + 16 * i) o' (by omega)]
    simp only [entry_from, endswap_otf_offset]
    rw [hout (12 + 16 * i) 4 (by omega), hself, hout (12 + 16 * i + 8) 4 (by omega),
      hout (12 + 16 * i + 12) 4 (by omega)]
    rfl
  obtain ⟨vh, ve, _, _⟩ := read_in_otf_any host locals data header
  obtain ⟨vh', ve', _, _⟩ := read_in_otf_any host locals'
    (patch data (12 + 16 * i + 4) [x0, x1, x2, x3]) header'
  rw [hhead] at vh' ve'
  refine ⟨rfl, by rw [ve, vh]; simp, ?_, by rw [vh, vh'], by rw [ve, ve']; simp, ?_, ?_, ?_⟩
  · intro e he
    rw [ve] at he
    simp only [List.getElem?_map, Option.map_eq_some'] at he
    obtain ⟨j, hj, rfl⟩ := he
    have hji : j = i := by
      have := List.getElem?_eq_some_iff.mp hj
      obtain ⟨hlt, hget⟩ := this
      simpa using hget.symm
    subst hji
    rw [be_slice_four data (12 + 16 * j + 4) (by omega)]
    simp only [entry_from, endswap_otf_offset]
    rw [store_u32_slice _ data (12 + 16 * j + 4) (by omega), val_endswap_u32]
  · intro j hj hjl
    rw [ve, ve']
    simp only [List.getElem?_map]
    cases hr : (List.range ((header_from host data header).num_tables.val host))[j]? with
    | none => rfl
    | some k =>
      obtain ⟨_, hget⟩ := List.getElem?_eq_some_iff.mp hr
      have hk : k = j := by simpa using hget.symm
      subst hk
      simp only [Option.map_some', hother k hj hjl (locals.offset k) (locals'.offset k)]
  · intro hil e e' he he'
    rw [ve] at he
    rw [ve'] at he'
    simp only [List.getElem?_map, Option.map_eq_some'] at he he'
    obtain ⟨j, hj, rfl⟩ := he
    obtain ⟨j', hj', rfl⟩ := he'
    have hji : j = i := by
      obtain ⟨_, hget⟩ := List.getElem?_eq_some_iff.mp hj
      simpa using hget.symm
    have hji' : j' = i := by
      obtain ⟨_, hget⟩ := List.getElem?_eq_some_iff.mp hj'
      simpa using hget.symm
    subst hji
    subst hji'
    rw [hthis hil (locals.offset j') (locals'.offset j')]
    refine ⟨rfl, rfl, rfl, ?_⟩
    simp only [val_endswap_u32, be, List.foldl]
    ring
  · intro hdir htab
    apply read_in_otf_cout_same_tables host locals locals' header header' data _ hlen hdir
      (fun j hj hcm => (htab j hj hcm).1) (hout 4 2 (by omega))
    · intro j _
      exact hout (12 + 16 * j) 4 (by omega)
    · intro j _ _
      exact hout (12 + 16 * j + 8) 4 (by omega)
    · intro j hj hcm q h1 h2
      apply patch_getD_outside data _ _ q hx
      simp only [List.length_cons, List.length_nil]
      rcases (htab j hj hcm).2 with h | h <;> omega

/-- C14 at the sample file and its only directory record, the two runs with different
uninitialised locals. -/
theorem checksum_only_copied_witness :
    12 + 16 * 0 + 8 ≤ sample_font.length ∧
    (read_in_otf ByteOrder.little Locals.stale
        (ifstream.open (patch sample_font (12 + 16 * 0 + 4) [1, 2, 3, 4])) Header.zeroed
        ⟨[]⟩).header
      = (read_in_otf ByteOrder.little Locals.zeroed (ifstream.open sample_font) Header.zeroed
        ⟨[]⟩).header :=
  ⟨by decide,
    (checksum_only_copied ByteOrder.little Locals.zeroed Locals.stale sample_font Header.zeroed
      Header.zeroed (Locals.zeroed.offset 0) 0 1 2 3 4 (by decide)).2.2.2.1⟩

/-- C14 as stated fails. The file `truncated_font` declares two tables and ends six
bytes into its second directory record; the local `offset` has the same stack slot in
every round, so round 1 builds entry 1 on what round 0 left. Entry 1 then has the
checksum 0x55662211 = 1432756753, whose bytes 0x22, 0x11 are checksum bytes of record
0. With the four checksum bytes of record 0 alone changed, to AA BB CC DD, entry 0 has
the new checksum, and entry 1 has the checksum 0x5566BBAA = 1432796074: an entry other
than entry 0 has changed. -/
theorem checksum_bytes_reach_later_entry :
    truncated_font.length = 34 ∧
    (read_in_otf ByteOrder.little
        (Locals.reused ByteOrder.little truncated_font Locals.zeroed)
        (ifstream.open truncated_font) Header.zeroed
        ⟨[]⟩).header.num_tables.val ByteOrder.little = 2 ∧
    ((read_in_otf ByteOrder.little
        (Locals.reused ByteOrder.little truncated_font Locals.zeroed)
        (ifstream.open truncated_font) Header.zeroed
        ⟨[]⟩).offset_table.entries.map (fun e => e.checksum.val ByteOrder.little))
      = [0x11223344, 1432756753] ∧
    ((read_in_otf ByteOrder.little
        (Locals.reused ByteOrder.little (patch truncated_font 16 [0xAA, 0xBB, 0xCC, 0xDD])
          Locals.zeroed)
        (ifstream.open (patch truncated_font 16 [0xAA, 0xBB, 0xCC, 0xDD])) Header.zeroed
        ⟨[]⟩).offset_table.entries.map (fun e => e.checksum.val ByteOrder.little))
      = [0xAABBCCDD, 1432796074] := by
  obtain ⟨vh, ve, _, _⟩ := read_in_otf_any ByteOrder.little
    (Locals.reused ByteOrder.little truncated_font Locals.zeroed) truncated_font Header.zeroed
  obtain ⟨_, ve', _, _⟩ := read_in_otf_any ByteOrder.little
    (Locals.reused ByteOrder.little (patch truncated_font 16 [0xAA, 0xBB, 0xCC, 0xDD])
      Locals.zeroed)
    (patch truncated_font 16 [0xAA, 0xBB, 0xCC, 0xDD]) Header.zeroed
  have hn : (header_from ByteOrder.little truncated_font Header.zeroed).num_tables.val
      ByteOrder.little = 2 := by decide
  have hn' : (header_from ByteOrder.little (patch truncated_font 16 [0xAA, 0xBB, 0xCC, 0xDD])
      Header.zeroed).num_tables.val ByteOrder.little = 2 := by decide
  refine ⟨by decide, by rw [vh]; exact hn, ?_, ?_⟩
  · rw [ve, hn]
    decide
  · rw [ve', hn']
    decide

/-- C15, as the source has it. `read_in_otf` issues one `seekg` for every directory
entry, whatever its tag, in directory order and with the offset of that entry as its
target, so the number of seeks is the number of entries, which is `num_tables` of the
decoded header; and a read never moves the cursor back, nor forward by more than the
size of the field. -/
theorem one_seek_per_directory_entry (host : ByteOrder) (locals : Locals) (data : List Byte)
    (header : Header) (s : ifstream) (x16 : uint16_t) (x32 : uint32_t) :
    seek_targets (read_in_otf host locals (ifstream.open data) header ⟨[]⟩).otf_file.calls
      = (read_in_otf host locals (ifstream.open data) header ⟨[]⟩).offset_table.entries.map
          (fun o => o.offset.val host) ∧
    (seek_targets
        (read_in_otf host locals (ifstream.open data) header ⟨[]⟩).otf_file.calls).length
      = (read_in_otf host locals (ifstream.open data) header ⟨[]⟩).header.num_tables.val host ∧
    (s.pos ≤ (s.read x16).1.pos ∧ (s.read x16).1.pos ≤ s.pos + 2) ∧
    (s.pos ≤ (s.read x32).1.pos ∧ (s.read x32).1.pos ≤ s.pos + 4) := by
  have hs := read_in_otf_seeks host locals (ifstream.open data) header ⟨[]⟩
  have hs0 : seek_targets (ifstream.open data).calls = [] := rfl
  rw [hs0, List.nil_append] at hs
  obtain ⟨vh, ve, _, _⟩ := read_in_otf_any host locals data header
  refine ⟨hs, ?_, ?_, ?_⟩
  · rw [hs, ve, vh]
    simp
  · unfold ifstream.read
    split
    · simp
    · simp only [List.length_take, List.length_drop, RawObject.sizeof]
      omega
  · unfold ifstream.read
    split
    · simp
    · simp only [List.length_take, List.length_drop, RawObject.sizeof]
      omega

/-- C15 as stated fails. In the file `head_font` the only directory entry is tagged
"head", not "cmap", and `read_in_otf` still issues one `seekg`, to its offset 28. -/
theorem seek_issued_for_entry_not_cmap :
    (read_in_otf ByteOrder.little Locals.zeroed (ifstream.open head_font) Header.zeroed
        ⟨[]⟩).offset_table.entries = [entry_at ByteOrder.little head_font 12] ∧
    (entry_at ByteOrder.little head_font 12).get_tag_str = [0x68, 0x65, 0x61, 0x64] ∧
    seek_targets (read_in_otf ByteOrder.little Locals.zeroed (ifstream.open head_font)
        Header.zeroed ⟨[]⟩).otf_file.calls = [28] := by
  have hn : be (slice head_font 4 2) = 1 := by decide
  obtain ⟨_, ht, _, _⟩ := read_in_otf_enough ByteOrder.little Locals.zeroed head_font
    Header.zeroed (by decide)
  rw [hn] at ht
  have hs := read_in_otf_seeks ByteOrder.little Locals.zeroed (ifstream.open head_font)
    Header.zeroed ⟨[]⟩
  refine ⟨by rw [ht]; rfl, by decide, ?_⟩
  rw [hs, ht]
  decide

/-- C16. For every stream of at least 12 bytes and either host, the test of
`print_otf_version` on the decoded header, `header.version.num == VersionNum::V_CFF`,
holds exactly when the first four bytes of the file are 'O' 'T' 'T' 'O', in which case
the line is printed; and the decoded version equals `VersionNum::V_1_0` exactly when
those bytes are 00 01 00 00. -/
theorem version_tests_match_file_bytes (host : ByteOrder) (locals : Locals)
    (b0 b1 b2 b3 b4 b5 b6 b7 b8 b9 b10 b11 : Byte) (rest : List Byte)
    (header : Header) (offset_table : OffsetTable) :
    ((read_in_otf host locals (ifstream.open
        (b0 :: b1 :: b2 :: b3 :: b4 :: b5 :: b6 :: b7 :: b8 :: b9 :: b10 :: b11 :: rest))
        header offset_table).header.version.num host = VersionNum.V_CFF ↔
      b0 = 0x4F ∧ b1 = 0x54 ∧ b2 = 0x54 ∧ b3 = 0x4F) ∧
    (print_otf_version host (read_in_otf host locals (ifstream.open
        (b0 :: b1 :: b2 :: b3 :: b4 :: b5 :: b6 :: b7 :: b8 :: b9 :: b10 :: b11 :: rest))
        header offset_table).header = ["Contains CFF"] ↔
      b0 = 0x4F ∧ b1 = 0x54 ∧ b2 = 0x54 ∧ b3 = 0x4F) ∧
    ((read_in_otf host locals (ifstream.open
        (b0 :: b1 :: b2 :: b3 :: b4 :: b5 :: b6 :: b7 :: b8 :: b9 :: b10 :: b11 :: rest))
        header offset_table).header.version.num host = VersionNum.V_1_0 ↔
      b0 = 0x00 ∧ b1 = 0x01 ∧ b2 = 0x00 ∧ b3 = 0x00) := by
  have hv := read_in_otf_version host locals b0 b1 b2 b3
    (b4 :: b5 :: b6 :: b7 :: b8 :: b9 :: b10 :: b11 :: rest) header offset_table
  have hcff : (read_in_otf host locals (ifstream.open
      (b0 :: b1 :: b2 :: b3 :: b4 :: b5 :: b6 :: b7 :: b8 :: b9 :: b10 :: b11 :: rest))
      header offset_table).header.version.num host = VersionNum.V_CFF ↔
      b0 = 0x4F ∧ b1 = 0x54 ∧ b2 = 0x54 ∧ b3 = 0x4F := by
    rw [hv, num_endswap_version]
    exact be_four_inj b0 b1 b2 b3 0x4F 0x54 0x54 0x4F
  refine ⟨hcff, ?_, ?_⟩
  · rw [← hcff]
    unfold print_otf_version
    split <;> simp_all
  · rw [hv, num_endswap_version]
    exact be_four_inj b0 b1 b2 b3 0x00 0x01 0x00 0x00
/-- C17, as the source has it. Take two files of the same length, the first holding
its whole directory and, for every directory record tagged "cmap", the whole cmap table
at the offset of the record. When the second differs from the first only in checksum,
offset or length bytes of directory records whose tag is not "cmap", and in no byte of
one of those cmap tables, `read_in_otf` prints the same encoding records on both,
whatever the uninitialised locals and the header of the caller hold in the one run and
in the other. -/
theorem cmap_records_independent_of_other_entries (host : ByteOrder)
    (locals locals' : Locals) (header header' : Header) (d d' : List Byte)
    (hlen : d'.length = d.length)
    (h : 12 + 16 * be (slice d 4 2) ≤ d.length)
    (hfit : ∀ i, i < be (slice d 4 2) → slice d (12 + 16 * i) 4 = TAG_CMAP →
      be (slice d (12 + 16 * i + 8) 4) + 4
          + 8 * be (slice d (be (slice d (12 + 16 * i + 8) 4) + 2) 2)
        ≤ d.length)
    (hdiff : ∀ q, d'.getD q 0 ≠ d.getD q 0 →
      ∃ i, i < be (slice d 4 2) ∧ 12 + 16 * i + 4 ≤ q ∧ q < 12 + 16 * i + 16 ∧
        slice d (12 + 16 * i) 4 ≠ TAG_CMAP)
    (hread : ∀ i, i < be (slice d 4 2) → slice d (12 + 16 * i) 4 = TAG_CMAP →
      ∀ q, be (slice d (12 + 16 * i + 8) 4) ≤ q →
        q < be (slice d (12 + 16 * i + 8) 4) + 4
            + 8 * be (slice d (be (slice d (12 + 16 * i + 8) 4) + 2) 2) →
        d'.getD q 0 = d.getD q 0) :
    (read_in_otf host locals' (ifstream.open d') header' ⟨[]⟩).cout
      = (read_in_otf host locals (ifstream.open d) header ⟨[]⟩).cout := by
  have hsame : ∀ p n, (∀ q, p ≤ q → q < p + n →
      ¬ ∃ i, 12 + 16 * i + 4 ≤ q ∧ q < 12 + 16 * i + 16) → slice d' p n = slice d p n := by
    intro p n hq
    apply slice_eq_of_same d d' p n hlen
    intro q h1 h2
    by_contra hne
    obtain ⟨i, _, hi1, hi2, _⟩ := hdiff q hne
    exact hq q h1 h2 ⟨i, hi1, hi2⟩
  apply read_in_otf_cout_same_tables host locals locals' header header' d d' hlen h hfit
    (hsame 4 2 (by rintro q h1 h2 ⟨i, hi1, hi2⟩; omega))
  · intro j _
    exact hsame _ 4 (by rintro q h1 h2 ⟨i, hi1, hi2⟩; omega)
  · intro j _ hcm
    apply slice_eq_of_same d d' _ 4 hlen
    intro q h1 h2
    by_contra hne
    obtain ⟨i, _, hi1, hi2, hnot⟩ := hdiff q hne
    have hij : i = j := by omega
    subst hij
    exact hnot hcm
  · exact hread

/-- C17 at the file with an entry "head" and an entry "cmap" with one record, against
the same file with the checksum, offset and length bytes of the entry "head" changed
(its offset from 56 to 12), the two runs with different uninitialised locals: one record
is printed on both. -/
theorem cmap_records_independent_of_other_entries_witness :
    (patch mixed_font 16 [1, 2, 3, 4, 0, 0, 0, 12, 9, 10, 11, 12]).length
      = mixed_font.length ∧
    12 + 16 * be (slice mixed_font 4 2) ≤ mixed_font.length ∧
    (patch mixed_font 16 [1, 2, 3, 4, 0, 0, 0, 12, 9, 10, 11, 12]).getD 23 0
      ≠ mixed_font.getD 23 0 ∧
    (read_in_otf ByteOrder.little Locals.zeroed (ifstream.open mixed_font) Header.zeroed
        ⟨[]⟩).cout = [record_at ByteOrder.little mixed_font 48] ∧
    (read_in_otf ByteOrder.little Locals.stale
        (ifstream.open (patch mixed_font 16 [1, 2, 3, 4, 0, 0, 0, 12, 9, 10, 11, 12]))
        Header.zeroed ⟨[]⟩).cout
      = (read_in_otf ByteOrder.little Locals.zeroed (ifstream.open mixed_font) Header.zeroed
        ⟨[]⟩).cout :=
  ⟨by decide, by decide, by decide,
    by
      have hn : be (slice mixed_font 4 2) = 2 := by decide
      rw [read_in_otf_cout_enough ByteOrder.little Locals.zeroed mixed_font Header.zeroed
        (by decide) (by
          intro i hi
          rw [hn] at hi
          interval_cases i <;> decide), hn]
      decide,
    cmap_records_independent_of_other_entries ByteOrder.little Locals.zeroed Locals.stale
      Header.zeroed Header.zeroed mixed_font
      (patch mixed_font 16 [1, 2, 3, 4, 0, 0, 0, 12, 9, 10, 11, 12]) (by decide) (by decide)
      (by
        intro i hi
        have hn : be (slice mixed_font 4 2) = 2 := by decide
        rw [hn] at hi
        interval_cases i <;> decide)
      (by
        intro q hne
        refine ⟨0, by decide, ?_, ?_, by decide⟩
        · by_contra hlt
          exact hne (patch_getD_outside mixed_font 16 _ q (by decide) (Or.inl (by omega)))
        · by_contra hge
          exact hne (patch_getD_outside mixed_font 16 _ q (by decide)
            (Or.inr (by simp only [List.length_cons, List.length_nil]; omega))))
      (by
        intro i hi hcm q h1 _
        have hn : be (slice mixed_font 4 2) = 2 := by decide
        rw [hn] at hi
        have ho : 44 ≤ q := by
          interval_cases i
          · exact absurd hcm (by decide)
          · have h44 : be (slice mixed_font (12 + 16 * 1 + 8) 4) = 44 := by decide
            rw [h44] at h1
            exact h1
        exact patch_getD_outside mixed_font 16 _ q (by decide)
          (Or.inr (by simp only [List.length_cons, List.length_nil]; omega)))⟩

/-- C17 as stated fails. The records printed are not fixed by the stream bytes and the
directory entries tagged "cmap". In the file `far_cmap_font` the only directory entry is
tagged "cmap" and its offset, 200, is past the 28 bytes of the file, so that no read
made for it extracts a byte; on this one file `read_in_otf` prints nothing when the
uninitialised locals hold zero bytes, and the record (3, 1, 20) when they hold what an
earlier call left there. -/
theorem cmap_records_vary_with_locals :
    far_cmap_font.length = 28 ∧
    (entry_at ByteOrder.little far_cmap_font 12).get_tag_str = TAG_CMAP ∧
    (entry_at ByteOrder.little far_cmap_font 12).offset.val ByteOrder.little = 200 ∧
    (read_in_otf ByteOrder.little Locals.zeroed (ifstream.open far_cmap_font) Header.zeroed
        ⟨[]⟩).offset_table.entries
      = (read_in_otf ByteOrder.little Locals.stale (ifstream.open far_cmap_font) Header.zeroed
        ⟨[]⟩).offset_table.entries ∧
    (read_in_otf ByteOrder.little Locals.zeroed (ifstream.open far_cmap_font) Header.zeroed
        ⟨[]⟩).cout = [] ∧
    (read_in_otf ByteOrder.little Locals.stale (ifstream.open far_cmap_font) Header.zeroed
        ⟨[]⟩).cout = [⟨⟨3, 0⟩, ⟨1, 0⟩, ⟨20, 0, 0, 0⟩⟩] := by
  have hn : be (slice far_cmap_font 4 2) = 1 := by decide
  obtain ⟨_, ht, hc, _⟩ := read_in_otf_enough ByteOrder.little Locals.zeroed far_cmap_font
    Header.zeroed (by decide)
  obtain ⟨_, ht', hc', _⟩ := read_in_otf_enough ByteOrder.little Locals.stale far_cmap_font
    Header.zeroed (by decide)
  refine ⟨by decide, by decide, by decide, by rw [ht, ht'], ?_, ?_⟩
  · rw [hc, hn]
    simp only [List.range_succ, List.range_zero, List.nil_append, List.map_cons, List.map_nil,
      read_in_otf_entries]
    rw [(read_in_otf_entry_past_end ByteOrder.little Locals.zeroed 0 _ _ [] (by decide)
      (by decide)).2.1]
    decide
  · rw [hc', hn]
    simp only [List.range_succ, List.range_zero, List.nil_append, List.map_cons, List.map_nil,
      read_in_otf_entries]
    rw [(read_in_otf_entry_past_end ByteOrder.little Locals.stale 0 _ _ [] (by decide)
      (by decide)).2.1]
    decide

/-- C18. Both loops run exactly the declared number of rounds, for every 16-bit
count: the directory loop adds exactly `num_tables` entries and makes four reads a
round, the record loop prints exactly `num_tables` records and makes three reads a
round; the count is at most 65535, so the `int` counter of the directory loop stays
below 2 ^ 31 and the 16-bit counter of the record loop never wraps before the loop is
left, and at the count 65535 the record loop prints 65535 records. `read_in_otf` as a
whole leaves `num_tables` entries, on every file. -/
theorem loops_run_declared_count (host : ByteOrder) (locals : Locals) (e : Nat)
    (n : uint16_t) (s : ifstream) (t : OffsetTable) (cout : List CmapEncodingRecord)
    (data : List Byte) (header : Header) :
    (read_in_otf_directory host locals n 0 s t).2.entries.length
      = t.entries.length + n.val host ∧
    (read_in_otf_directory host locals n 0 s t).1.calls.length
      = s.calls.length + 4 * n.val host ∧
    (read_in_otf_records host locals e n 0 s cout).2.length = cout.length + n.val host ∧
    (read_in_otf_records host locals e n 0 s cout).1.calls.length
      = s.calls.length + 3 * n.val host ∧
    n.val host ≤ 65535 ∧
    (∀ i, i < n.val host → i + 1 < 2 ^ 31) ∧
    (∀ i, i < n.val host → (i + 1) % 2 ^ 16 = i + 1) ∧
    (endswap host (⟨0xFF, 0xFF⟩ : uint16_t)).val host = 65535 ∧
    (read_in_otf_records host locals e (endswap host ⟨0xFF, 0xFF⟩) 0 s cout).2.length
      = cout.length + 65535 ∧
    (read_in_otf host locals (ifstream.open data) header ⟨[]⟩).offset_table.entries.length
      = (read_in_otf host locals (ifstream.open data) header ⟨[]⟩).header.num_tables.val
          host := by
  obtain ⟨d1, x1, a1, _, c1⟩ := read_in_otf_directory_reads host locals n _ 0 s t rfl
  obtain ⟨r1, y1, b1, _, e1⟩ := read_in_otf_records_reads host locals e n _ 0 s cout rfl
  have hlt := uint16_val_lt host n
  have hmax : (endswap host (⟨0xFF, 0xFF⟩ : uint16_t)).val host = 65535 := by
    rw [val_endswap_u16]
    rfl
  obtain ⟨r2, _⟩ := read_in_otf_records_reads host locals e (endswap host ⟨0xFF, 0xFF⟩) _ 0
    s cout rfl
  obtain ⟨vh, ve, _, _⟩ := read_in_otf_any host locals data header
  refine ⟨d1, ?_, r1, ?_, by omega, ?_, ?_, hmax, ?_, ?_⟩
  · rw [a1, List.length_append, c1]
    omega
  · rw [b1, List.length_append, e1]
    omega
  · intro i hi
    omega
  · intro i hi
    exact Nat.mod_eq_of_lt (by omega)
  · rw [r2, hmax]
  · rw [ve, vh]
    simp

/-- C19. `Offset::get_tag_str` returns the longest start of the four tag bytes that
holds no zero byte: it is a start of the tag, never longer than 4, free of zero bytes,
and when shorter than 4 the tag byte right after it is zero; it has length 4 exactly
when no tag byte is zero, and then it is the whole tag. `Header::get_version_str` does
the same on the version bytes held in memory, so a header whose version number is
0x00010000 yields the empty string, as does the header decoded from a file that begins
with 00 01 00 00, on either host. -/
theorem get_tag_str_longest_zero_free_start (o : Offset) (h : Header) (host : ByteOrder)
    (locals : Locals) (rest : List Byte) (offset_table : OffsetTable) :
    o.get_tag_str.length ≤ 4 ∧
    o.get_tag_str <+: o.tag.str ∧
    (∀ b ∈ o.get_tag_str, b ≠ 0) ∧
    (o.get_tag_str.length < 4 → o.tag.str[o.get_tag_str.length]? = some 0) ∧
    (o.get_tag_str.length = 4 ↔ ∀ b ∈ o.tag.str, b ≠ 0) ∧
    ((∀ b ∈ o.tag.str, b ≠ 0) → o.get_tag_str = o.tag.str) ∧
    h.get_version_str.length ≤ 4 ∧
    h.get_version_str <+: h.version.str ∧
    (∀ b ∈ h.get_version_str, b ≠ 0) ∧
    (h.get_version_str.length < 4 → h.version.str[h.get_version_str.length]? = some 0) ∧
    (h.get_version_str.length = 4 ↔ ∀ b ∈ h.version.str, b ≠ 0) ∧
    ((∀ b ∈ h.version.str, b ≠ 0) → h.get_version_str = h.version.str) ∧
    (h.version.num host = VersionNum.V_1_0 → h.get_version_str = []) ∧
    (read_in_otf host locals (ifstream.open (0x00 :: 0x01 :: 0x00 :: 0x00 :: rest)) h
        offset_table).header.get_version_str = [] := by
  obtain ⟨t1, t2, t3, t4, t5, t6⟩ :=
    strncpy_string_spec o.tag.raw.m0 o.tag.raw.m1 o.tag.raw.m2 o.tag.raw.m3
  obtain ⟨v1, v2, v3, v4, v5, v6⟩ :=
    strncpy_string_spec h.version.raw.m0 h.version.raw.m1 h.version.raw.m2 h.version.raw.m3
  refine ⟨t1, t2, t3, t4, t5, t6, v1, v2, v3, v4, v5, v6,
    get_version_str_of_v_1_0 host h, ?_⟩
  apply get_version_str_of_v_1_0 host
  rw [read_in_otf_version, num_endswap_version]
  rfl

end OtfParser
